import Mathlib

/-! The assembler's line parser (`Parser.cpp`) and symbol table

A shallow embedding of `Parser.cpp`: the parser object is a record, every
member function is a function on that record, and a thrown exception is a
returned value together with the state the parser is left in.

* Text (`std::string`) is a `List Char`; `_currLine[_pos]` is `charAt`, which
  yields the NUL character at index `size()` as `std::string::operator[]` does.
* The input stream `_in` is the list of characters not yet read plus its
  `eofbit` and `failbit`; `getline` follows `std::getline`.
* The mnemonic tables `dest_mnemonics`, `comp_mnemonics`, `jump_mnemonics`
  are declared in `C_Commands.h`; they are a parameter (`Mnemonics`).
* The recursion of `hasMoreCommands` and the loop of `handleCCommand` are
  run on fuel; `none` means the fuel ran out.
* The body of `SymbolTable::formatAsBin` is not among the sources;
  `formatAsBin` is modelled from the specification.
-/

namespace Assembler

/-- Text of a `std::string`. -/
abbrev Text := List Char

/-- The NUL character, which `handleCCommand` uses for "end of line". -/
def NUL : Char := Char.ofNat 0

/-- The function `isspace` of `<cctype>` in the "C" locale: space, `\t`, `\n`, `\v`, `\f`, `\r`. -/
def isspace (c : Char) : Bool :=
  c.toNat == 32 || (9 ≤ c.toNat && c.toNat ≤ 13)

/-- The function `isdigit` of `<cctype>`. -/
def isdigit (c : Char) : Bool :=
  48 ≤ c.toNat && c.toNat ≤ 57

/-- The function `isalnum` of `<cctype>` in the "C" locale. -/
def isalnum (c : Char) : Bool :=
  isdigit c || (65 ≤ c.toNat && c.toNat ≤ 90) || (97 ≤ c.toNat && c.toNat ≤ 122)

/-- The expression `_currLine[_pos]`: the character at an index, NUL at index `size()`. -/
def charAt (line : Text) (i : Nat) : Char :=
  line.getD i NUL

/-- The kinds of command (`CommandType`). -/
inductive CommandType where
  | A_COMMAND
  | C_COMMAND
  | L_COMMAND
  deriving DecidableEq, Repr

/-- The exceptions the parser throws, with the constructor arguments of the
source: `SyntaxErrorException(lineNum, pos, line, message)` and
`IllegalCallException(message)`. -/
inductive Exn where
  | SyntaxErrorException (lineNum : Nat) (pos : Nat) (line : Text) (message : Text)
  | IllegalCallException (message : Text)
  deriving DecidableEq, Repr

/-- The three mnemonic tables of `C_Commands.h`, each through its
`isMnemonicValid`. -/
structure Mnemonics where
  dest_mnemonics : Text → Bool
  comp_mnemonics : Text → Bool
  jump_mnemonics : Text → Bool

/-- The parser object: the stream `_in` (unread characters, `eofbit`,
`failbit`) and the data members of `Parser`. -/
structure Parser where
  input : Text
  eofbit : Bool
  failbit : Bool
  currLine : Text
  pos : Nat
  lineNum : Nat
  cmdType : CommandType
  symbol : Text
  dest : Text
  comp : Text
  jump : Text
  deriving DecidableEq, Repr

/-- What a member function yields: the parser afterwards, and either the
returned value or the exception thrown. `none` is "out of fuel". -/
abbrev Outcome (α : Type) := Option (Parser × Except Exn α)

/-! ## The input stream -/

/-- Characters `std::getline` extracts: the text up to the first newline, the
characters left after that newline, and whether the end of the input was hit
before a newline. -/
def readLine : Text → Text × Text × Bool
  | [] => ([], [], true)
  | c :: cs =>
    if c = '\n' then ([], cs, false)
    else
      let r := readLine cs
      (c :: r.1, r.2.1, r.2.2)

/-- The call `getline(_in, _currLine)`. A stream that is not `good()` only gets
`failbit` and the string is left alone; otherwise the string is erased and
filled from the input, `eofbit` is set when the input ends before a newline,
and `failbit` when no character at all was extracted. -/
def getline (p : Parser) : Parser :=
  if p.eofbit || p.failbit then { p with failbit := true }
  else
    match p.input with
    | [] => { p with currLine := [], eofbit := true, failbit := true }
    | c :: cs =>
      let r := readLine (c :: cs)
      { p with currLine := r.1, input := r.2.1, eofbit := r.2.2 }

/-! ## Scanning helpers -/

/-- The loop `while(isspace(_currLine[_pos])) _pos++;` on the text from the
cursor on; at the end of the text the character read is NUL, not a space. -/
def skipWhitespaceLoop : Text → Nat → Nat
  | [], pos => pos
  | c :: cs, pos => if isspace c then skipWhitespaceLoop cs (pos + 1) else pos

/-- Embedding of `Parser::skipWhitespace`. -/
def skipWhitespace (p : Parser) : Parser :=
  { p with pos := skipWhitespaceLoop (p.currLine.drop p.pos) p.pos }

/-- Characters a symbol is made of: the test of `extractSymbol`. -/
def isSymbolChar (c : Char) : Bool :=
  isalnum c || c = '_' || c = '.' || c = '$' || c = ':'

/-- The loop of `extractSymbol` on the text from the cursor on: the symbol
read and the cursor after it. -/
def extractSymbolLoop : Text → Text → Nat → Text × Nat
  | [], sym, pos => (sym, pos)
  | c :: cs, sym, pos =>
    if !isSymbolChar c then (sym, pos)
    else extractSymbolLoop cs (sym ++ [c]) (pos + 1)

/-- Embedding of `Parser::extractSymbol`: the symbol, and the parser with the cursor just
after it. -/
def extractSymbol (p : Parser) : Text × Parser :=
  let r := extractSymbolLoop (p.currLine.drop p.pos) [] p.pos
  (r.1, { p with pos := r.2 })

/-- The loop `while(isdigit(_currLine[_pos])) sym += _currLine[_pos++];` of
`handleACommand`. -/
def digitsLoop : Text → Text → Nat → Text × Nat
  | [], sym, pos => (sym, pos)
  | c :: cs, sym, pos =>
    if isdigit c then digitsLoop cs (sym ++ [c]) (pos + 1)
    else (sym, pos)

/-- The message `"Unexpected '" + c + "'"`. -/
def unexpected (c : Char) : Text :=
  "Unexpected '".toList ++ [c] ++ "'".toList

/-! ## The handlers -/

/-- Embedding of `Parser::handleComment`. -/
def handleComment (p : Parser) : Parser × Except Exn Unit :=
  let p1 := { p with pos := p.pos + 1 }
  if charAt p1.currLine p1.pos = '/' then
    ({ p1 with pos := p1.currLine.length }, .ok ())
  else
    (p1, .error (.SyntaxErrorException p1.lineNum p1.pos p1.currLine
      (unexpected (charAt p1.currLine p1.pos))))

/-- Embedding of `Parser::handleACommand`. -/
def handleACommand (p : Parser) : Parser × Except Exn Unit :=
  let p1 := skipWhitespace { p with pos := p.pos + 1 }
  let r : Text × Parser :=
    if !isdigit (charAt p1.currLine p1.pos) then extractSymbol p1
    else
      let d := digitsLoop (p1.currLine.drop p1.pos) [] p1.pos
      (d.1, { p1 with pos := d.2 })
  let sym := r.1
  let p2 := skipWhitespace r.2
  let err_message := unexpected (charAt p2.currLine p2.pos)
  if p2.pos ≠ p2.currLine.length then
    (p2, .error (.SyntaxErrorException p2.lineNum p2.pos p2.currLine err_message))
  else
    ({ p2 with pos := p2.currLine.length, symbol := sym, cmdType := .A_COMMAND }, .ok ())

/-- Embedding of `Parser::handleLCommand`. -/
def handleLCommand (p : Parser) : Parser × Except Exn Unit :=
  let p1 := skipWhitespace { p with pos := p.pos + 1 }
  let r := extractSymbol p1
  let label := r.1
  let p2 := r.2
  if charAt p2.currLine p2.pos ≠ ')' then
    (p2, .error (.SyntaxErrorException p2.lineNum p2.pos p2.currLine "')' Expected".toList))
  else
    let p3 := skipWhitespace { p2 with pos := p2.pos + 1 }
    let err_message := "Unexpected '".toList ++ [charAt p3.currLine p3.pos] ++ "'\n".toList
    if p3.pos ≠ p3.currLine.length then
      (p3, .error (.SyntaxErrorException p3.lineNum p3.pos p3.currLine err_message))
    else
      ({ p3 with symbol := label, cmdType := .L_COMMAND, pos := p3.currLine.length }, .ok ())

/-- The variables of the loop of `handleCCommand`: the locals `state`, `s`,
`comp_pos`, `jump_pos` and the members `_pos`, `_dest`, `_comp`, `_jump`. -/
structure CScan where
  state : Nat
  s : Text
  pos : Nat
  comp_pos : Nat
  jump_pos : Nat
  dest : Text
  comp : Text
  jump : Text
  deriving DecidableEq, Repr

/-- The body of `while(state < 3)` in `handleCCommand` once the character
`c` has been fetched. -/
def cBody (c : Char) (st : CScan) : CScan :=
  if isspace c then { st with pos := st.pos + 1 }
  else if st.state = 0 then
    if c = '=' then
      { st with dest := st.s, s := [], comp_pos := st.pos, jump_pos := st.pos,
                state := 1, pos := st.pos + 1 }
    else if c = ';' ∨ c = '/' ∨ c = NUL then
      { st with dest := "null".toList, comp := st.s, s := [], jump_pos := st.pos,
                state := 2, pos := st.pos + 1 }
    else { st with s := st.s ++ [c], pos := st.pos + 1 }
  else if st.state = 1 then
    if c = ';' ∨ c = '/' ∨ c = NUL then
      { st with comp := st.s, s := [], jump_pos := st.pos, state := 2, pos := st.pos + 1 }
    else { st with s := st.s ++ [c], pos := st.pos + 1 }
  else if st.state = 2 then
    if c = '/' ∨ c = NUL then
      { st with jump := if st.s = [] then "null".toList else st.s, state := 3,
                s := st.s ++ [c], pos := st.pos + 1 }
    else { st with s := st.s ++ [c], pos := st.pos + 1 }
  else { st with s := st.s ++ [c], pos := st.pos + 1 }

/-- One pass through `while(state < 3)` in `handleCCommand`: `c` is NUL at the
end of the line and the character at the cursor otherwise. -/
def cStep (line : Text) (st : CScan) : CScan :=
  cBody (if st.pos ≥ line.length then NUL else charAt line st.pos) st

/-- The loop `while(state < 3)` of `handleCCommand`, on fuel. -/
def cLoop (line : Text) : Nat → CScan → Option CScan
  | 0, st => if st.state < 3 then none else some st
  | fuel + 1, st => if st.state < 3 then cLoop line fuel (cStep line st) else some st

/-- Embedding of `Parser::handleCCommand`. The loop is given `size() - _pos + 3` passes. -/
def handleCCommand (V : Mnemonics) (p : Parser) : Outcome Unit :=
  let p1 := skipWhitespace p
  let init : CScan :=
    { state := 0, s := [], pos := p1.pos, comp_pos := p1.pos, jump_pos := p1.pos,
      dest := p1.dest, comp := p1.comp, jump := p1.jump }
  let dest_pos := p1.pos
  match cLoop p1.currLine (p1.currLine.length - p1.pos + 3) init with
  | none => none
  | some st =>
    let p2 := { p1 with pos := st.pos, dest := st.dest, comp := st.comp, jump := st.jump }
    if !V.dest_mnemonics p2.dest then
      some (p2, .error (.SyntaxErrorException p2.lineNum dest_pos p2.currLine
        ("Bad destination. '".toList ++ p2.dest ++ "' given.".toList)))
    else if !V.comp_mnemonics p2.comp then
      some (p2, .error (.SyntaxErrorException p2.lineNum st.comp_pos p2.currLine
        ("Bad comp. '".toList ++ p2.comp ++ "' given.".toList)))
    else if !V.jump_mnemonics p2.jump then
      some (p2, .error (.SyntaxErrorException p2.lineNum st.jump_pos p2.currLine
        ("Bad jump. '".toList ++ p2.jump ++ "' given.".toList)))
    else
      some ({ p2 with cmdType := .C_COMMAND, pos := p2.currLine.length }, .ok ())

/-! ## The interface -/

/-- Embedding of `Parser::hasMoreCommands`, on fuel: one unit per call of the function. -/
def hasMoreCommandsFuel : Nat → Parser → Outcome Bool
  | 0, _ => none
  | fuel + 1, p =>
    if p.failbit then some (p, .ok false)
    else
      let p1 := skipWhitespace p
      if p1.pos = p1.currLine.length then
        let p2 := skipWhitespace { getline p1 with pos := 0 }
        if p2.pos = p2.currLine.length then hasMoreCommandsFuel fuel p2
        else if charAt p2.currLine p2.pos = '/' then
          match handleComment p2 with
          | (p3, .error e) => some (p3, .error e)
          | (p3, .ok _) => hasMoreCommandsFuel fuel p3
        else some (p2, .ok true)
      else some (p1, .ok true)

/-- Embedding of `Parser::hasMoreCommands`. Every call but the last reads a line, so
`input.length + 2` calls are enough (`hasMoreCommands_total`). -/
def hasMoreCommands (p : Parser) : Outcome Bool :=
  hasMoreCommandsFuel (p.input.length + 2) p

/-- Embedding of `Parser::advance`. -/
def advance (V : Mnemonics) (p : Parser) : Outcome Unit :=
  match hasMoreCommands p with
  | none => none
  | some (p1, .error e) => some (p1, .error e)
  | some (p1, .ok false) => some (p1, .error (.IllegalCallException "Illegal Call".toList))
  | some (p1, .ok true) =>
    let r : Outcome Unit :=
      if charAt p1.currLine p1.pos = '(' then some (handleLCommand p1)
      else if charAt p1.currLine p1.pos = '@' then some (handleACommand p1)
      else handleCCommand V p1
    match r with
    | none => none
    | some (p2, .error e) => some (p2, .error e)
    | some (p2, .ok _) => some ({ p2 with lineNum := p2.lineNum + 1 }, .ok ())

/-- Embedding of `Parser::commandType`. -/
def commandType (p : Parser) : CommandType := p.cmdType

/-- Embedding of `Parser::symbol`. -/
def symbol (p : Parser) : Text := p.symbol

/-- Embedding of `Parser::dest`. -/
def dest (p : Parser) : Text := p.dest

/-- Embedding of `Parser::comp`. -/
def comp (p : Parser) : Text := p.comp

/-- Embedding of `Parser::jump`. -/
def jump (p : Parser) : Text := p.jump

/-! ## Sample data for concrete runs -/

/-- A parser that has read nothing yet, on a stream holding `input`. The
constructor is in `Parser.h`; the counter starts at 1 and the accessors hold
sample values. -/
def fresh (input : Text) : Parser :=
  { input := input, eofbit := false, failbit := false, currLine := [], pos := 0,
    lineNum := 1, cmdType := .A_COMMAND, symbol := [], dest := [], comp := [], jump := [] }

/-- The mnemonic tables of the Hack machine language, as sample tables. -/
def hack : Mnemonics where
  dest_mnemonics t := decide (t ∈ ["null", "M", "D", "MD", "A", "AM", "AD", "AMD"].map String.toList)
  comp_mnemonics t := decide (t ∈ ["0", "1", "-1", "D", "A", "!D", "!A", "-D", "-A", "D+1", "A+1",
    "D-1", "A-1", "D+A", "D-A", "A-D", "D&A", "D|A", "M", "!M", "-M", "M+1", "M-1", "D+M",
    "D-M", "M-D", "D&M", "D|M"].map String.toList)
  jump_mnemonics t := decide (t ∈ ["null", "JGT", "JEQ", "JGE", "JLT", "JNE", "JLE", "JMP"].map String.toList)

/-- The parser is between two lines and `line` is the next line of the stream:
the stream is good, nothing but whitespace is left of the current line, and the
unread input is `line` followed by `tail`, which is either empty (`line` is
the last line and has no newline after it) or starts with the newline that
ends `line`. -/
def AtLine (p : Parser) (line tail : Text) : Prop :=
  p.failbit = false ∧ p.eofbit = false ∧
  skipWhitespaceLoop (p.currLine.drop p.pos) p.pos = p.currLine.length ∧
  p.input = line ++ tail ∧ '\n' ∉ line ∧
  (tail.take 1 = ['\n'] ∨ (tail = [] ∧ line ≠ []))

instance (p : Parser) (line tail : Text) : Decidable (AtLine p line tail) := by
  unfold AtLine; infer_instance

/-- The parser once `hasMoreCommands` has read `line` in a state
`AtLine p line tail` and has left the cursor at `k`. -/
def lineRead (p : Parser) (line tail : Text) (k : Nat) : Parser :=
  { input := tail.drop 1, eofbit := tail.isEmpty, failbit := p.failbit, currLine := line,
    pos := k, lineNum := p.lineNum, cmdType := p.cmdType, symbol := p.symbol,
    dest := p.dest, comp := p.comp, jump := p.jump }

/-- The end of `advance`: an exception of the handler is passed on, and
after a handler that returned `_lineNum++` is run. -/
def finish : Outcome Unit → Outcome Unit
  | none => none
  | some (p2, .error e) => some (p2, .error e)
  | some (p2, .ok _) => some ({ p2 with lineNum := p2.lineNum + 1 }, .ok ())

/-- The `switch` of `advance` and the `_lineNum++` after it: what `advance`
does once `hasMoreCommands` has returned true. -/
def dispatch (V : Mnemonics) (p1 : Parser) : Outcome Unit :=
  finish
    (if charAt p1.currLine p1.pos = '(' then some (handleLCommand p1)
     else if charAt p1.currLine p1.pos = '@' then some (handleACommand p1)
     else handleCCommand V p1)

/-- A user symbol of the data model: a non-empty run of symbol characters that
does not begin with a digit. -/
def IsSymbol (t : Text) : Prop :=
  t ≠ [] ∧ (∀ c ∈ t, isSymbolChar c = true) ∧ isdigit (t.headD NUL) = false

/-- A numeral: a non-empty run of decimal digits. -/
def IsNumeral (t : Text) : Prop :=
  t ≠ [] ∧ ∀ c ∈ t, isdigit c = true

instance (t : Text) : Decidable (IsSymbol t) := by
  unfold IsSymbol; infer_instance

instance (t : Text) : Decidable (IsNumeral t) := by
  unfold IsNumeral; infer_instance

/-- A character that the scan of `handleCCommand` puts into a field in every
state: not whitespace and none of `=`, `;`, `/`, NUL. -/
def isFieldChar (c : Char) : Bool :=
  !isspace c && c ≠ '=' && c ≠ ';' && c ≠ '/' && c ≠ NUL

/-- A field text of a compute instruction as the scan reads it back unchanged:
non-empty and made of field characters. -/
def IsField (t : Text) : Prop :=
  t ≠ [] ∧ ∀ c ∈ t, isFieldChar c = true

instance (t : Text) : Decidable (IsField t) := by
  unfold IsField; infer_instance

/-- The exception is a `SyntaxErrorException`. -/
def Exn.isSyntaxError : Exn → Bool
  | .SyntaxErrorException _ _ _ _ => true
  | .IllegalCallException _ => false

/-- The exception is an `IllegalCallException`. -/
def Exn.isIllegalCall : Exn → Bool
  | .SyntaxErrorException _ _ _ _ => false
  | .IllegalCallException _ => true

/-- A bound on the calls of `hasMoreCommands` that one call from `p` makes,
itself included: one when the stream has failed, two when it is at its end,
and otherwise two more than the number of unread characters. -/
def callBound (p : Parser) : Nat :=
  if p.failbit then 1 else if p.eofbit then 2 else p.input.length + 2

/-! ## Blank lines and comment lines -/

/-- A line that `hasMoreCommands` skips: it holds no newline and, after its
leading whitespace, it either ends or goes on with `//`. -/
def isJunkLine (l : Text) : Bool :=
  decide ('\n' ∉ l) &&
    (skipWhitespaceLoop l 0 == l.length
      || (charAt l (skipWhitespaceLoop l 0) == '/'
          && charAt l (skipWhitespaceLoop l 0 + 1) == '/'))

/-- The input `b` is the input `a` with any number of whitespace-only or
comment-only lines inserted at the start of the input or after any of its
newline-terminated lines: `junk` puts such a line and its newline in front,
`line` steps over a line of the input, and `last` puts such a line without a
newline at the very end. -/
inductive Padded : Text → Text → Prop
  | same (a : Text) : Padded a a
  | junk (l a b : Text) : isJunkLine l = true → Padded a b → Padded a (l ++ '\n' :: b)
  | line (l a b : Text) : '\n' ∉ l → Padded a b → Padded (l ++ '\n' :: a) (l ++ '\n' :: b)
  | last (l : Text) : isJunkLine l = true → Padded [] l

/-- What the accessors give after a successful `advance`. -/
structure Instruction where
  kind : CommandType
  symbol : Text
  dest : Text
  comp : Text
  jump : Text
  deriving DecidableEq, Repr

/-- The instruction the accessors of `p` show. -/
def instruction (p : Parser) : Instruction :=
  { kind := commandType p, symbol := symbol p, dest := dest p, comp := comp p, jump := jump p }

/-- How the loop of the driver ends: `hasMoreCommands` returned false, or an
exception came out of `hasMoreCommands` or `advance`. -/
inductive Ending where
  | done
  | thrown (e : Exn)
  deriving DecidableEq, Repr

/-- A run of the driver: the instructions produced, how the run ended, and
the value of the counter at the end. -/
structure Run where
  instructions : List Instruction
  ending : Ending
  lineNum : Nat
  deriving DecidableEq, Repr

/-- The loop `while (hasMoreCommands()) advance();` of a driver, which reads
the accessors after each `advance`; one unit of fuel per turn of the loop. -/
def driveFuel (V : Mnemonics) : Nat → Parser → Option Run
  | 0, _ => none
  | fuel + 1, p =>
    match hasMoreCommands p with
    | none => none
    | some (p1, .error e) => some ⟨[], .thrown e, p1.lineNum⟩
    | some (p1, .ok false) => some ⟨[], .done, p1.lineNum⟩
    | some (p1, .ok true) =>
      match advance V p1 with
      | none => none
      | some (p2, .error e) => some ⟨[], .thrown e, p2.lineNum⟩
      | some (p2, .ok _) =>
        match driveFuel V fuel p2 with
        | none => none
        | some r => some ⟨instruction p2 :: r.instructions, r.ending, r.lineNum⟩

/-- The loop of the driver. A turn after the first reads a line or finds the
stream at its end, so `input.length + 3` turns are enough (`drive_total`). -/
def drive (V : Mnemonics) (p : Parser) : Option Run :=
  driveFuel V (p.input.length + 3) p

/-- The part of `hasMoreCommands` after `getline`, with `again` for the
recursive call. -/
def afterGetline (again : Parser → Outcome Bool) (g : Parser) : Outcome Bool :=
  let p2 := skipWhitespace { g with pos := 0 }
  if p2.pos = p2.currLine.length then again p2
  else if charAt p2.currLine p2.pos = '/' then
    match handleComment p2 with
    | (p3, .error e) => some (p3, .error e)
    | (p3, .ok _) => again p3
  else some (p2, .ok true)

/-- Nothing but whitespace is left of the current line. -/
def Exhausted (p : Parser) : Prop :=
  skipWhitespaceLoop (p.currLine.drop p.pos) p.pos = p.currLine.length

/-- Two parsers show the same stream state, counter and accessor values. -/
def SameView (p q : Parser) : Prop :=
  p.eofbit = q.eofbit ∧ p.failbit = q.failbit ∧ p.lineNum = q.lineNum ∧ p.cmdType = q.cmdType
  ∧ p.symbol = q.symbol ∧ p.dest = q.dest ∧ p.comp = q.comp ∧ p.jump = q.jump

/-- The simulation between a parser and one whose input has extra blank and
comment lines: both are at the same place of the same line, or both are at
the end of a line with a good stream, or the stream has failed. -/
def Related (p q : Parser) : Prop :=
  SameView p q ∧ Padded p.input q.input
  ∧ ((p.currLine = q.currLine ∧ p.pos = q.pos)
    ∨ (Exhausted p ∧ Exhausted q ∧ p.eofbit = false ∧ p.failbit = false)
    ∨ p.failbit = true)

/-- What the simulation keeps after a call of `hasMoreCommands` that gave `x`:
the parsers are related, and when true was returned they are at the same place
of the same line. -/
def Post (p q : Parser) (x : Except Exn Bool) : Prop :=
  Related p q ∧ (x = .ok true → p.currLine = q.currLine ∧ p.pos = q.pos)

/-- What a handler leaves alone and where it stops: `r` is the outcome on `q`,
`r'` the outcome on `q` with the unread input replaced by `b`. -/
def HandlerShape (q : Parser) (b : Text) (r r' : Parser × Except Exn Unit) : Prop :=
  r' = ({ r.1 with input := b }, r.2) ∧ r.1.input = q.input ∧ r.1.eofbit = q.eofbit
  ∧ r.1.failbit = q.failbit ∧ (r.2 = .ok () → r.1.pos = r.1.currLine.length)

/-! ## The symbol table -/

/-- Binary digits of `a`, the most significant first, in a field of `n`
characters: the zero-padded rendering that `formatAsBin` is specified to give. -/
def binDigits : Nat → Nat → Text
  | 0, _ => []
  | n + 1, a => binDigits n (a / 2) ++ [if a % 2 = 1 then '1' else '0']

/-- Modelled from the spec: `SymbolTable::formatAsBin`, which `SymbolTable.h`
declares and whose body is not among the sources. The spec: "renders a
non-negative integer as a fixed-width (16-bit, architecture-defined) binary
digit string, zero-padded on the left". -/
def formatAsBin (addr : Nat) : Text :=
  binDigits 16 addr

/-- A string of binary digits read as a base-2 numeral, the most significant
digit first. -/
def readBin (t : Text) : Nat :=
  t.foldl (fun acc c => 2 * acc + (if c = '1' then 1 else 0)) 0

/-! ## The scan of a compute instruction as a run over characters -/

/-- The body of the loop of `handleCCommand` run over given characters, for as
long as `state < 3`. -/
def cRun : Text → CScan → CScan
  | [], st => st
  | c :: cs, st => if st.state < 3 then cRun cs (cBody c st) else st

/-- The scan of `handleCCommand` on `line` from cursor `k`, with `d`, `c`, `j`
the values of `_dest`, `_comp`, `_jump` before: the loop body over the
characters from `k` on and then over the NUL that stands for the end of the
line. -/
def scanLine (line : Text) (k : Nat) (d c j : Text) : CScan :=
  cRun (line.drop k ++ [NUL, NUL, NUL]) ⟨0, [], k, k, k, d, c, j⟩

/-- The end of `handleCCommand`: the members take the fields that the scan
`st` found, and the three fields are validated in turn; `dest_pos` is the
cursor where the scan began. -/
def validate (V : Mnemonics) (q : Parser) (dest_pos : Nat) (st : CScan) :
    Parser × Except Exn Unit :=
  if (!V.dest_mnemonics st.dest) = true then
    ({ q with pos := st.pos, dest := st.dest, comp := st.comp, jump := st.jump },
      .error (.SyntaxErrorException q.lineNum dest_pos q.currLine
        ("Bad destination. '".toList ++ st.dest ++ "' given.".toList)))
  else if (!V.comp_mnemonics st.comp) = true then
    ({ q with pos := st.pos, dest := st.dest, comp := st.comp, jump := st.jump },
      .error (.SyntaxErrorException q.lineNum st.comp_pos q.currLine
        ("Bad comp. '".toList ++ st.comp ++ "' given.".toList)))
  else if (!V.jump_mnemonics st.jump) = true then
    ({ q with pos := st.pos, dest := st.dest, comp := st.comp, jump := st.jump },
      .error (.SyntaxErrorException q.lineNum st.jump_pos q.currLine
        ("Bad jump. '".toList ++ st.jump ++ "' given.".toList)))
  else
    ({ q with pos := q.currLine.length, dest := st.dest, comp := st.comp,
              jump := st.jump, cmdType := .C_COMMAND }, .ok ())

/-- Two states of the scan agree on what has been decided so far: the state,
the accumulator while the scan runs, and each field once it is assigned. -/
def Agree (st st' : CScan) : Prop :=
  st.state = st'.state ∧ (st.state < 3 → st.s = st'.s)
  ∧ (1 ≤ st.state → st.dest = st'.dest) ∧ (2 ≤ st.state → st.comp = st'.comp)
  ∧ (3 ≤ st.state → st.jump = st'.jump)

/-- The message of the exception of an outcome, if there is one. -/
def errorMessage : Except Exn Unit → Option Text
  | .ok _ => none
  | .error (.SyntaxErrorException _ _ _ m) => some m
  | .error (.IllegalCallException m) => some m

/-- Two outcomes of `advance` give the same verdict on a compute line: the
same destination, computation and jump in the accessors, success in both or
in neither, and the same error message, which names the rejected field and
quotes it. -/
def SameVerdict (x x' : Parser × Except Exn Unit) : Prop :=
  dest x.1 = dest x'.1 ∧ comp x.1 = comp x'.1 ∧ jump x.1 = jump x'.1
  ∧ (x.2 = .ok () ↔ x'.2 = .ok ()) ∧ errorMessage x.2 = errorMessage x'.2

/-! ## Lines inserted after a last line without a newline -/

/-- The input `b` is the input `a` with any number of whitespace-only or
comment-only lines inserted anywhere: the constructors of `Padded`, and
`after`, which puts such lines after a last line `l` that has no newline of
its own; the text inserted is then the newline that ends `l` followed by
`b`, an input made only of such lines (when `b` is empty, the newline
alone). Every `Padded a b` is an `Inserted a b` (`padded_inserted`), and
`after` is what relates `@1` without a newline to the same line followed by a
newline and a comment line. -/
inductive Inserted : Text → Text → Prop
  | same (a : Text) : Inserted a a
  | junk (l a b : Text) : isJunkLine l = true → Inserted a b → Inserted a (l ++ '\n' :: b)
  | line (l a b : Text) : '\n' ∉ l → Inserted a b → Inserted (l ++ '\n' :: a) (l ++ '\n' :: b)
  | last (l : Text) : isJunkLine l = true → Inserted [] l
  | after (l b : Text) : '\n' ∉ l → Inserted [] b → Inserted l (l ++ '\n' :: b)

/-- Two parsers show the same counter and accessor values. -/
def SameAcc (p q : Parser) : Prop :=
  p.lineNum = q.lineNum ∧ p.cmdType = q.cmdType ∧ p.symbol = q.symbol ∧ p.dest = q.dest
  ∧ p.comp = q.comp ∧ p.jump = q.jump

/-- A line on which `hasMoreCommands` returns true: after its leading
whitespace there is a character, and it is not `/`. -/
def IsInstrLine (l : Text) : Prop :=
  skipWhitespaceLoop l 0 ≠ l.length ∧ charAt l (skipWhitespaceLoop l 0) ≠ '/'

/-- The simulation between a parser and one whose input has one more newline
at its end, as long as the last line has not been read: the same place of
the same line and the same stream state. -/
def NewlineAdded (p q : Parser) : Prop :=
  SameView p q ∧ p.currLine = q.currLine ∧ p.pos = q.pos ∧ q.input = p.input ++ ['\n']

/-- The simulation once the last line has been read: `p` found the end of
the input after it and has `eofbit` set, `q` found the newline and has
nothing left to read; both are at the same place of that line, which holds an
instruction. -/
def LastLineRead (p q : Parser) : Prop :=
  SameAcc p q ∧ p.eofbit = true ∧ q.eofbit = false ∧ p.failbit = false ∧ q.failbit = false
  ∧ q.input = [] ∧ p.currLine = q.currLine ∧ p.pos = q.pos ∧ IsInstrLine p.currLine

/-- Two runs of the driver with the same instructions and the same final
counter, that end the same way or else the first with the IllegalCall that
`advance` throws and the second with `hasMoreCommands` returning false. -/
def SameOutput (r r' : Run) : Prop :=
  r.instructions = r'.instructions ∧ r.lineNum = r'.lineNum
  ∧ (r.ending = r'.ending
    ∨ (r.ending = .thrown (.IllegalCallException "Illegal Call".toList) ∧ r'.ending = .done))

/-- What a handler leaves alone and where it stops: `r` is the outcome on `q`,
`r'` the outcome on `q` with the stream replaced by the unread input `i` and
the bits `e` and `f`. -/
def StreamShape (q : Parser) (i : Text) (e f : Bool) (r r' : Parser × Except Exn Unit) : Prop :=
  r' = ({ r.1 with input := i, eofbit := e, failbit := f }, r.2) ∧ r.1.input = q.input
  ∧ r.1.eofbit = q.eofbit ∧ r.1.failbit = q.failbit ∧ r.1.currLine = q.currLine
  ∧ (r.2 = .ok () → r.1.pos = r.1.currLine.length)

/-- What that simulation keeps after a call of `hasMoreCommands` that gave
`x`: the counter and the accessors agree, and when true was returned the
parsers are at the same place of the same line, before or after the last
line has been read. -/
def AfterCall (p q : Parser) (x : Except Exn Bool) : Prop :=
  SameAcc p q
  ∧ (x = .ok true → NewlineAdded p q ∨ (LastLineRead p q ∧ ¬ Exhausted p))

end Assembler

open Assembler

/-! ## Scanning lemmas -/

theorem isspace_NUL : isspace NUL = false := by decide

theorem charAt_length (l : Text) : charAt l l.length = NUL := by
  simp [charAt, List.getD]

theorem charAt_of_le (l : Text) (i : Nat) (h : l.length ≤ i) : charAt l i = NUL := by
  simp [charAt, List.getD, List.getElem?_eq_none h]

theorem charAt_eq_head_drop (l : Text) (i : Nat) :
    charAt l i = (l.drop i).headD NUL := by
  induction l generalizing i with
  | nil => simp [charAt]
  | cons a l ih =>
    cases i with
    | zero => simp [charAt]
    | succ i => simp [charAt]

theorem charAt_append_cons (pre : Text) (c : Char) (post : Text) :
    charAt (pre ++ c :: post) pre.length = c := by
  simp [charAt_eq_head_drop]

theorem charAt_append_nil (pre : Text) : charAt (pre ++ []) pre.length = NUL := by
  simp [charAt_eq_head_drop]

theorem readLine_append (line tail : Text) (h : '\n' ∉ line)
    (ht : tail.take 1 = ['\n'] ∨ tail = []) :
    readLine (line ++ tail) = (line, tail.drop 1, tail.isEmpty) := by
  induction line with
  | nil =>
    rcases ht with ht | ht
    · cases tail with
      | nil => simp at ht
      | cons a t =>
        simp at ht
        subst ht
        simp [readLine]
    · subst ht; simp [readLine]
  | cons a l ih =>
    have ha : a ≠ '\n' := by
      intro h1; apply h; simp [h1]
    have hl : '\n' ∉ l := by
      intro h1; apply h; simp [h1]
    simp [readLine, ha, ih hl]

theorem skipWhitespaceLoop_append (ws rest : Text) (pos : Nat)
    (hws : ∀ c ∈ ws, isspace c = true) (hrest : isspace (rest.headD NUL) = false) :
    skipWhitespaceLoop (ws ++ rest) pos = pos + ws.length := by
  induction ws generalizing pos with
  | nil =>
    cases rest with
    | nil => simp [skipWhitespaceLoop]
    | cons a r =>
      simp at hrest
      simp [skipWhitespaceLoop, hrest]
  | cons a w ih =>
    have ha : isspace a = true := hws a (by simp)
    have hw : ∀ c ∈ w, isspace c = true := fun c hc => hws c (by simp [hc])
    simp [skipWhitespaceLoop, ha, ih (pos + 1) hw]
    omega

theorem skipWhitespaceLoop_stop (rest : Text) (pos : Nat)
    (hrest : isspace (rest.headD NUL) = false) :
    skipWhitespaceLoop rest pos = pos := by
  simpa using skipWhitespaceLoop_append [] rest pos (by simp) hrest

theorem extractSymbolLoop_append (name rest sym : Text) (pos : Nat)
    (hn : ∀ c ∈ name, isSymbolChar c = true) (hrest : isSymbolChar (rest.headD NUL) = false) :
    extractSymbolLoop (name ++ rest) sym pos = (sym ++ name, pos + name.length) := by
  induction name generalizing sym pos with
  | nil =>
    cases rest with
    | nil => simp [extractSymbolLoop]
    | cons a r =>
      simp at hrest
      simp [extractSymbolLoop, hrest]
  | cons a w ih =>
    have ha : isSymbolChar a = true := hn a (by simp)
    have hw : ∀ c ∈ w, isSymbolChar c = true := fun c hc => hn c (by simp [hc])
    simp [extractSymbolLoop, ha, ih (sym ++ [a]) (pos + 1) hw]
    omega

theorem digitsLoop_append (ds rest sym : Text) (pos : Nat)
    (hn : ∀ c ∈ ds, isdigit c = true) (hrest : isdigit (rest.headD NUL) = false) :
    digitsLoop (ds ++ rest) sym pos = (sym ++ ds, pos + ds.length) := by
  induction ds generalizing sym pos with
  | nil =>
    cases rest with
    | nil => simp [digitsLoop]
    | cons a r =>
      simp at hrest
      simp [digitsLoop, hrest]
  | cons a w ih =>
    have ha : isdigit a = true := hn a (by simp)
    have hw : ∀ c ∈ w, isdigit c = true := fun c hc => hn c (by simp [hc])
    simp [digitsLoop, ha, ih (sym ++ [a]) (pos + 1) hw]
    omega

/-! ## Reading the next line -/

theorem getline_good (q : Parser) (line tail : Text) (hf : q.failbit = false)
    (he : q.eofbit = false) (hin : q.input = line ++ tail) (hnl : '\n' ∉ line)
    (ht : tail.take 1 = ['\n'] ∨ (tail = [] ∧ line ≠ [])) :
    getline q = { q with currLine := line, input := tail.drop 1, eofbit := tail.isEmpty } := by
  have hr := readLine_append line tail hnl (by tauto)
  unfold getline
  simp only [hf, he, hin]
  cases hlt : line ++ tail with
  | nil =>
    exfalso
    simp at hlt
    rcases ht with ht | ht
    · simp [hlt.2] at ht
    · exact ht.2 hlt.1
  | cons a l =>
    rw [hlt] at hr
    simp [hr]

theorem hasMoreCommands_atLine (p : Parser) (line tail : Text) (h : AtLine p line tail)
    (hne : skipWhitespaceLoop line 0 ≠ line.length)
    (hc : charAt line (skipWhitespaceLoop line 0) ≠ '/') :
    hasMoreCommands p
      = some (lineRead p line tail (skipWhitespaceLoop line 0), .ok true) := by
  obtain ⟨input, eofbit, failbit, cur, pos, ln, ct, sy, de, co, ju⟩ := p
  simp only [AtLine] at h
  obtain ⟨rfl, rfl, hx, rfl, hnl, ht⟩ := h
  have hg := getline_good ⟨line ++ tail, false, false, cur, cur.length, ln, ct, sy, de, co, ju⟩
    line tail rfl rfl rfl hnl ht
  unfold hasMoreCommands
  rw [hasMoreCommandsFuel]
  simp [skipWhitespace, hx, hg, lineRead, hne, hc]

theorem advance_eq_dispatch (V : Mnemonics) (p p1 : Parser)
    (h : hasMoreCommands p = some (p1, .ok true)) : advance V p = dispatch V p1 := by
  unfold advance dispatch
  rw [h]
  simp only
  split <;> simp_all [finish]

theorem advance_atLine (V : Mnemonics) (p : Parser) (line tail : Text) (h : AtLine p line tail)
    (hne : skipWhitespaceLoop line 0 ≠ line.length)
    (hc : charAt line (skipWhitespaceLoop line 0) ≠ '/') :
    advance V p = dispatch V (lineRead p line tail (skipWhitespaceLoop line 0)) :=
  advance_eq_dispatch V p _ (hasMoreCommands_atLine p line tail h hne hc)

/-! ## Character classes -/

theorem isdigit_not_isspace (c : Char) (h : isdigit c = true) : isspace c = false := by
  simp only [isdigit, isspace, Bool.and_eq_true, decide_eq_true_eq, Bool.or_eq_false_iff,
    beq_eq_false_iff_ne, Bool.and_eq_false_iff, decide_eq_false_iff_not] at h ⊢
  omega

theorem isSymbolChar_not_isspace (c : Char) (h : isSymbolChar c = true) : isspace c = false := by
  simp only [isSymbolChar, isalnum, Bool.or_eq_true, decide_eq_true_eq] at h
  rcases h with (((((h | h) | h) | h) | h) | h) | h
  · exact isdigit_not_isspace c h
  · simp only [isspace, Bool.and_eq_true, decide_eq_true_eq, Bool.or_eq_false_iff,
      beq_eq_false_iff_ne, Bool.and_eq_false_iff, decide_eq_false_iff_not] at h ⊢
    omega
  · simp only [isspace, Bool.and_eq_true, decide_eq_true_eq, Bool.or_eq_false_iff,
      beq_eq_false_iff_ne, Bool.and_eq_false_iff, decide_eq_false_iff_not] at h ⊢
    omega
  all_goals subst h; decide

theorem isdigit_isSymbolChar (c : Char) (h : isdigit c = true) : isSymbolChar c = true := by
  simp [isSymbolChar, isalnum, h]

theorem isdigit_NUL : isdigit NUL = false := by decide

theorem isSymbolChar_NUL : isSymbolChar NUL = false := by decide

/-! ## Address instructions -/

theorem handleACommand_eq (q : Parser) (k1 k2 k3 : Nat) (sym : Text)
    (h1 : skipWhitespaceLoop (q.currLine.drop (q.pos + 1)) (q.pos + 1) = k1)
    (h2 : (if isdigit (charAt q.currLine k1) = true then digitsLoop (q.currLine.drop k1) [] k1
            else extractSymbolLoop (q.currLine.drop k1) [] k1) = (sym, k2))
    (h3 : skipWhitespaceLoop (q.currLine.drop k2) k2 = k3) :
    handleACommand q =
      if k3 ≠ q.currLine.length then
        ({ q with pos := k3 },
          .error (.SyntaxErrorException q.lineNum k3 q.currLine (unexpected (charAt q.currLine k3))))
      else ({ q with pos := q.currLine.length, symbol := sym, cmdType := .A_COMMAND }, .ok ()) := by
  subst h1 h3
  unfold handleACommand skipWhitespace extractSymbol
  by_cases hd : isdigit (charAt q.currLine
      (skipWhitespaceLoop (q.currLine.drop (q.pos + 1)) (q.pos + 1))) = true
  · rw [if_pos hd] at h2
    simp only [hd, Bool.not_true, Bool.false_eq_true, if_false, h2]
  · rw [if_neg hd] at h2
    simp only [hd, Bool.not_false, if_true, h2]

theorem handleACommand_token (q : Parser) (t : Text) (hq : q.currLine = '@' :: t)
    (hp : q.pos = 0) (ht : IsNumeral t ∨ IsSymbol t) :
    handleACommand q
      = ({ q with pos := q.currLine.length, symbol := t, cmdType := .A_COMMAND }, .ok ()) := by
  have hdrop : q.currLine.drop (q.pos + 1) = t := by rw [hq, hp]; rfl
  have hlen : q.currLine.length = 1 + t.length := by rw [hq]; simp; omega
  have hend : q.currLine.drop (1 + t.length) = [] := by rw [← hlen]; simp
  have hne : t ≠ [] := by rcases ht with h | h <;> exact h.1
  obtain ⟨a, u, rfl⟩ := List.exists_cons_of_ne_nil hne
  have hch : charAt q.currLine 1 = a := by rw [hq]; rfl
  have hsp : isspace a = false := by
    rcases ht with ⟨_, hd⟩ | ⟨_, hs, _⟩
    · exact isdigit_not_isspace a (hd a (by simp))
    · exact isSymbolChar_not_isspace a (hs a (by simp))
  have h1 : skipWhitespaceLoop (q.currLine.drop (q.pos + 1)) (q.pos + 1) = 1 := by
    rw [hdrop, hp]; exact skipWhitespaceLoop_stop _ _ (by simpa using hsp)
  have hdrop1 : q.currLine.drop 1 = a :: u := by rw [hq]; rfl
  have h2 : (if isdigit (charAt q.currLine 1) = true then digitsLoop (q.currLine.drop 1) [] 1
            else extractSymbolLoop (q.currLine.drop 1) [] 1) = (a :: u, 1 + (a :: u).length) := by
    rw [hch, hdrop1]
    rcases ht with ⟨_, hd⟩ | ⟨_, hs, hd⟩
    · rw [if_pos (hd a (by simp))]
      simpa using digitsLoop_append (a :: u) [] [] 1 hd (by simpa using isdigit_NUL)
    · simp only [List.headD_cons] at hd
      rw [if_neg (by simp [hd])]
      simpa using extractSymbolLoop_append (a :: u) [] [] 1 hs (by simpa using isSymbolChar_NUL)
  have h3 : skipWhitespaceLoop (q.currLine.drop (1 + (a :: u).length)) (1 + (a :: u).length)
      = 1 + (a :: u).length := by
    rw [hend]; rfl
  rw [handleACommand_eq q _ _ _ _ h1 h2 h3, if_neg (by simp [hlen])]

theorem dispatch_A (V : Mnemonics) (q : Parser) (r : Parser × Except Exn Unit)
    (hc : charAt q.currLine q.pos = '@') (hr : handleACommand q = r) :
    dispatch V q = finish (some r) := by
  subst hr
  unfold dispatch
  rw [if_neg (by rw [hc]; decide), if_pos hc]

theorem dispatch_L (V : Mnemonics) (q : Parser) (r : Parser × Except Exn Unit)
    (hc : charAt q.currLine q.pos = '(') (hr : handleLCommand q = r) :
    dispatch V q = finish (some r) := by
  subst hr
  unfold dispatch
  rw [if_pos hc]

theorem dispatch_C (V : Mnemonics) (q : Parser) (r : Outcome Unit)
    (hc1 : charAt q.currLine q.pos ≠ '(') (hc2 : charAt q.currLine q.pos ≠ '@')
    (hr : handleCCommand V q = r) :
    dispatch V q = finish r := by
  subst hr
  unfold dispatch
  rw [if_neg hc1, if_neg hc2]

/-- C2: on the line `@t`, where `t` is a non-empty run of digits or a symbol of
the symbol grammar, `advance` succeeds with kind Address and `symbol()` is `t`
character for character. -/
theorem C2_address_token (V : Mnemonics) (p : Parser) (t tail : Text)
    (ht : IsNumeral t ∨ IsSymbol t) (h : AtLine p ('@' :: t) tail) :
    ∃ p', advance V p = some (p', .ok ()) ∧ commandType p' = .A_COMMAND ∧ symbol p' = t := by
  have hsk : skipWhitespaceLoop ('@' :: t) 0 = 0 := by simp [skipWhitespaceLoop, isspace]
  have hm := advance_atLine V p _ tail h (by rw [hsk]; simp) (by rw [hsk]; simp [charAt])
  rw [hsk] at hm
  have ha := handleACommand_token (lineRead p ('@' :: t) tail 0) t rfl rfl ht
  exact ⟨_, hm.trans (dispatch_A V _ _ (by simp [lineRead, charAt]) ha), rfl, rfl⟩

theorem C2_address_token_witness :
    (IsNumeral "007".toList ∨ IsSymbol "007".toList)
    ∧ AtLine (fresh "@007\nD=M\n".toList) ('@' :: "007".toList) "\nD=M\n".toList
    ∧ ∃ p', advance hack (fresh "@007\nD=M\n".toList) = some (p', .ok ())
      ∧ commandType p' = .A_COMMAND ∧ symbol p' = "007".toList :=
  ⟨by decide, by decide,
    C2_address_token hack (fresh "@007\nD=M\n".toList) "007".toList "\nD=M\n".toList
      (by decide) (by decide)⟩

/-! ## Label declarations -/

theorem handleLCommand_eq (q : Parser) (k1 k2 k3 : Nat) (label : Text)
    (h1 : skipWhitespaceLoop (q.currLine.drop (q.pos + 1)) (q.pos + 1) = k1)
    (h2 : extractSymbolLoop (q.currLine.drop k1) [] k1 = (label, k2))
    (h3 : skipWhitespaceLoop (q.currLine.drop (k2 + 1)) (k2 + 1) = k3) :
    handleLCommand q =
      if charAt q.currLine k2 ≠ ')' then
        ({ q with pos := k2 },
          .error (.SyntaxErrorException q.lineNum k2 q.currLine "')' Expected".toList))
      else if k3 ≠ q.currLine.length then
        ({ q with pos := k3 },
          .error (.SyntaxErrorException q.lineNum k3 q.currLine
            ("Unexpected '".toList ++ [charAt q.currLine k3] ++ "'\n".toList)))
      else ({ q with symbol := label, cmdType := .L_COMMAND, pos := q.currLine.length }, .ok ()) := by
  subst h1 h3
  unfold handleLCommand skipWhitespace extractSymbol
  simp only [h2]

theorem drop_eq_of_append (l pre rest : Text) (k : Nat) (hl : l = pre ++ rest)
    (hk : k = pre.length) : l.drop k = rest := by
  subst hl hk
  simp

theorem charAt_eq_of_append (l pre rest : Text) (c : Char) (k : Nat)
    (hl : l = pre ++ c :: rest) (hk : k = pre.length) : charAt l k = c := by
  subst hl hk
  exact charAt_append_cons pre c rest

/-- C3: on the line `(name)`, with optional whitespace after `(` and after `)`,
where `name` is a symbol of the symbol grammar, `advance` succeeds with kind
Label and `symbol()` is `name`. -/
theorem C3_label_symbol (V : Mnemonics) (p : Parser) (ws1 name ws2 tail : Text)
    (hn : IsSymbol name) (h1 : ∀ c ∈ ws1, isspace c = true) (h2 : ∀ c ∈ ws2, isspace c = true)
    (h : AtLine p ('(' :: (ws1 ++ name ++ ')' :: ws2)) tail) :
    ∃ p', advance V p = some (p', .ok ()) ∧ commandType p' = .L_COMMAND ∧ symbol p' = name := by
  have hsk : skipWhitespaceLoop ('(' :: (ws1 ++ name ++ ')' :: ws2)) 0 = 0 := by
    simp [skipWhitespaceLoop, isspace]
  have hm := advance_atLine V p _ tail h (by rw [hsk]; simp) (by rw [hsk]; simp [charAt])
  rw [hsk] at hm
  obtain ⟨hne, hs, hd⟩ := hn
  have hsa : isspace ((name ++ ')' :: ws2).headD NUL) = false := by
    obtain ⟨a, u, rfl⟩ := List.exists_cons_of_ne_nil hne
    simpa using isSymbolChar_not_isspace a (hs a (by simp))
  generalize hL : '(' :: (ws1 ++ name ++ ')' :: ws2) = L at *
  have d1 : L.drop (0 + 1) = ws1 ++ (name ++ ')' :: ws2) :=
    drop_eq_of_append L ['('] _ _ (by simp [← hL]) (by simp)
  have d2 : L.drop (1 + ws1.length) = name ++ ')' :: ws2 :=
    drop_eq_of_append L ('(' :: ws1) _ _ (by simp [← hL]) (by simp; omega)
  have d3 : L.drop (1 + ws1.length + name.length + 1) = ws2 ++ [] :=
    drop_eq_of_append L ('(' :: (ws1 ++ name ++ [')'])) _ _ (by simp [← hL]) (by simp; omega)
  have hc : charAt L (1 + ws1.length + name.length) = ')' :=
    charAt_eq_of_append L ('(' :: (ws1 ++ name)) ws2 _ _ (by simp [← hL]) (by simp; omega)
  have hlen : L.length = 1 + ws1.length + name.length + 1 + ws2.length := by
    simp [← hL]; omega
  have e1 : skipWhitespaceLoop (ws1 ++ (name ++ ')' :: ws2)) (0 + 1) = 1 + ws1.length := by
    simpa using skipWhitespaceLoop_append ws1 _ 1 h1 hsa
  have e2 : extractSymbolLoop (name ++ ')' :: ws2) [] (1 + ws1.length)
      = (name, 1 + ws1.length + name.length) := by
    simpa using extractSymbolLoop_append name (')' :: ws2) [] (1 + ws1.length) hs rfl
  have e3 : skipWhitespaceLoop (ws2 ++ []) (1 + ws1.length + name.length + 1)
      = 1 + ws1.length + name.length + 1 + ws2.length :=
    skipWhitespaceLoop_append ws2 [] _ h2 (by simpa using isspace_NUL)
  have hl := handleLCommand_eq (lineRead p L tail 0)
    (1 + ws1.length) (1 + ws1.length + name.length)
    (1 + ws1.length + name.length + 1 + ws2.length) name
    (by simp only [lineRead, d1]; exact e1)
    (by simp only [lineRead, d2]; exact e2)
    (by simp only [lineRead, d3]; exact e3)
  rw [if_neg (by simp only [lineRead]; rw [hc]; simp), if_neg (by simp [lineRead, hlen])] at hl
  exact ⟨_, hm.trans (dispatch_L V _ _ (by simp [lineRead, charAt, ← hL]) hl), rfl, rfl⟩

theorem C3_label_symbol_witness :
    IsSymbol "LOOP".toList ∧ (∀ c ∈ " ".toList, isspace c = true)
    ∧ (∀ c ∈ "\t ".toList, isspace c = true)
    ∧ AtLine (fresh "( LOOP)\t \n@1\n".toList) ('(' :: (" ".toList ++ "LOOP".toList ++ ')' :: "\t ".toList))
        "\n@1\n".toList
    ∧ ∃ p', advance hack (fresh "( LOOP)\t \n@1\n".toList) = some (p', .ok ())
      ∧ commandType p' = .L_COMMAND ∧ symbol p' = "LOOP".toList :=
  ⟨by decide, by decide, by decide, by decide,
    C3_label_symbol hack (fresh "( LOOP)\t \n@1\n".toList) " ".toList "LOOP".toList "\t ".toList
      "\n@1\n".toList (by decide) (by decide) (by decide) (by decide)⟩

/-! ## The scan of compute instructions -/

theorem cLoop_succ (line : Text) (n : Nat) (st : CScan) (h : st.state < 3) :
    cLoop line (n + 1) st = cLoop line n (cStep line st) := by
  rw [cLoop, if_pos h]

theorem cLoop_done (line : Text) (n : Nat) (st : CScan) (h : ¬ st.state < 3) :
    cLoop line n st = some st := by
  cases n <;> simp [cLoop, h]

theorem cStep_eq_cBody (line : Text) (st : CScan) :
    cStep line st = cBody (charAt line st.pos) st := by
  unfold cStep
  by_cases h : st.pos ≥ line.length
  · rw [if_pos h, charAt_of_le line st.pos h]
  · rw [if_neg h]

theorem cBody_field (st : CScan) (c : Char) (hf : isFieldChar c = true) :
    cBody c st = { st with s := st.s ++ [c], pos := st.pos + 1 } := by
  simp only [isFieldChar, Bool.and_eq_true, Bool.not_eq_true', decide_eq_true_eq] at hf
  obtain ⟨⟨⟨⟨h1, h2⟩, h3⟩, h4⟩, h5⟩ := hf
  unfold cBody
  simp only [h1, Bool.false_eq_true, h2, h3, h4, h5, or_self, if_false]
  split_ifs <;> rfl

theorem cStep_field (line : Text) (st : CScan) (c : Char)
    (hc : charAt line st.pos = c) (hf : isFieldChar c = true) :
    cStep line st = { st with s := st.s ++ [c], pos := st.pos + 1 } := by
  rw [cStep_eq_cBody, hc, cBody_field st c hf]

theorem cLoop_field_run (line : Text) (w : Text) (hw : ∀ c ∈ w, isFieldChar c = true)
    (pre post : Text) (hl : line = pre ++ w ++ post) (st : CScan) (hp : st.pos = pre.length)
    (hs : st.state < 3) (n : Nat) :
    cLoop line (n + w.length) st
      = cLoop line n { st with s := st.s ++ w, pos := st.pos + w.length } := by
  induction w generalizing pre st with
  | nil => simp
  | cons a w ih =>
    have hc : charAt line st.pos = a :=
      charAt_eq_of_append line pre (w ++ post) a _ (by simp [hl]) hp
    have hstep := cStep_field line st a hc (hw a (by simp))
    have := ih (fun c hc => hw c (by simp [hc])) (pre ++ [a]) (by simp [hl])
      { st with s := st.s ++ [a], pos := st.pos + 1 } (by simp [hp]) hs
    rw [List.length_cons, ← Nat.add_assoc, cLoop_succ line _ st hs, hstep, this]
    simp [Nat.add_assoc, Nat.add_comm 1]

theorem cStep_spec (line : Text) (st : CScan) (hs : st.state < 3) :
    (cStep line st).pos = st.pos + 1 ∧ st.state ≤ (cStep line st).state
    ∧ (cStep line st).state ≤ 3
    ∧ (line.length ≤ st.pos → st.state < (cStep line st).state)
    ∧ (1 ≤ st.state → (cStep line st).dest = st.dest ∧ (cStep line st).comp_pos = st.comp_pos)
    ∧ (2 ≤ st.state → (cStep line st).comp = st.comp ∧ (cStep line st).jump_pos = st.jump_pos) := by
  by_cases hpos : st.pos ≥ line.length
  · have h0 : isspace NUL = false := isspace_NUL
    unfold cStep cBody
    simp only [hpos, if_true, h0, Bool.false_eq_true, if_false]
    have e1 : ¬ (NUL = '=') := by decide
    simp only [e1, if_false, or_true, if_true]
    split_ifs
    all_goals simp_all
    all_goals omega
  · unfold cStep cBody
    simp only [hpos, if_false]
    split_ifs <;> simp_all <;> omega

theorem cLoop_total (line : Text) (n : Nat) (st : CScan) (hs : st.state ≤ 3)
    (hn : line.length - st.pos + (3 - st.state) ≤ n) :
    ∃ st', cLoop line n st = some st' ∧ st'.state = 3
      ∧ (1 ≤ st.state → st'.dest = st.dest ∧ st'.comp_pos = st.comp_pos)
      ∧ (2 ≤ st.state → st'.comp = st.comp ∧ st'.jump_pos = st.jump_pos) := by
  induction n generalizing st with
  | zero =>
    have h3 : st.state = 3 := by omega
    exact ⟨st, cLoop_done line 0 st (by omega), h3, fun _ => ⟨rfl, rfl⟩, fun _ => ⟨rfl, rfl⟩⟩
  | succ n ih =>
    by_cases h3 : st.state < 3
    · obtain ⟨e1, e2, e3, e4, e5, e6⟩ := cStep_spec line st h3
      obtain ⟨st', h1, h2, h4, h5⟩ := ih (cStep line st) e3 (by
        by_cases hp : line.length ≤ st.pos
        · have := e4 hp
          omega
        · omega)
      refine ⟨st', by rw [cLoop_succ line n st h3, h1], h2, ?_, ?_⟩
      · intro h
        have a := h4 (by omega)
        have b := e5 h
        exact ⟨a.1.trans b.1, a.2.trans b.2⟩
      · intro h
        have a := h5 (by omega)
        have b := e6 h
        exact ⟨a.1.trans b.1, a.2.trans b.2⟩
    · exact ⟨st, cLoop_done line _ st h3, by omega, fun _ => ⟨rfl, rfl⟩, fun _ => ⟨rfl, rfl⟩⟩

theorem cLoop_step_char (line : Text) (st : CScan) (c : Char) (n : Nat) (hs : st.state < 3)
    (hc : charAt line st.pos = c) : cLoop line (n + 1) st = cLoop line n (cBody c st) := by
  rw [cLoop_succ line n st hs, cStep_eq_cBody, hc]

theorem cLoop_fields (line : Text) (w : Text) (hw : ∀ c ∈ w, isFieldChar c = true)
    (pre post : Text) (hl : line = pre ++ w ++ post) (state : Nat) (s : Text)
    (pos cp jp : Nat) (d c j : Text) (hp : pos = pre.length) (hs : state < 3) (n : Nat) :
    cLoop line (n + w.length) ⟨state, s, pos, cp, jp, d, c, j⟩
      = cLoop line n ⟨state, s ++ w, pos + w.length, cp, jp, d, c, j⟩ :=
  cLoop_field_run line w hw pre post hl ⟨state, s, pos, cp, jp, d, c, j⟩ hp hs n

theorem cBody_eq0 (s : Text) (pos cp jp : Nat) (d c j : Text) :
    cBody '=' ⟨0, s, pos, cp, jp, d, c, j⟩ = ⟨1, [], pos + 1, pos, pos, s, c, j⟩ := by
  simp [cBody, isspace]

theorem cBody_semi0 (s : Text) (pos cp jp : Nat) (d c j : Text) :
    cBody ';' ⟨0, s, pos, cp, jp, d, c, j⟩ = ⟨2, [], pos + 1, cp, pos, "null".toList, s, j⟩ := by
  simp [cBody, isspace]

theorem cBody_semi1 (s : Text) (pos cp jp : Nat) (d c j : Text) :
    cBody ';' ⟨1, s, pos, cp, jp, d, c, j⟩ = ⟨2, [], pos + 1, cp, pos, d, s, j⟩ := by
  simp [cBody, isspace]

theorem cBody_slash0 (s : Text) (pos cp jp : Nat) (d c j : Text) :
    cBody '/' ⟨0, s, pos, cp, jp, d, c, j⟩ = ⟨2, [], pos + 1, cp, pos, "null".toList, s, j⟩ := by
  simp [cBody, isspace]

theorem cBody_slash1 (s : Text) (pos cp jp : Nat) (d c j : Text) :
    cBody '/' ⟨1, s, pos, cp, jp, d, c, j⟩ = ⟨2, [], pos + 1, cp, pos, d, s, j⟩ := by
  simp [cBody, isspace]

theorem cBody_slash2 (s : Text) (pos cp jp : Nat) (d c j : Text) :
    cBody '/' ⟨2, s, pos, cp, jp, d, c, j⟩
      = ⟨3, s ++ ['/'], pos + 1, cp, jp, d, c, if s = [] then "null".toList else s⟩ := by
  simp [cBody, isspace]

theorem cBody_NUL0 (s : Text) (pos cp jp : Nat) (d c j : Text) :
    cBody NUL ⟨0, s, pos, cp, jp, d, c, j⟩ = ⟨2, [], pos + 1, cp, pos, "null".toList, s, j⟩ := by
  have e1 : ¬ (NUL = '=') := by decide
  simp [cBody, isspace_NUL, e1]

theorem cBody_NUL1 (s : Text) (pos cp jp : Nat) (d c j : Text) :
    cBody NUL ⟨1, s, pos, cp, jp, d, c, j⟩ = ⟨2, [], pos + 1, cp, pos, d, s, j⟩ := by
  simp [cBody, isspace_NUL]

theorem cBody_NUL2 (s : Text) (pos cp jp : Nat) (d c j : Text) :
    cBody NUL ⟨2, s, pos, cp, jp, d, c, j⟩
      = ⟨3, s ++ [NUL], pos + 1, cp, jp, d, c, if s = [] then "null".toList else s⟩ := by
  simp [cBody, isspace_NUL]

theorem handleCCommand_eq (V : Mnemonics) (q : Parser) (k : Nat) (st : CScan)
    (hk : skipWhitespaceLoop (q.currLine.drop q.pos) q.pos = k)
    (hloop : cLoop q.currLine (q.currLine.length - k + 3)
      ⟨0, [], k, k, k, q.dest, q.comp, q.jump⟩ = some st) :
    handleCCommand V q =
      if (!V.dest_mnemonics st.dest) = true then
        some ({ q with pos := st.pos, dest := st.dest, comp := st.comp, jump := st.jump },
          .error (.SyntaxErrorException q.lineNum k q.currLine
            ("Bad destination. '".toList ++ st.dest ++ "' given.".toList)))
      else if (!V.comp_mnemonics st.comp) = true then
        some ({ q with pos := st.pos, dest := st.dest, comp := st.comp, jump := st.jump },
          .error (.SyntaxErrorException q.lineNum st.comp_pos q.currLine
            ("Bad comp. '".toList ++ st.comp ++ "' given.".toList)))
      else if (!V.jump_mnemonics st.jump) = true then
        some ({ q with pos := st.pos, dest := st.dest, comp := st.comp, jump := st.jump },
          .error (.SyntaxErrorException q.lineNum st.jump_pos q.currLine
            ("Bad jump. '".toList ++ st.jump ++ "' given.".toList)))
      else
        some ({ q with pos := q.currLine.length, dest := st.dest, comp := st.comp,
                       jump := st.jump, cmdType := .C_COMMAND }, .ok ()) := by
  subst hk
  unfold handleCCommand skipWhitespace
  simp only [hloop]

theorem scan_dest_comp_jump (d c j : Text) (hd : ∀ x ∈ d, isFieldChar x = true)
    (hc : ∀ x ∈ c, isFieldChar x = true) (hj : ∀ x ∈ j, isFieldChar x = true)
    (hjne : j ≠ []) (d0 c0 j0 : Text) :
    cLoop (d ++ '=' :: c ++ ';' :: j) ((d ++ '=' :: c ++ ';' :: j).length - 0 + 3)
        ⟨0, [], 0, 0, 0, d0, c0, j0⟩
      = some ⟨3, j ++ [NUL], d.length + 1 + c.length + 1 + j.length + 1, d.length,
          d.length + 1 + c.length, d, c, j⟩ := by
  generalize hL : d ++ '=' :: c ++ ';' :: j = L
  have hlen : L.length = d.length + 1 + c.length + 1 + j.length := by
    simp [← hL]; omega
  have f1 : L.length - 0 + 3 = 2 + 1 + j.length + 1 + c.length + 1 + d.length := by
    rw [Nat.sub_zero, hlen]; omega
  rw [f1, cLoop_fields L d hd [] ('=' :: c ++ ';' :: j) (by simp [← hL]) 0 [] 0 0 0 d0 c0 j0 rfl
    (by omega)]
  rw [cLoop_step_char L _ '=' _ (by simp)
    (charAt_eq_of_append L d (c ++ ';' :: j) '=' _ (by simp [← hL]) (by simp)), cBody_eq0]
  rw [cLoop_fields L c hc (d ++ ['=']) (';' :: j) (by simp [← hL]) 1 [] _ _ _ _ c0 j0 (by simp)
    (by omega)]
  rw [cLoop_step_char L _ ';' _ (by simp)
    (charAt_eq_of_append L (d ++ '=' :: c) j ';' _ (by simp [← hL]) (by simp; omega)), cBody_semi1]
  rw [cLoop_fields L j hj (d ++ '=' :: c ++ [';']) [] (by simp [← hL]) 2 [] _ _ _ _ _ j0
    (by simp; omega) (by omega)]
  rw [cLoop_step_char L _ NUL _ (by simp) (charAt_of_le L _ (by simp; omega)), cBody_NUL2]
  rw [cLoop_done _ _ _ (by simp)]
  simp [hjne]

theorem scan_comp_jump (c j : Text) (hc : ∀ x ∈ c, isFieldChar x = true)
    (hj : ∀ x ∈ j, isFieldChar x = true) (hjne : j ≠ []) (d0 c0 j0 : Text) :
    cLoop (c ++ ';' :: j) ((c ++ ';' :: j).length - 0 + 3) ⟨0, [], 0, 0, 0, d0, c0, j0⟩
      = some ⟨3, j ++ [NUL], c.length + 1 + j.length + 1, 0, c.length, "null".toList, c, j⟩ := by
  generalize hL : c ++ ';' :: j = L
  have hlen : L.length = c.length + 1 + j.length := by
    simp [← hL]; omega
  have f1 : L.length - 0 + 3 = 2 + 1 + j.length + 1 + c.length := by
    rw [Nat.sub_zero, hlen]; omega
  rw [f1, cLoop_fields L c hc [] (';' :: j) (by simp [← hL]) 0 [] 0 0 0 d0 c0 j0 rfl (by omega)]
  rw [cLoop_step_char L _ ';' _ (by simp)
    (charAt_eq_of_append L c j ';' _ (by simp [← hL]) (by simp)), cBody_semi0]
  rw [cLoop_fields L j hj (c ++ [';']) [] (by simp [← hL]) 2 [] _ _ _ _ _ j0 (by simp)
    (by omega)]
  rw [cLoop_step_char L _ NUL _ (by simp) (charAt_of_le L _ (by simp; omega)), cBody_NUL2]
  rw [cLoop_done _ _ _ (by simp)]
  simp [hjne]

theorem scan_dest_comp (d c : Text) (hd : ∀ x ∈ d, isFieldChar x = true)
    (hc : ∀ x ∈ c, isFieldChar x = true) (d0 c0 j0 : Text) :
    cLoop (d ++ '=' :: c) ((d ++ '=' :: c).length - 0 + 3) ⟨0, [], 0, 0, 0, d0, c0, j0⟩
      = some ⟨3, [NUL], d.length + 1 + c.length + 1 + 1, d.length, d.length + 1 + c.length,
          d, c, "null".toList⟩ := by
  generalize hL : d ++ '=' :: c = L
  have hlen : L.length = d.length + 1 + c.length := by
    simp [← hL]; omega
  have f1 : L.length - 0 + 3 = 1 + 1 + 1 + c.length + 1 + d.length := by
    rw [Nat.sub_zero, hlen]; omega
  rw [f1, cLoop_fields L d hd [] ('=' :: c) (by simp [← hL]) 0 [] 0 0 0 d0 c0 j0 rfl (by omega)]
  rw [cLoop_step_char L _ '=' _ (by simp)
    (charAt_eq_of_append L d c '=' _ (by simp [← hL]) (by simp)), cBody_eq0]
  rw [cLoop_fields L c hc (d ++ ['=']) [] (by simp [← hL]) 1 [] _ _ _ _ c0 j0 (by simp)
    (by omega)]
  rw [cLoop_step_char L _ NUL _ (by simp) (charAt_of_le L _ (by simp; omega)), cBody_NUL1]
  rw [cLoop_step_char L _ NUL _ (by simp) (charAt_of_le L _ (by simp; omega)), cBody_NUL2]
  rw [cLoop_done _ _ _ (by simp)]
  simp

theorem isFieldChar_not_isspace (c : Char) (h : isFieldChar c = true) : isspace c = false := by
  simp only [isFieldChar, Bool.and_eq_true, Bool.not_eq_true', decide_eq_true_eq] at h
  exact h.1.1.1.1

theorem isFieldChar_ne_slash (c : Char) (h : isFieldChar c = true) : c ≠ '/' := by
  simp only [isFieldChar, Bool.and_eq_true, Bool.not_eq_true', decide_eq_true_eq] at h
  exact h.1.2

/-- What `advance` does on a line that starts with a field character other
than `(` and `@`, given the outcome of the scan. -/
theorem advance_compute (V : Mnemonics) (p : Parser) (x : Char) (r tail : Text) (st : CScan)
    (h : AtLine p (x :: r) tail) (hx : isFieldChar x = true) (h1 : x ≠ '(') (h2 : x ≠ '@')
    (hloop : cLoop (x :: r) ((x :: r).length - 0 + 3) ⟨0, [], 0, 0, 0, p.dest, p.comp, p.jump⟩
      = some st)
    (hd : V.dest_mnemonics st.dest = true) (hc : V.comp_mnemonics st.comp = true)
    (hj : V.jump_mnemonics st.jump = true) :
    ∃ p', advance V p = some (p', .ok ()) ∧ commandType p' = .C_COMMAND ∧ dest p' = st.dest
      ∧ comp p' = st.comp ∧ jump p' = st.jump := by
  have hsp := isFieldChar_not_isspace x hx
  have hsk : skipWhitespaceLoop (x :: r) 0 = 0 := by simp [skipWhitespaceLoop, hsp]
  have hm := advance_atLine V p _ tail h (by rw [hsk]; simp)
    (by rw [hsk]; simpa [charAt] using isFieldChar_ne_slash x hx)
  rw [hsk] at hm
  have hq := handleCCommand_eq V (lineRead p (x :: r) tail 0) 0 st
    (by simpa [lineRead] using hsk) (by simpa [lineRead] using hloop)
  rw [if_neg (by simp [hd]), if_neg (by simp [hc]), if_neg (by simp [hj])] at hq
  exact ⟨_, hm.trans (dispatch_C V _ _ (by simpa [lineRead, charAt] using h1)
    (by simpa [lineRead, charAt] using h2) hq), rfl, rfl, rfl, rfl⟩

/-- C1: for field texts `d`, `c`, `j` (non-empty, without whitespace, `=`,
`;`, `/` or NUL) on a line that does not start with `(` or `@`, and with the
three validators accepting the fields: `advance` on `d=c;j` yields kind Compute
with destination `d`, computation `c`, jump `j`; on `c;j` it yields destination
`"null"`, computation `c`, jump `j`; on `d=c` it yields destination `d`,
computation `c`, jump `"null"`. -/
theorem C1_compute_fields (V : Mnemonics) (d c j : Text) (hd : IsField d) (hc : IsField c)
    (hj : IsField j) :
    (∀ p tail, AtLine p (d ++ '=' :: c ++ ';' :: j) tail →
      d.headD NUL ≠ '(' → d.headD NUL ≠ '@' →
      V.dest_mnemonics d = true → V.comp_mnemonics c = true → V.jump_mnemonics j = true →
      ∃ p', advance V p = some (p', .ok ()) ∧ commandType p' = .C_COMMAND ∧ dest p' = d
        ∧ comp p' = c ∧ jump p' = j)
    ∧ (∀ p tail, AtLine p (c ++ ';' :: j) tail →
      c.headD NUL ≠ '(' → c.headD NUL ≠ '@' →
      V.dest_mnemonics "null".toList = true → V.comp_mnemonics c = true →
      V.jump_mnemonics j = true →
      ∃ p', advance V p = some (p', .ok ()) ∧ commandType p' = .C_COMMAND
        ∧ dest p' = "null".toList ∧ comp p' = c ∧ jump p' = j)
    ∧ (∀ p tail, AtLine p (d ++ '=' :: c) tail →
      d.headD NUL ≠ '(' → d.headD NUL ≠ '@' →
      V.dest_mnemonics d = true → V.comp_mnemonics c = true →
      V.jump_mnemonics "null".toList = true →
      ∃ p', advance V p = some (p', .ok ()) ∧ commandType p' = .C_COMMAND ∧ dest p' = d
        ∧ comp p' = c ∧ jump p' = "null".toList) := by
  obtain ⟨hdne, hd⟩ := hd
  obtain ⟨hcne, hc⟩ := hc
  obtain ⟨hjne, hj⟩ := hj
  refine ⟨?_, ?_, ?_⟩
  · intro p tail h h1 h2 v1 v2 v3
    have hs := scan_dest_comp_jump d c j hd hc hj hjne p.dest p.comp p.jump
    obtain ⟨x, r, rfl⟩ := List.exists_cons_of_ne_nil hdne
    exact advance_compute V p x (r ++ '=' :: c ++ ';' :: j) tail _ (by simpa using h)
      (hd x (by simp)) (by simpa using h1) (by simpa using h2) (by simpa using hs) v1 v2 v3
  · intro p tail h h1 h2 v1 v2 v3
    have hs := scan_comp_jump c j hc hj hjne p.dest p.comp p.jump
    obtain ⟨x, r, rfl⟩ := List.exists_cons_of_ne_nil hcne
    exact advance_compute V p x (r ++ ';' :: j) tail _ (by simpa using h)
      (hc x (by simp)) (by simpa using h1) (by simpa using h2) (by simpa using hs) v1 v2 v3
  · intro p tail h h1 h2 v1 v2 v3
    have hs := scan_dest_comp d c hd hc p.dest p.comp p.jump
    obtain ⟨x, r, rfl⟩ := List.exists_cons_of_ne_nil hdne
    exact advance_compute V p x (r ++ '=' :: c) tail _ (by simpa using h)
      (hd x (by simp)) (by simpa using h1) (by simpa using h2) (by simpa using hs) v1 v2 v3

theorem C1_compute_fields_witness :
    (IsField "D".toList ∧ IsField "M+1".toList ∧ IsField "JGT".toList
      ∧ AtLine (fresh "D=M+1;JGT\n@2\n".toList) ("D".toList ++ '=' :: "M+1".toList ++ ';' :: "JGT".toList)
          "\n@2\n".toList
      ∧ ∃ p', advance hack (fresh "D=M+1;JGT\n@2\n".toList) = some (p', .ok ())
          ∧ commandType p' = .C_COMMAND ∧ dest p' = "D".toList ∧ comp p' = "M+1".toList
          ∧ jump p' = "JGT".toList)
    ∧ (IsField "0".toList ∧ IsField "JMP".toList
      ∧ AtLine (fresh "0;JMP".toList) ("0".toList ++ ';' :: "JMP".toList) []
      ∧ ∃ p', advance hack (fresh "0;JMP".toList) = some (p', .ok ())
          ∧ commandType p' = .C_COMMAND ∧ dest p' = "null".toList ∧ comp p' = "0".toList
          ∧ jump p' = "JMP".toList)
    ∧ (IsField "D".toList ∧ IsField "D+1".toList
      ∧ AtLine (fresh "D=D+1\n".toList) ("D".toList ++ '=' :: "D+1".toList) "\n".toList
      ∧ ∃ p', advance hack (fresh "D=D+1\n".toList) = some (p', .ok ())
          ∧ commandType p' = .C_COMMAND ∧ dest p' = "D".toList ∧ comp p' = "D+1".toList
          ∧ jump p' = "null".toList) :=
  ⟨⟨by decide, by decide, by decide, by decide,
      (C1_compute_fields hack "D".toList "M+1".toList "JGT".toList (by decide) (by decide)
        (by decide)).1 (fresh "D=M+1;JGT\n@2\n".toList) "\n@2\n".toList (by decide) (by decide)
        (by decide) (by decide) (by decide) (by decide)⟩,
    ⟨by decide, by decide, by decide,
      (C1_compute_fields hack "D".toList "0".toList "JMP".toList (by decide) (by decide)
        (by decide)).2.1 (fresh "0;JMP".toList) [] (by decide) (by decide)
        (by decide) (by decide) (by decide) (by decide)⟩,
    ⟨by decide, by decide, by decide,
      (C1_compute_fields hack "D".toList "D+1".toList "JGT".toList (by decide) (by decide)
        (by decide)).2.2 (fresh "D=D+1\n".toList) "\n".toList (by decide) (by decide)
        (by decide) (by decide) (by decide) (by decide)⟩⟩

/-! ## Errors of address instructions -/

theorem head_after_token (ws : Text) (x : Char) (rest : Text) (f : Char → Bool)
    (hf : ∀ c, f c = true → isspace c = false) (hws : ∀ c ∈ ws, isspace c = true)
    (hx : ws = [] → f x = false) : f ((ws ++ x :: rest).headD NUL) = false := by
  cases ws with
  | nil => simpa using hx rfl
  | cons a w =>
    have ha : isspace a = true := hws a (by simp)
    cases hfa : f a with
    | false => simpa using hfa
    | true => rw [hf a hfa] at ha; cases ha

/-- C8: on a line made of `@`, a well-formed token `t` (a run of digits or a
symbol), whitespace `ws` (possibly none) and then a character `x` that is not
whitespace and, when no whitespace separates them, cannot continue the token:
`advance` raises a SyntaxError whose column is the index of `x` in the line and
whose message is `Unexpected 'x'`; the kind and the symbol that the accessors
give are the ones from before the call. -/
theorem C8_address_trailing (V : Mnemonics) (p : Parser) (t ws rest tail : Text) (x : Char)
    (ht : (IsNumeral t ∧ (ws = [] → isdigit x = false))
      ∨ (IsSymbol t ∧ (ws = [] → isSymbolChar x = false)))
    (hws : ∀ c ∈ ws, isspace c = true) (hx : isspace x = false)
    (h : AtLine p ('@' :: (t ++ ws ++ x :: rest)) tail) :
    ∃ p', advance V p = some (p', .error (.SyntaxErrorException p.lineNum
        (1 + t.length + ws.length) ('@' :: (t ++ ws ++ x :: rest))
        ("Unexpected '".toList ++ [x] ++ "'".toList)))
      ∧ commandType p' = commandType p ∧ symbol p' = symbol p := by
  have hsk : skipWhitespaceLoop ('@' :: (t ++ ws ++ x :: rest)) 0 = 0 := by
    simp [skipWhitespaceLoop, isspace]
  have hm := advance_atLine V p _ tail h (by rw [hsk]; simp) (by rw [hsk]; simp [charAt])
  rw [hsk] at hm
  have hne : t ≠ [] := by rcases ht with h | h <;> exact h.1.1
  have hsa : isspace ((t ++ (ws ++ x :: rest)).headD NUL) = false := by
    obtain ⟨a, u, rfl⟩ := List.exists_cons_of_ne_nil hne
    rcases ht with ⟨⟨_, hd⟩, _⟩ | ⟨⟨_, hs, _⟩, _⟩
    · simpa using isdigit_not_isspace a (hd a (by simp))
    · simpa using isSymbolChar_not_isspace a (hs a (by simp))
  generalize hL : '@' :: (t ++ ws ++ x :: rest) = L at *
  have d1 : L.drop (0 + 1) = t ++ (ws ++ x :: rest) :=
    drop_eq_of_append L ['@'] _ _ (by simp [← hL]) (by simp)
  have d2 : L.drop (1 + t.length) = ws ++ x :: rest :=
    drop_eq_of_append L ('@' :: t) _ _ (by simp [← hL]) (by simp; omega)
  have hc1 : charAt L 1 = (t ++ (ws ++ x :: rest)).headD NUL := by
    rw [charAt_eq_head_drop, ← d1]
  have hcx : charAt L (1 + t.length + ws.length) = x :=
    charAt_eq_of_append L ('@' :: (t ++ ws)) rest _ _ (by simp [← hL]) (by simp; omega)
  have hlen : L.length = 1 + t.length + ws.length + 1 + rest.length := by
    simp [← hL]; omega
  have e1 : skipWhitespaceLoop (t ++ (ws ++ x :: rest)) (0 + 1) = 1 :=
    skipWhitespaceLoop_stop _ _ hsa
  have e3 : skipWhitespaceLoop (ws ++ x :: rest) (1 + t.length) = 1 + t.length + ws.length :=
    skipWhitespaceLoop_append ws _ _ hws (by simpa using hx)
  have e2 : (if isdigit (charAt L 1) = true then digitsLoop (L.drop 1) [] 1
      else extractSymbolLoop (L.drop 1) [] 1) = (t, 1 + t.length) := by
    have d1' : L.drop 1 = t ++ (ws ++ x :: rest) := d1
    rw [hc1, d1']
    obtain ⟨a, u, rfl⟩ := List.exists_cons_of_ne_nil hne
    rcases ht with ⟨⟨_, hd⟩, hcont⟩ | ⟨⟨_, hs, hd⟩, hcont⟩
    · have ha : isdigit a = true := hd a (by simp)
      simp only [List.cons_append, List.headD_cons, ha, if_true]
      simpa using digitsLoop_append (a :: u) (ws ++ x :: rest) [] 1 hd
        (head_after_token ws x rest isdigit isdigit_not_isspace hws hcont)
    · simp only [List.headD_cons] at hd
      simp only [List.cons_append, List.headD_cons, hd, Bool.false_eq_true, if_false]
      simpa using extractSymbolLoop_append (a :: u) (ws ++ x :: rest) [] 1 hs
        (head_after_token ws x rest isSymbolChar isSymbolChar_not_isspace hws hcont)
  have ha := handleACommand_eq (lineRead p L tail 0) 1 (1 + t.length)
    (1 + t.length + ws.length) t
    (by simp only [lineRead, d1]; exact e1)
    (by simpa only [lineRead] using e2)
    (by simp only [lineRead, d2]; exact e3)
  rw [if_pos (by simp only [lineRead, hlen]; omega)] at ha
  simp only [lineRead, hcx] at ha
  exact ⟨_, hm.trans (dispatch_A V _ _ (by simp [lineRead, charAt, ← hL]) ha), rfl, rfl⟩

theorem C8_address_trailing_witness :
    ((IsNumeral "5".toList ∧ (" ".toList = [] → isdigit 'j' = false))
      ∨ (IsSymbol "5".toList ∧ (" ".toList = [] → isSymbolChar 'j' = false)))
    ∧ (∀ c ∈ " ".toList, isspace c = true) ∧ isspace 'j' = false
    ∧ AtLine (fresh "@5 junk\n".toList) ('@' :: ("5".toList ++ " ".toList ++ 'j' :: "unk".toList))
        "\n".toList
    ∧ ∃ p', advance hack (fresh "@5 junk\n".toList) = some (p', .error (.SyntaxErrorException 1
        3 "@5 junk".toList "Unexpected 'j'".toList))
      ∧ commandType p' = commandType (fresh "@5 junk\n".toList)
      ∧ symbol p' = symbol (fresh "@5 junk\n".toList) :=
  ⟨by decide, by decide, by decide, by decide,
    C8_address_trailing hack (fresh "@5 junk\n".toList) "5".toList " ".toList "unk".toList
      "\n".toList 'j' (by decide) (by decide) (by decide) (by decide)⟩

/-! ## Trailing comments after address and label instructions -/

/-- C4: on `@5 // five` the code raises a SyntaxError at column 3, the first
`/`, instead of yielding kind Address with symbol `5`; on `(LOOP) // top` it
raises one at column 7 instead of yielding kind Label with symbol `LOOP`. -/
theorem C4_trailing_comment_rejected :
    advance hack (fresh "@5 // five\n".toList)
      = some ({ fresh [] with currLine := "@5 // five".toList, pos := 3 },
          .error (.SyntaxErrorException 1 3 "@5 // five".toList "Unexpected '/'".toList))
    ∧ advance hack (fresh "(LOOP) // top\n".toList)
      = some ({ fresh [] with currLine := "(LOOP) // top".toList, pos := 7 },
          .error (.SyntaxErrorException 1 7 "(LOOP) // top".toList "Unexpected '/'\n".toList)) := by
  constructor <;> rfl

/-! ## The counter -/

theorem skipWhitespace_frame (p : Parser) :
    (skipWhitespace p).lineNum = p.lineNum ∧ (skipWhitespace p).cmdType = p.cmdType
    ∧ (skipWhitespace p).symbol = p.symbol ∧ (skipWhitespace p).dest = p.dest
    ∧ (skipWhitespace p).comp = p.comp ∧ (skipWhitespace p).jump = p.jump
    ∧ (skipWhitespace p).currLine = p.currLine ∧ (skipWhitespace p).input = p.input
    ∧ (skipWhitespace p).eofbit = p.eofbit ∧ (skipWhitespace p).failbit = p.failbit :=
  ⟨rfl, rfl, rfl, rfl, rfl, rfl, rfl, rfl, rfl, rfl⟩

theorem getline_frame (p : Parser) :
    (getline p).lineNum = p.lineNum ∧ (getline p).cmdType = p.cmdType
    ∧ (getline p).symbol = p.symbol ∧ (getline p).dest = p.dest
    ∧ (getline p).comp = p.comp ∧ (getline p).jump = p.jump := by
  unfold getline
  split
  · exact ⟨rfl, rfl, rfl, rfl, rfl, rfl⟩
  · split <;> exact ⟨rfl, rfl, rfl, rfl, rfl, rfl⟩

theorem handleComment_frame (p : Parser) :
    (handleComment p).1.lineNum = p.lineNum ∧ (handleComment p).1.cmdType = p.cmdType
    ∧ (handleComment p).1.symbol = p.symbol ∧ (handleComment p).1.dest = p.dest
    ∧ (handleComment p).1.comp = p.comp ∧ (handleComment p).1.jump = p.jump := by
  unfold handleComment
  simp only
  split <;> exact ⟨rfl, rfl, rfl, rfl, rfl, rfl⟩

/-- A call of `hasMoreCommands` changes neither the counter nor what the accessors give. -/
theorem hasMoreCommandsFuel_frame (n : Nat) (p : Parser) (r : Parser × Except Exn Bool)
    (h : hasMoreCommandsFuel n p = some r) :
    r.1.lineNum = p.lineNum ∧ r.1.cmdType = p.cmdType ∧ r.1.symbol = p.symbol
    ∧ r.1.dest = p.dest ∧ r.1.comp = p.comp ∧ r.1.jump = p.jump := by
  induction n generalizing p with
  | zero => simp [hasMoreCommandsFuel] at h
  | succ n ih =>
    rw [hasMoreCommandsFuel] at h
    have hg := getline_frame (skipWhitespace p)
    have hframe : ∀ q : Parser, q.lineNum = p.lineNum ∧ q.cmdType = p.cmdType
        ∧ q.symbol = p.symbol ∧ q.dest = p.dest ∧ q.comp = p.comp ∧ q.jump = p.jump →
        hasMoreCommandsFuel n q = some r →
        r.1.lineNum = p.lineNum ∧ r.1.cmdType = p.cmdType ∧ r.1.symbol = p.symbol
          ∧ r.1.dest = p.dest ∧ r.1.comp = p.comp ∧ r.1.jump = p.jump := by
      intro q hq hr
      have := ih q hr
      obtain ⟨a1, a2, a3, a4, a5, a6⟩ := this
      obtain ⟨b1, b2, b3, b4, b5, b6⟩ := hq
      exact ⟨a1.trans b1, a2.trans b2, a3.trans b3, a4.trans b4, a5.trans b5, a6.trans b6⟩
    split at h
    · cases h; exact ⟨rfl, rfl, rfl, rfl, rfl, rfl⟩
    · simp only at h
      split at h
      · split at h
        · exact hframe (skipWhitespace { getline (skipWhitespace p) with pos := 0 }) hg h
        · split at h
          · have hc := handleComment_frame
              (skipWhitespace { getline (skipWhitespace p) with pos := 0 })
            split at h
            · rename_i p3 e heq
              cases h
              rw [heq] at hc
              obtain ⟨a1, a2, a3, a4, a5, a6⟩ := hc
              obtain ⟨b1, b2, b3, b4, b5, b6⟩ := hg
              exact ⟨a1.trans b1, a2.trans b2, a3.trans b3, a4.trans b4, a5.trans b5,
                a6.trans b6⟩
            · rename_i p3 u heq
              rw [heq] at hc
              obtain ⟨a1, a2, a3, a4, a5, a6⟩ := hc
              obtain ⟨b1, b2, b3, b4, b5, b6⟩ := hg
              exact hframe p3 ⟨a1.trans b1, a2.trans b2, a3.trans b3, a4.trans b4, a5.trans b5,
                a6.trans b6⟩ h
          · cases h
            exact hg
      · cases h; exact ⟨rfl, rfl, rfl, rfl, rfl, rfl⟩

/-- A handler either returns or throws a SyntaxError, and leaves the counter
alone. -/
theorem handleACommand_cases (q : Parser) :
    (handleACommand q).1.lineNum = q.lineNum
    ∧ ((handleACommand q).2 = .ok ()
      ∨ ∃ e, (handleACommand q).2 = .error e ∧ e.isSyntaxError = true) := by
  rw [handleACommand_eq q _ _ _ _ rfl rfl rfl]
  split
  · exact ⟨rfl, Or.inr ⟨_, rfl, rfl⟩⟩
  · exact ⟨rfl, Or.inl rfl⟩

theorem handleLCommand_cases (q : Parser) :
    (handleLCommand q).1.lineNum = q.lineNum
    ∧ ((handleLCommand q).2 = .ok ()
      ∨ ∃ e, (handleLCommand q).2 = .error e ∧ e.isSyntaxError = true) := by
  rw [handleLCommand_eq q _ _ _ _ rfl rfl rfl]
  split
  · exact ⟨rfl, Or.inr ⟨_, rfl, rfl⟩⟩
  · split
    · exact ⟨rfl, Or.inr ⟨_, rfl, rfl⟩⟩
    · exact ⟨rfl, Or.inl rfl⟩

theorem handleCCommand_cases (V : Mnemonics) (q : Parser) :
    ∃ r, handleCCommand V q = some r ∧ r.1.lineNum = q.lineNum
      ∧ (r.2 = .ok () ∨ ∃ e, r.2 = .error e ∧ e.isSyntaxError = true) := by
  obtain ⟨st, hst, -⟩ := cLoop_total q.currLine
    (q.currLine.length - skipWhitespaceLoop (q.currLine.drop q.pos) q.pos + 3)
    ⟨0, [], skipWhitespaceLoop (q.currLine.drop q.pos) q.pos,
      skipWhitespaceLoop (q.currLine.drop q.pos) q.pos,
      skipWhitespaceLoop (q.currLine.drop q.pos) q.pos, q.dest, q.comp, q.jump⟩
    (by simp) (by simp)
  rw [handleCCommand_eq V q _ st rfl hst]
  split
  · exact ⟨_, rfl, rfl, Or.inr ⟨_, rfl, rfl⟩⟩
  · split
    · exact ⟨_, rfl, rfl, Or.inr ⟨_, rfl, rfl⟩⟩
    · split
      · exact ⟨_, rfl, rfl, Or.inr ⟨_, rfl, rfl⟩⟩
      · exact ⟨_, rfl, rfl, Or.inl rfl⟩

theorem finish_cases (q : Parser) (r : Parser × Except Exn Unit) (h1 : r.1.lineNum = q.lineNum)
    (h2 : r.2 = .ok () ∨ ∃ e, r.2 = .error e ∧ e.isSyntaxError = true) :
    (∃ p', finish (some r) = some (p', .ok ()) ∧ p'.lineNum = q.lineNum + 1)
    ∨ (∃ p' e, finish (some r) = some (p', .error e) ∧ e.isSyntaxError = true
        ∧ p'.lineNum = q.lineNum) := by
  obtain ⟨p2, x⟩ := r
  rcases h2 with h2 | ⟨e, h2, he⟩
  · simp only at h2 h1
    subst h2
    exact Or.inl ⟨_, rfl, by simp [h1]⟩
  · simp only at h2 h1
    subst h2
    exact Or.inr ⟨_, _, rfl, he, h1⟩

/-- After `hasMoreCommands` has returned true, `advance` either returns with
the counter one higher or throws a SyntaxError. -/
theorem dispatch_cases (V : Mnemonics) (q : Parser) :
    (∃ p', dispatch V q = some (p', .ok ()) ∧ p'.lineNum = q.lineNum + 1)
    ∨ (∃ p' e, dispatch V q = some (p', .error e) ∧ e.isSyntaxError = true
        ∧ p'.lineNum = q.lineNum) := by
  unfold dispatch
  split
  · exact finish_cases q _ (handleLCommand_cases q).1 (handleLCommand_cases q).2
  · split
    · exact finish_cases q _ (handleACommand_cases q).1 (handleACommand_cases q).2
    · obtain ⟨r, hr, h1, h2⟩ := handleCCommand_cases V q
      rw [hr]
      exact finish_cases q r h1 h2

/-- C5 (counterexample): a successful `advance` on the label declaration
`(LOOP)` takes the counter from 1 to 2; it does not leave it unchanged. -/
theorem C5_label_counts :
    advance hack (fresh "(LOOP)\n".toList)
      = some ({ fresh [] with currLine := "(LOOP)".toList, pos := 6, lineNum := 2,
                              cmdType := .L_COMMAND, symbol := "LOOP".toList }, .ok ())
    ∧ (fresh "(LOOP)\n".toList).lineNum = 1 := by
  constructor <;> rfl

/-- C5 (amended): a successful `advance` increases the counter `_lineNum` by
exactly one, whatever the kind of the instruction parsed: address, compute or
label. -/
theorem C5_counter_increment (V : Mnemonics) (p p' : Parser)
    (h : advance V p = some (p', .ok ())) : p'.lineNum = p.lineNum + 1 := by
  cases hm : hasMoreCommands p with
  | none => simp [advance, hm] at h
  | some r =>
    obtain ⟨p1, x⟩ := r
    have hf := (hasMoreCommandsFuel_frame _ p _ hm).1
    simp only at hf
    cases x with
    | error e => simp [advance, hm] at h
    | ok b =>
      cases b with
      | false => simp [advance, hm] at h
      | true =>
        rw [advance_eq_dispatch V p p1 hm] at h
        rcases dispatch_cases V p1 with ⟨q, hq, hl⟩ | ⟨q, e, hq, -, -⟩
        · rw [hq] at h
          cases h
          rw [hl, hf]
        · rw [hq] at h
          cases h

theorem C5_counter_increment_witness :
    advance hack (fresh "(LOOP)\n".toList)
      = some ({ fresh [] with currLine := "(LOOP)".toList, pos := 6, lineNum := 2,
                              cmdType := .L_COMMAND, symbol := "LOOP".toList }, .ok ())
    ∧ ({ fresh [] with currLine := "(LOOP)".toList, pos := 6, lineNum := 2,
                       cmdType := .L_COMMAND, symbol := "LOOP".toList } : Parser).lineNum
      = (fresh "(LOOP)\n".toList).lineNum + 1 :=
  ⟨rfl, C5_counter_increment hack (fresh "(LOOP)\n".toList) _ rfl⟩

/-! ## A rejected destination -/

/-- C7 (counterexample): the destination validator of the sample tables rejects
the text `A M`, yet on the line `A M=1` `advance` raises no SyntaxError: the
scan drops the space and the destination is `AM`. -/
theorem C7_spaced_destination :
    hack.dest_mnemonics "A M".toList = false
    ∧ advance hack (fresh "A M=1\n".toList)
      = some ({ fresh [] with currLine := "A M=1".toList, pos := 5, lineNum := 2,
                              cmdType := .C_COMMAND, dest := "AM".toList, comp := "1".toList,
                              jump := "null".toList }, .ok ()) := by
  constructor <;> rfl

/-- C7 (amended): on a line made of whitespace `ws` (possibly none), a text `d`
without whitespace, NUL, `=`, `;` or `/`, then `=` and any text, where the line
does not start with `(` or `@` after the whitespace and the destination
validator rejects `d`: `advance` raises a SyntaxError whose column is the
number of leading whitespace characters, the index of the first character of
`d`, and whose message is `Bad destination. 'd' given.`. -/
theorem C7_bad_destination (V : Mnemonics) (p : Parser) (ws d rest tail : Text)
    (hws : ∀ c ∈ ws, isspace c = true) (hd : ∀ c ∈ d, isFieldChar c = true)
    (h1 : (d ++ ['=']).headD NUL ≠ '(') (h2 : (d ++ ['=']).headD NUL ≠ '@')
    (hv : V.dest_mnemonics d = false) (h : AtLine p (ws ++ d ++ '=' :: rest) tail) :
    ∃ p', advance V p = some (p', .error (.SyntaxErrorException p.lineNum ws.length
        (ws ++ d ++ '=' :: rest) ("Bad destination. '".toList ++ d ++ "' given.".toList))) := by
  have hhead : isspace ((d ++ '=' :: rest).headD NUL) = false
      ∧ (d ++ '=' :: rest).headD NUL ≠ '/'
      ∧ (d ++ '=' :: rest).headD NUL = (d ++ ['=']).headD NUL := by
    cases d with
    | nil => exact ⟨by simp [isspace], by simp, rfl⟩
    | cons a u =>
      have ha := hd a (by simp)
      exact ⟨by simpa using isFieldChar_not_isspace a ha,
        by simpa using isFieldChar_ne_slash a ha, rfl⟩
  obtain ⟨hsp, hns, hhd⟩ := hhead
  generalize hL : ws ++ d ++ '=' :: rest = L at *
  have hlen : L.length = ws.length + d.length + 1 + rest.length := by
    simp [← hL]; omega
  have d1 : L.drop ws.length = d ++ '=' :: rest :=
    drop_eq_of_append L ws _ _ (by simp [← hL]) rfl
  have d0 : L.drop 0 = ws ++ (d ++ '=' :: rest) := by simp [← hL]
  have hc0 : charAt L ws.length = (d ++ ['=']).headD NUL := by
    rw [charAt_eq_head_drop, d1, hhd]
  have hsk : skipWhitespaceLoop L 0 = ws.length := by
    have := skipWhitespaceLoop_append ws (d ++ '=' :: rest) 0 hws hsp
    rw [← d0] at this
    simpa using this
  have hm := advance_atLine V p L tail h (by rw [hsk, hlen]; omega)
    (by rw [hsk, hc0, ← hhd]; exact hns)
  rw [hsk] at hm
  have hk : skipWhitespaceLoop (L.drop ws.length) ws.length = ws.length := by
    rw [d1]; exact skipWhitespaceLoop_stop _ _ hsp
  have f1 : L.length - ws.length + 3 = rest.length + 3 + 1 + d.length := by
    rw [hlen]; omega
  obtain ⟨st, hst, -, hdest, -⟩ := cLoop_total L (rest.length + 3)
    ⟨1, [], ws.length + d.length + 1, ws.length + d.length, ws.length + d.length,
      [] ++ d, p.comp, p.jump⟩ (by simp) (by simp only [hlen]; omega)
  have hloop : cLoop L (L.length - ws.length + 3)
      ⟨0, [], ws.length, ws.length, ws.length, p.dest, p.comp, p.jump⟩ = some st := by
    rw [f1, cLoop_fields L d hd ws ('=' :: rest) (by simp [← hL]) 0 [] _ _ _ _ _ _ rfl
      (by omega)]
    rw [cLoop_step_char L _ '=' _ (by simp)
      (charAt_eq_of_append L (ws ++ d) rest '=' _ (by simp [← hL]) (by simp)), cBody_eq0]
    exact hst
  have hdst : st.dest = d := by simpa using (hdest (by simp)).1
  have hq := handleCCommand_eq V (lineRead p L tail ws.length) ws.length st
    (by simpa only [lineRead] using hk) (by simpa only [lineRead] using hloop)
  rw [if_pos (by simp [hdst, hv]), hdst] at hq
  exact ⟨_, hm.trans (dispatch_C V _ _ (by simpa only [lineRead, hc0] using h1)
    (by simpa only [lineRead, hc0] using h2) hq)⟩

theorem C7_bad_destination_witness :
    (∀ c ∈ "  ".toList, isspace c = true) ∧ (∀ c ∈ "X".toList, isFieldChar c = true)
    ∧ hack.dest_mnemonics "X".toList = false
    ∧ AtLine (fresh "  X=D+1\n".toList) ("  ".toList ++ "X".toList ++ '=' :: "D+1".toList)
        "\n".toList
    ∧ ∃ p', advance hack (fresh "  X=D+1\n".toList) = some (p', .error (.SyntaxErrorException 1 2
        "  X=D+1".toList "Bad destination. 'X' given.".toList)) :=
  ⟨by decide, by decide, by decide, by decide,
    C7_bad_destination hack (fresh "  X=D+1\n".toList) "  ".toList "X".toList "D+1".toList
      "\n".toList (by decide) (by decide) (by decide) (by decide) (by decide) (by decide)⟩

/-! ## A single `/` -/

theorem readLine_length (l : Text) : (readLine l).2.1.length ≤ l.length - 1 := by
  induction l with
  | nil => simp [readLine]
  | cons a l ih =>
    unfold readLine
    split
    · simp
    · simp only [List.length_cons, Nat.add_sub_cancel]
      omega

theorem callBound_getline (p : Parser) (n : Nat) (hf : p.failbit = false)
    (h : callBound p ≤ n + 1) : callBound (getline p) ≤ n := by
  unfold callBound at h ⊢
  unfold getline
  rw [hf] at h
  simp only [Bool.false_eq_true, if_false] at h
  cases he : p.eofbit with
  | true =>
    rw [he] at h
    simp only [if_true] at h
    simp only [Bool.true_or, if_true]
    omega
  | false =>
    rw [he] at h
    simp only [Bool.false_eq_true, if_false] at h
    simp only [hf, Bool.or_self, Bool.false_eq_true, if_false]
    cases hi : p.input with
    | nil =>
      simp only [if_true]
      rw [hi] at h
      simp at h
      omega
    | cons c cs =>
      rw [hi] at h
      have hl := readLine_length (c :: cs)
      simp only [List.length_cons, Nat.add_sub_cancel] at hl h
      simp only [hf, Bool.false_eq_true, if_false]
      split <;> omega

theorem hasMoreCommandsFuel_total (n : Nat) (p : Parser) (h : callBound p ≤ n) :
    ∃ r, hasMoreCommandsFuel n p = some r := by
  induction n generalizing p with
  | zero =>
    unfold callBound at h
    split at h
    · omega
    · split at h <;> omega
  | succ n ih =>
    rw [hasMoreCommandsFuel]
    cases hf : p.failbit with
    | true => exact ⟨(p, .ok false), by simp⟩
    | false =>
      simp only [Bool.false_eq_true, if_false]
      have hb : callBound (getline (skipWhitespace p)) ≤ n :=
        callBound_getline (skipWhitespace p) n hf h
      split
      · split
        · exact ih _ hb
        · split
          · split
            · exact ⟨_, rfl⟩
            · rename_i p3 u heq
              apply ih
              have : p3 = (handleComment
                  (skipWhitespace { getline (skipWhitespace p) with pos := 0 })).1 := by
                rw [heq]
              rw [this]
              unfold handleComment
              simp only
              split <;> exact hb
          · exact ⟨_, rfl⟩
      · exact ⟨_, rfl⟩

/-- A call of `hasMoreCommands` returns or throws on every parser state. -/
theorem hasMoreCommands_total (p : Parser) : ∃ r, hasMoreCommands p = some r := by
  apply hasMoreCommandsFuel_total
  unfold callBound
  split
  · omega
  · split <;> omega

/-- The only exception `hasMoreCommands` throws is a SyntaxError. -/
theorem hasMoreCommandsFuel_error (n : Nat) (p p' : Parser) (e : Exn)
    (h : hasMoreCommandsFuel n p = some (p', .error e)) : e.isSyntaxError = true := by
  induction n generalizing p with
  | zero => simp [hasMoreCommandsFuel] at h
  | succ n ih =>
    rw [hasMoreCommandsFuel] at h
    split at h
    · cases h
    · simp only at h
      split at h
      · split at h
        · exact ih _ h
        · split at h
          · split at h
            · rename_i p3 e' heq
              cases h
              unfold handleComment at heq
              simp only at heq
              split at heq
              · cases heq
              · cases heq
                rfl
            · exact ih _ h
          · cases h
      · cases h

/-- C10: in every parser state `hasMoreCommands` and `advance` finish;
`advance` fails with IllegalCall if and only if `hasMoreCommands` returns
false in that state; and when `hasMoreCommands` returns true, `advance` either
succeeds or raises a SyntaxError. -/
theorem C10_illegal_call (V : Mnemonics) (p : Parser) :
    (∃ r, hasMoreCommands p = some r) ∧ (∃ r, advance V p = some r)
    ∧ ((∃ p' e, advance V p = some (p', .error e) ∧ e.isIllegalCall = true)
        ↔ ∃ p', hasMoreCommands p = some (p', .ok false))
    ∧ (∀ p1, hasMoreCommands p = some (p1, .ok true) →
        (∃ p', advance V p = some (p', .ok ()))
        ∨ ∃ p' e, advance V p = some (p', .error e) ∧ e.isSyntaxError = true) := by
  obtain ⟨r, hr⟩ := hasMoreCommands_total p
  obtain ⟨p1, x⟩ := r
  refine ⟨⟨_, hr⟩, ?_⟩
  cases x with
  | error e =>
    have he := hasMoreCommandsFuel_error _ p p1 e hr
    have ha : advance V p = some (p1, .error e) := by simp [advance, hr]
    refine ⟨⟨_, ha⟩, ⟨?_, ?_⟩, ?_⟩
    · rintro ⟨p', e', h, hi⟩
      rw [ha] at h
      cases h
      cases e <;> simp [Exn.isSyntaxError, Exn.isIllegalCall] at he hi
    · rintro ⟨p', h⟩
      rw [hr] at h
      cases h
    · intro q h
      rw [hr] at h
      cases h
  | ok b =>
    cases b with
    | false =>
      have ha : advance V p = some (p1, .error (.IllegalCallException "Illegal Call".toList)) := by
        simp [advance, hr]
      refine ⟨⟨_, ha⟩, ⟨fun _ => ⟨_, hr⟩, fun _ => ⟨_, _, ha, rfl⟩⟩, ?_⟩
      intro q h
      rw [hr] at h
      cases h
    | true =>
      have ha := advance_eq_dispatch V p p1 hr
      rcases dispatch_cases V p1 with ⟨q, hq, -⟩ | ⟨q, e, hq, he, -⟩
      · rw [hq] at ha
        refine ⟨⟨_, ha⟩, ⟨?_, ?_⟩, fun _ _ => Or.inl ⟨_, ha⟩⟩
        · rintro ⟨p', e', h, -⟩
          rw [ha] at h
          cases h
        · rintro ⟨p', h⟩
          rw [hr] at h
          cases h
      · rw [hq] at ha
        refine ⟨⟨_, ha⟩, ⟨?_, ?_⟩, fun _ _ => Or.inr ⟨_, _, ha, he⟩⟩
        · rintro ⟨p', e', h, hi⟩
          rw [ha] at h
          cases h
          cases e <;> simp [Exn.isSyntaxError, Exn.isIllegalCall] at he hi
        · rintro ⟨p', h⟩
          rw [hr] at h
          cases h

theorem C10_illegal_call_witness :
    hasMoreCommands (fresh "@1\n".toList) = some (lineRead (fresh []) "@1".toList "\n".toList 0, .ok true)
    ∧ ((∃ p', advance hack (fresh "@1\n".toList) = some (p', .ok ()))
        ∨ ∃ p' e, advance hack (fresh "@1\n".toList) = some (p', .error e)
          ∧ e.isSyntaxError = true) :=
  ⟨rfl, (C10_illegal_call hack (fresh "@1\n".toList)).2.2.2 _ rfl⟩

/-! ## Fuel of `hasMoreCommands` -/

theorem hasMoreCommandsFuel_succ (n : Nat) (p : Parser) :
    hasMoreCommandsFuel (n + 1) p =
      if p.failbit = true then some (p, .ok false)
      else if (skipWhitespace p).pos = (skipWhitespace p).currLine.length then
        afterGetline (hasMoreCommandsFuel n) (getline (skipWhitespace p))
      else some (skipWhitespace p, .ok true) := by
  rw [hasMoreCommandsFuel]
  rfl

theorem afterGetline_mono (f f' : Parser → Outcome Bool)
    (hf : ∀ p r, f p = some r → f' p = some r) (g : Parser) (r : Parser × Except Exn Bool)
    (h : afterGetline f g = some r) : afterGetline f' g = some r := by
  unfold afterGetline at h ⊢
  simp only at h ⊢
  split
  · rename_i hc
    rw [if_pos hc] at h
    exact hf _ _ h
  · rename_i hc
    rw [if_neg hc] at h
    split
    · rename_i hs
      rw [if_pos hs] at h
      split
      · rename_i p3 e heq
        rw [heq] at h
        exact h
      · rename_i p3 u heq
        rw [heq] at h
        exact hf _ _ h
    · rename_i hs
      rw [if_neg hs] at h
      exact h

theorem hasMoreCommandsFuel_mono_succ (n : Nat) (p : Parser) (r : Parser × Except Exn Bool)
    (h : hasMoreCommandsFuel n p = some r) : hasMoreCommandsFuel (n + 1) p = some r := by
  induction n generalizing p r with
  | zero => simp [hasMoreCommandsFuel] at h
  | succ n ih =>
    rw [hasMoreCommandsFuel_succ] at h ⊢
    split
    · rename_i hc
      rw [if_pos hc] at h
      exact h
    · rename_i hc
      rw [if_neg hc] at h
      split
      · rename_i hs
        rw [if_pos hs] at h
        exact afterGetline_mono _ _ ih _ _ h
      · rename_i hs
        rw [if_neg hs] at h
        exact h

theorem hasMoreCommandsFuel_mono (n m : Nat) (p : Parser) (r : Parser × Except Exn Bool)
    (h : hasMoreCommandsFuel n p = some r) (hnm : n ≤ m) : hasMoreCommandsFuel m p = some r := by
  induction hnm with
  | refl => exact h
  | step _ ih => exact hasMoreCommandsFuel_mono_succ _ p r ih

/-- Any fuel on which `hasMoreCommands` finishes gives its result. -/
theorem hasMoreCommands_of_fuel (n : Nat) (p : Parser) (r : Parser × Except Exn Bool)
    (h : hasMoreCommandsFuel n p = some r) : hasMoreCommands p = some r := by
  obtain ⟨r', hr'⟩ := hasMoreCommands_total p
  have h1 := hasMoreCommandsFuel_mono _ (max n (p.input.length + 2)) p r h (le_max_left _ _)
  have h2 := hasMoreCommandsFuel_mono _ (max n (p.input.length + 2)) p r' hr' (le_max_right _ _)
  rw [h1] at h2
  cases h2
  exact hr'

/-! ## Inserting blank lines and comment lines -/

/-- The function `hasMoreCommands` satisfies the recursion of the source. -/
theorem hasMoreCommands_unfold (q : Parser) :
    hasMoreCommands q =
      if q.failbit = true then some (q, .ok false)
      else if (skipWhitespace q).pos = (skipWhitespace q).currLine.length then
        afterGetline hasMoreCommands (getline (skipWhitespace q))
      else some (skipWhitespace q, .ok true) := by
  obtain ⟨r, hr⟩ := hasMoreCommands_total q
  rw [hr]
  have h : hasMoreCommandsFuel (q.input.length + 1 + 1) q = some r := hr
  rw [hasMoreCommandsFuel_succ] at h
  split
  · rename_i hc
    rw [if_pos hc] at h
    exact h.symm
  · rename_i hc
    rw [if_neg hc] at h
    split
    · rename_i hs
      rw [if_pos hs] at h
      exact (afterGetline_mono _ _ (hasMoreCommands_of_fuel _) _ _ h).symm
    · rename_i hs
      rw [if_neg hs] at h
      exact h.symm

theorem afterGetline_sim (f : Parser → Outcome Bool)
    (hf : ∀ p q, Related p q → ∀ p' x, f p = some (p', x) →
      ∃ q', hasMoreCommands q = some (q', x) ∧ Post p' q' x)
    (g g' : Parser) (hv : SameView g g') (hp : Padded g.input g'.input)
    (hl : g.currLine = g'.currLine) (p' : Parser) (x : Except Exn Bool)
    (h : afterGetline f g = some (p', x)) :
    ∃ q', afterGetline hasMoreCommands g' = some (q', x) ∧ Post p' q' x := by
  obtain ⟨i, e, fl, cur, pos, ln, ct, sy, de, co, ju⟩ := g
  obtain ⟨i', e', fl', cur', pos', ln', ct', sy', de', co', ju'⟩ := g'
  simp only [SameView] at hv
  obtain ⟨rfl, rfl, rfl, rfl, rfl, rfl, rfl, rfl⟩ := hv
  simp only at hl hp
  subst hl
  have hrel : ∀ k, Related ⟨i, e, fl, cur, k, ln, ct, sy, de, co, ju⟩
      ⟨i', e, fl, cur, k, ln, ct, sy, de, co, ju⟩ := fun k =>
    ⟨⟨rfl, rfl, rfl, rfl, rfl, rfl, rfl, rfl⟩, hp, Or.inl ⟨rfl, rfl⟩⟩
  unfold afterGetline at h ⊢
  simp only [skipWhitespace, List.drop_zero] at h ⊢
  by_cases hc : skipWhitespaceLoop cur 0 = cur.length
  · rw [if_pos hc] at h ⊢
    exact hf _ _ (hrel _) _ _ h
  · rw [if_neg hc] at h ⊢
    by_cases hs : charAt cur (skipWhitespaceLoop cur 0) = '/'
    · rw [if_pos hs] at h ⊢
      by_cases h2 : charAt cur (skipWhitespaceLoop cur 0 + 1) = '/'
      · simp only [handleComment, h2, if_true] at h ⊢
        exact hf _ _ (hrel _) _ _ h
      · simp only [handleComment, h2, if_false] at h ⊢
        cases h
        exact ⟨_, rfl, hrel _, fun h => by cases h⟩
    · rw [if_neg hs] at h ⊢
      cases h
      exact ⟨_, rfl, hrel _, fun _ => ⟨rfl, rfl⟩⟩

/-- The call of `getline` on a good stream. -/
theorem getline_good_eq (g : Parser) (he : g.eofbit = false) (hf : g.failbit = false) :
    getline g = ⟨(readLine g.input).2.1, (readLine g.input).2.2, g.input.isEmpty,
      (readLine g.input).1, g.pos, g.lineNum, g.cmdType, g.symbol, g.dest, g.comp, g.jump⟩ := by
  unfold getline
  simp only [he, hf, Bool.or_self, Bool.false_eq_true, if_false]
  cases g.input with
  | nil => simp [readLine]
  | cons c cs => simp

/-- The part after `getline` does not look at the cursor `getline` left. -/
theorem afterGetline_pos (f : Parser → Outcome Bool) (g : Parser) (k : Nat) :
    afterGetline f { g with pos := k } = afterGetline f g := rfl

theorem isJunkLine_cases (l : Text) (h : isJunkLine l = true) :
    '\n' ∉ l ∧ (skipWhitespaceLoop l 0 = l.length
      ∨ (skipWhitespaceLoop l 0 ≠ l.length ∧ charAt l (skipWhitespaceLoop l 0) = '/'
          ∧ charAt l (skipWhitespaceLoop l 0 + 1) = '/')) := by
  simp only [isJunkLine, Bool.and_eq_true, decide_eq_true_eq, Bool.or_eq_true, beq_iff_eq] at h
  refine ⟨h.1, ?_⟩
  rcases h.2 with h2 | ⟨h2, h3⟩
  · exact Or.inl h2
  · by_cases hk : skipWhitespaceLoop l 0 = l.length
    · exact Or.inl hk
    · exact Or.inr ⟨hk, h2, h3⟩

/-- After `getline` has read a junk line, `hasMoreCommands` calls itself at
the end of that line. -/
theorem afterGetline_junk_line (l : Text) (hj : isJunkLine l = true) (i : Text) (e fl : Bool)
    (ln : Nat) (ct : CommandType) (sy de co ju : Text) (k : Nat) :
    afterGetline hasMoreCommands ⟨i, e, fl, l, k, ln, ct, sy, de, co, ju⟩
      = hasMoreCommands ⟨i, e, fl, l, l.length, ln, ct, sy, de, co, ju⟩ := by
  obtain ⟨-, hcase⟩ := isJunkLine_cases l hj
  unfold afterGetline
  simp only [skipWhitespace, List.drop_zero]
  rcases hcase with hk | ⟨hk, h1, h2⟩
  · rw [if_pos hk, hk]
  · rw [if_neg hk, if_pos h1]
    simp only [handleComment, h2, if_true]

/-- Reading on from the end of a junk line is reading on from the line before. -/
theorem afterGetline_junk (l : Text) (hj : isJunkLine l = true) (b : Text)
    (ln : Nat) (ct : CommandType) (sy de co ju : Text) (k : Nat) :
    afterGetline hasMoreCommands ⟨b, false, false, l, k, ln, ct, sy, de, co, ju⟩
      = afterGetline hasMoreCommands
          (getline ⟨b, false, false, l, l.length, ln, ct, sy, de, co, ju⟩) := by
  rw [afterGetline_junk_line l hj, hasMoreCommands_unfold]
  simp [skipWhitespace, skipWhitespaceLoop]

/-- A junk line without a newline at the end of the input: after it
`hasMoreCommands` calls itself on a failed stream. -/
theorem afterGetline_last (l : Text) (hj : isJunkLine l = true)
    (ln : Nat) (ct : CommandType) (sy de co ju : Text) (k : Nat) :
    afterGetline hasMoreCommands ⟨[], true, false, l, k, ln, ct, sy, de, co, ju⟩
      = hasMoreCommands ⟨[], true, true, l, l.length, ln, ct, sy, de, co, ju⟩ := by
  rw [afterGetline_junk_line l hj, hasMoreCommands_unfold]
  simp only [skipWhitespace, List.drop_length, skipWhitespaceLoop, Bool.false_eq_true, if_false,
    if_true, getline, Bool.true_or]
  exact afterGetline_junk_line l hj [] true true ln ct sy de co ju l.length

theorem getline_sim_same (f : Parser → Outcome Bool)
    (hf : ∀ p q, Related p q → ∀ p' x, f p = some (p', x) →
      ∃ q', hasMoreCommands q = some (q', x) ∧ Post p' q' x)
    (p1 q1 : Parser) (hin : p1.input = q1.input) (hv : SameView p1 q1)
    (he : p1.eofbit = false) (hfl : p1.failbit = false) (p' : Parser) (x : Except Exn Bool)
    (h : afterGetline f (getline p1) = some (p', x)) :
    ∃ q', afterGetline hasMoreCommands (getline q1) = some (q', x) ∧ Post p' q' x := by
  have he' : q1.eofbit = false := by rw [← hv.1]; exact he
  have hfl' : q1.failbit = false := by rw [← hv.2.1]; exact hfl
  rw [getline_good_eq p1 he hfl] at h
  rw [getline_good_eq q1 he' hfl']
  rw [← afterGetline_pos _ _ 0] at h ⊢
  refine afterGetline_sim f hf _ _ ?_ ?_ ?_ p' x h
  · obtain ⟨-, -, h3, h4, h5, h6, h7, h8⟩ := hv
    exact ⟨by simp [hin], by simp [hin], h3, h4, h5, h6, h7, h8⟩
  · simp only [hin]
    exact Padded.same _
  · simp only [hin]

theorem getline_sim (f : Parser → Outcome Bool)
    (hf : ∀ p q, Related p q → ∀ p' x, f p = some (p', x) →
      ∃ q', hasMoreCommands q = some (q', x) ∧ Post p' q' x)
    (a b : Text) (hpad : Padded a b) :
    ∀ p1 q1 : Parser, p1.input = a → q1.input = b → SameView p1 q1 →
      p1.eofbit = false → p1.failbit = false →
      ∀ p' x, afterGetline f (getline p1) = some (p', x) →
        ∃ q', afterGetline hasMoreCommands (getline q1) = some (q', x) ∧ Post p' q' x := by
  induction hpad with
  | same a =>
    intro p1 q1 ha hb hv he hfl p' x h
    exact getline_sim_same f hf p1 q1 (ha.trans hb.symm) hv he hfl p' x h
  | junk l a b hj _ ih =>
    intro p1 q1 ha hb hv he hfl p' x h
    have he' : q1.eofbit = false := by rw [← hv.1]; exact he
    have hfl' : q1.failbit = false := by rw [← hv.2.1]; exact hfl
    obtain ⟨hnl, -⟩ := isJunkLine_cases l hj
    have hr := readLine_append l ('\n' :: b) hnl (Or.inl rfl)
    have hemp : (l ++ '\n' :: b).isEmpty = false := by cases l <;> rfl
    rw [getline_good_eq q1 he' hfl', hb, hr]
    simp only [List.drop_succ_cons, List.drop_zero, List.isEmpty_cons, hemp]
    rw [afterGetline_junk l hj b]
    exact ih p1 _ ha rfl (by
      obtain ⟨-, -, h3, h4, h5, h6, h7, h8⟩ := hv
      exact ⟨he, hfl, h3, h4, h5, h6, h7, h8⟩) he hfl p' x h
  | line l a b hnl hpad _ =>
    intro p1 q1 ha hb hv he hfl p' x h
    have he' : q1.eofbit = false := by rw [← hv.1]; exact he
    have hfl' : q1.failbit = false := by rw [← hv.2.1]; exact hfl
    have hr := readLine_append l ('\n' :: a) hnl (Or.inl rfl)
    have hr' := readLine_append l ('\n' :: b) hnl (Or.inl rfl)
    have hemp : (l ++ '\n' :: a).isEmpty = false := by cases l <;> rfl
    have hemp' : (l ++ '\n' :: b).isEmpty = false := by cases l <;> rfl
    rw [getline_good_eq p1 he hfl, ha, hr] at h
    rw [getline_good_eq q1 he' hfl', hb, hr']
    simp only [List.drop_succ_cons, List.drop_zero, List.isEmpty_cons, hemp, hemp'] at h ⊢
    rw [← afterGetline_pos _ _ 0] at h ⊢
    refine afterGetline_sim f hf _ _ ?_ ?_ ?_ p' x h
    · obtain ⟨-, -, h3, h4, h5, h6, h7, h8⟩ := hv
      exact ⟨rfl, rfl, h3, h4, h5, h6, h7, h8⟩
    · exact hpad
    · rfl
  | last l hj =>
    intro p1 q1 ha hb hv he hfl p' x h
    by_cases hl : l = []
    · exact getline_sim_same f hf p1 q1 (by rw [ha, hb, hl]) hv he hfl p' x h
    · have he' : q1.eofbit = false := by rw [← hv.1]; exact he
      have hfl' : q1.failbit = false := by rw [← hv.2.1]; exact hfl
      obtain ⟨hnl, -⟩ := isJunkLine_cases l hj
      have hr := readLine_append l [] hnl (Or.inr rfl)
      rw [List.append_nil] at hr
      have hemp : l.isEmpty = false := by cases l <;> simp at hl ⊢
      rw [getline_good_eq q1 he' hfl', hb, hr]
      simp only [List.drop_nil, List.isEmpty_nil, hemp]
      rw [afterGetline_last l hj]
      rw [getline_good_eq p1 he hfl, ha] at h
      unfold afterGetline at h
      simp only [readLine, skipWhitespace, List.drop_zero, skipWhitespaceLoop, List.length_nil,
        if_true, List.isEmpty_nil] at h
      refine hf _ _ ?_ p' x h
      obtain ⟨-, -, h3, h4, h5, h6, h7, h8⟩ := hv
      exact ⟨⟨rfl, rfl, h3, h4, h5, h6, h7, h8⟩, Padded.same _, Or.inr (Or.inr rfl)⟩

/-- One call of `hasMoreCommands` on related parsers: the same value comes
back and the parsers stay related. -/
theorem hasMoreCommandsFuel_sim (n : Nat) :
    ∀ p q, Related p q → ∀ p' x, hasMoreCommandsFuel n p = some (p', x) →
      ∃ q', hasMoreCommands q = some (q', x) ∧ Post p' q' x := by
  induction n with
  | zero =>
    intro p q _ p' x h
    simp [hasMoreCommandsFuel] at h
  | succ n ih =>
    intro p q hrel p' x h
    obtain ⟨hv, hpad, hpos⟩ := hrel
    rw [hasMoreCommandsFuel_succ] at h
    rw [hasMoreCommands_unfold]
    have hfail : q.failbit = p.failbit := hv.2.1.symm
    by_cases hf : p.failbit = true
    · rw [if_pos hf] at h
      rw [if_pos (hfail.trans hf)]
      cases h
      exact ⟨_, rfl, ⟨hv, hpad, hpos⟩, fun h => by cases h⟩
    · rw [if_neg hf] at h
      rw [if_neg (by rw [hfail]; exact hf)]
      have hf' : p.failbit = false := by simpa using hf
      replace hpos : (p.currLine = q.currLine ∧ p.pos = q.pos)
          ∨ (Exhausted p ∧ Exhausted q ∧ p.eofbit = false ∧ p.failbit = false) := by
        rcases hpos with h | h | h
        · exact Or.inl h
        · exact Or.inr h
        · exact absurd h hf
      by_cases hc : (skipWhitespace p).pos = (skipWhitespace p).currLine.length
      · rw [if_pos hc] at h
        have hc' : (skipWhitespace q).pos = (skipWhitespace q).currLine.length := by
          rcases hpos with ⟨h1, h2⟩ | ⟨-, h2, -, -⟩
          · simp only [skipWhitespace] at hc ⊢
            rw [← h1, ← h2]
            exact hc
          · exact h2
        rw [if_pos hc']
        have hv1 : SameView (skipWhitespace p) (skipWhitespace q) := hv
        cases he : p.eofbit with
        | false =>
          exact getline_sim _ ih p.input q.input hpad (skipWhitespace p) (skipWhitespace q)
            rfl rfl hv1 he hf' p' x h
        | true =>
          rcases hpos with ⟨h1, h2⟩ | ⟨-, -, h3, -⟩
          · have hg : getline (skipWhitespace p) = { skipWhitespace p with failbit := true } := by
              unfold getline
              rw [if_pos (by simp [skipWhitespace, he])]
            have he' : q.eofbit = true := by rw [← hv.1]; exact he
            have hg' : getline (skipWhitespace q) = { skipWhitespace q with failbit := true } := by
              unfold getline
              rw [if_pos (by simp [skipWhitespace, he'])]
            rw [hg] at h
            rw [hg']
            refine afterGetline_sim _ ih { skipWhitespace p with failbit := true }
              { skipWhitespace q with failbit := true } ?_ hpad h1 p' x h
            obtain ⟨g1, -, g3, g4, g5, g6, g7, g8⟩ := hv
            exact ⟨g1, rfl, g3, g4, g5, g6, g7, g8⟩
          · rw [he] at h3
            cases h3
      · rw [if_neg hc] at h
        rcases hpos with ⟨h1, h2⟩ | ⟨h1, -, -, -⟩
        · have hc' : ¬ (skipWhitespace q).pos = (skipWhitespace q).currLine.length := by
            simp only [skipWhitespace] at hc ⊢
            rw [← h1, ← h2]
            exact hc
          rw [if_neg hc']
          cases h
          refine ⟨_, rfl, ⟨hv, hpad, Or.inl ⟨h1, ?_⟩⟩, fun _ => ⟨h1, ?_⟩⟩
          all_goals simp only [skipWhitespace]; rw [h1, h2]
        · exact absurd h1 hc

/-- A call of `hasMoreCommands` on related parsers. -/
theorem hasMoreCommands_sim (p q : Parser) (h : Related p q) (p' : Parser)
    (x : Except Exn Bool) (hp : hasMoreCommands p = some (p', x)) :
    ∃ q', hasMoreCommands q = some (q', x) ∧ Post p' q' x :=
  hasMoreCommandsFuel_sim _ p q h p' x hp

/-! ## The handlers and the unread input -/

theorem handleACommand_shape (q : Parser) (b : Text) :
    HandlerShape q b (handleACommand q) (handleACommand { q with input := b }) := by
  rw [handleACommand_eq { q with input := b } _ _ _ _ rfl rfl rfl,
    handleACommand_eq q _ _ _ _ rfl rfl rfl]
  simp only
  split
  · exact ⟨rfl, rfl, rfl, rfl, fun h => by cases h⟩
  · exact ⟨rfl, rfl, rfl, rfl, fun _ => rfl⟩

theorem handleLCommand_shape (q : Parser) (b : Text) :
    HandlerShape q b (handleLCommand q) (handleLCommand { q with input := b }) := by
  rw [handleLCommand_eq { q with input := b } _ _ _ _ rfl rfl rfl,
    handleLCommand_eq q _ _ _ _ rfl rfl rfl]
  simp only
  split
  · exact ⟨rfl, rfl, rfl, rfl, fun h => by cases h⟩
  · split
    · exact ⟨rfl, rfl, rfl, rfl, fun h => by cases h⟩
    · exact ⟨rfl, rfl, rfl, rfl, fun _ => rfl⟩

theorem handleCCommand_shape (V : Mnemonics) (q : Parser) (b : Text) :
    ∃ r r', handleCCommand V q = some r ∧ handleCCommand V { q with input := b } = some r'
      ∧ HandlerShape q b r r' := by
  obtain ⟨st, hst, -⟩ := cLoop_total q.currLine
    (q.currLine.length - skipWhitespaceLoop (q.currLine.drop q.pos) q.pos + 3)
    ⟨0, [], skipWhitespaceLoop (q.currLine.drop q.pos) q.pos,
      skipWhitespaceLoop (q.currLine.drop q.pos) q.pos,
      skipWhitespaceLoop (q.currLine.drop q.pos) q.pos, q.dest, q.comp, q.jump⟩
    (by simp) (by simp)
  rw [handleCCommand_eq V q _ st rfl hst, handleCCommand_eq V { q with input := b } _ st rfl hst]
  simp only
  split
  · exact ⟨_, _, rfl, rfl, rfl, rfl, rfl, rfl, fun h => by cases h⟩
  · split
    · exact ⟨_, _, rfl, rfl, rfl, rfl, rfl, rfl, fun h => by cases h⟩
    · split
      · exact ⟨_, _, rfl, rfl, rfl, rfl, rfl, rfl, fun h => by cases h⟩
      · exact ⟨_, _, rfl, rfl, rfl, rfl, rfl, rfl, fun _ => rfl⟩

theorem finish_shape (q : Parser) (b : Text) (r r' : Parser × Except Exn Unit)
    (h : HandlerShape q b r r') :
    ∃ s s', finish (some r) = some s ∧ finish (some r') = some s' ∧ HandlerShape q b s s' := by
  obtain ⟨p2, y⟩ := r
  obtain ⟨rfl, h2, h3, h4, h5⟩ := h
  cases y with
  | error e => exact ⟨_, _, rfl, rfl, rfl, h2, h3, h4, fun h => by cases h⟩
  | ok u => exact ⟨_, _, rfl, rfl, rfl, h2, h3, h4, fun _ => h5 rfl⟩

/-- The second half of `advance` neither looks at nor changes the stream, and
on success leaves the cursor at the end of the line. -/
theorem dispatch_shape (V : Mnemonics) (q : Parser) (b : Text) :
    ∃ s s', dispatch V q = some s ∧ dispatch V { q with input := b } = some s'
      ∧ HandlerShape q b s s' := by
  unfold dispatch
  simp only
  split
  · exact finish_shape q b _ _ (handleLCommand_shape q b)
  · split
    · exact finish_shape q b _ _ (handleACommand_shape q b)
    · obtain ⟨r, r', h1, h2, h3⟩ := handleCCommand_shape V q b
      rw [h1, h2]
      exact finish_shape q b r r' h3

theorem eq_setInput_of_sameView (p q : Parser) (hv : SameView p q) (hl : p.currLine = q.currLine)
    (hp : p.pos = q.pos) : q = { p with input := q.input } := by
  obtain ⟨i, e, fl, cur, pos, ln, ct, sy, de, co, ju⟩ := p
  obtain ⟨i', e', fl', cur', pos', ln', ct', sy', de', co', ju'⟩ := q
  simp only [SameView] at hv
  obtain ⟨rfl, rfl, rfl, rfl, rfl, rfl, rfl, rfl⟩ := hv
  simp only at hl hp
  subst hl hp
  rfl

/-- A call of `advance` on related parsers: the same outcome, and the parsers stay
related. -/
theorem advance_sim (V : Mnemonics) (p q : Parser) (h : Related p q) (p' : Parser)
    (y : Except Exn Unit) (hp : advance V p = some (p', y)) :
    ∃ q', advance V q = some (q', y) ∧ Related p' q' := by
  obtain ⟨r, hr⟩ := hasMoreCommands_total p
  obtain ⟨p1, x⟩ := r
  obtain ⟨q1, hq, hrel, hsame⟩ := hasMoreCommands_sim p q h p1 x hr
  cases x with
  | error e =>
    have ha : advance V p = some (p1, .error e) := by simp [advance, hr]
    have hb : advance V q = some (q1, .error e) := by simp [advance, hq]
    rw [ha] at hp
    cases hp
    exact ⟨_, hb, hrel⟩
  | ok bb =>
    cases bb with
    | false =>
      have ha : advance V p = some (p1, .error (.IllegalCallException "Illegal Call".toList)) := by
        simp [advance, hr]
      have hb : advance V q = some (q1, .error (.IllegalCallException "Illegal Call".toList)) := by
        simp [advance, hq]
      rw [ha] at hp
      cases hp
      exact ⟨_, hb, hrel⟩
    | true =>
      obtain ⟨hl, hpos⟩ := hsame rfl
      rw [advance_eq_dispatch V p p1 hr] at hp
      rw [advance_eq_dispatch V q q1 hq]
      have hq1 := eq_setInput_of_sameView p1 q1 hrel.1 hl hpos
      obtain ⟨s, s', h1, h2, h3, h4, h5, h6, -⟩ := dispatch_shape V p1 q1.input
      rw [← hq1] at h2
      rw [h1] at hp
      cases hp
      rw [h2, h3]
      refine ⟨_, rfl, ⟨rfl, rfl, rfl, rfl, rfl, rfl, rfl, rfl⟩, ?_, Or.inl ⟨rfl, rfl⟩⟩
      have h4' : p'.input = p1.input := h4
      show Padded p'.input q1.input
      rw [h4']
      exact hrel.2.1

theorem driveFuel_mono_succ (V : Mnemonics) (n : Nat) (p : Parser) (out : Run)
    (h : driveFuel V n p = some out) : driveFuel V (n + 1) p = some out := by
  induction n generalizing p out with
  | zero => simp [driveFuel] at h
  | succ n ih =>
    rw [driveFuel] at h ⊢
    split
    · rename_i heq
      rw [heq] at h
      exact h
    · rename_i p1 e heq
      rw [heq] at h
      exact h
    · rename_i p1 heq
      rw [heq] at h
      exact h
    · rename_i p1 heq
      rw [heq] at h
      simp only at h ⊢
      split
      · rename_i heq2
        rw [heq2] at h
        exact h
      · rename_i p2 e heq2
        rw [heq2] at h
        exact h
      · rename_i p2 u heq2
        rw [heq2] at h
        simp only at h ⊢
        cases hd : driveFuel V n p2 with
        | none => rw [hd] at h; cases h
        | some r =>
          rw [hd] at h
          rw [ih p2 r hd]
          exact h

theorem driveFuel_mono (V : Mnemonics) (n m : Nat) (p : Parser) (out : Run)
    (h : driveFuel V n p = some out) (hnm : n ≤ m) : driveFuel V m p = some out := by
  induction hnm with
  | refl => exact h
  | step _ ih => exact driveFuel_mono_succ V _ p out ih

/-- The driver on related parsers gives the same run. -/
theorem driveFuel_sim (V : Mnemonics) (n : Nat) :
    ∀ p q, Related p q → ∀ out, driveFuel V n p = some out →
      ∃ m, driveFuel V m q = some out := by
  induction n with
  | zero =>
    intro p q _ out h
    simp [driveFuel] at h
  | succ n ih =>
    intro p q hrel out h
    obtain ⟨r, hr⟩ := hasMoreCommands_total p
    obtain ⟨p1, x⟩ := r
    obtain ⟨q1, hq, hrel1, -⟩ := hasMoreCommands_sim p q hrel p1 x hr
    have hln : p1.lineNum = q1.lineNum := hrel1.1.2.2.1
    rw [driveFuel, hr] at h
    cases x with
    | error e =>
      simp only at h
      cases h
      exact ⟨1, by simp [driveFuel, hq, hln]⟩
    | ok bb =>
      cases bb with
      | false =>
        simp only at h
        cases h
        exact ⟨1, by simp [driveFuel, hq, hln]⟩
      | true =>
        simp only at h
        cases ha : advance V p1 with
        | none => rw [ha] at h; cases h
        | some s =>
          obtain ⟨p2, y⟩ := s
          obtain ⟨q2, hb, hrel2⟩ := advance_sim V p1 q1 hrel1 p2 y ha
          have hln2 : p2.lineNum = q2.lineNum := hrel2.1.2.2.1
          rw [ha] at h
          cases y with
          | error e =>
            simp only at h
            cases h
            exact ⟨1, by simp [driveFuel, hq, hb, hln2]⟩
          | ok u =>
            simp only at h
            cases hd : driveFuel V n p2 with
            | none => rw [hd] at h; cases h
            | some r =>
              rw [hd] at h
              obtain ⟨m, hm⟩ := ih p2 q2 hrel2 r hd
              have hi : instruction p2 = instruction q2 := by
                obtain ⟨-, -, -, g4, g5, g6, g7, g8⟩ := hrel2.1
                simp [instruction, commandType, symbol, dest, comp, jump, g4, g5, g6, g7, g8]
              refine ⟨m + 1, ?_⟩
              rw [driveFuel, hq]
              simp only [hb, hm]
              rw [← hi]
              exact h

/-! ## The driver finishes -/

theorem callBound_congr (p q : Parser) (h1 : p.input = q.input) (h2 : p.eofbit = q.eofbit)
    (h3 : p.failbit = q.failbit) : callBound p = callBound q := by
  unfold callBound
  rw [h1, h2, h3]

theorem callBound_pos (p : Parser) : 1 ≤ callBound p := by
  unfold callBound
  split
  · omega
  · split <;> omega

theorem afterGetline_bound (f : Parser → Outcome Bool)
    (hf : ∀ p p1 x, f p = some (p1, x) → callBound p1 ≤ callBound p)
    (g p1 : Parser) (x : Except Exn Bool) (h : afterGetline f g = some (p1, x)) :
    callBound p1 ≤ callBound g := by
  unfold afterGetline at h
  simp only at h
  have e2 : callBound (skipWhitespace { g with pos := 0 }) = callBound g :=
    callBound_congr _ _ rfl rfl rfl
  split at h
  · exact (hf _ _ _ h).trans (le_of_eq e2)
  · split at h
    · have e3 : callBound (handleComment (skipWhitespace { g with pos := 0 })).1 = callBound g := by
        unfold handleComment
        simp only
        split <;> exact callBound_congr _ _ rfl rfl rfl
      split at h
      · rename_i p3 e heq
        cases h
        rw [heq] at e3
        exact le_of_eq e3
      · rename_i p3 u heq
        rw [heq] at e3
        exact (hf _ _ _ h).trans (le_of_eq e3)
    · cases h
      exact le_of_eq e2

/-- A call of `hasMoreCommands` does not raise the bound, and lowers it when
it returns true from the end of a line. -/
theorem hasMoreCommandsFuel_bound (n : Nat) (p p1 : Parser) (x : Except Exn Bool)
    (h : hasMoreCommandsFuel n p = some (p1, x)) :
    callBound p1 ≤ callBound p ∧ (x = .ok true → Exhausted p → callBound p1 < callBound p) := by
  induction n generalizing p p1 x with
  | zero => simp [hasMoreCommandsFuel] at h
  | succ n ih =>
    rw [hasMoreCommandsFuel_succ] at h
    by_cases hf : p.failbit = true
    · rw [if_pos hf] at h
      cases h
      exact ⟨le_refl _, fun h => by cases h⟩
    · rw [if_neg hf] at h
      have hf' : p.failbit = false := by simpa using hf
      by_cases hc : (skipWhitespace p).pos = (skipWhitespace p).currLine.length
      · rw [if_pos hc] at h
        have h1 := afterGetline_bound _ (fun a b c hh => (ih a b c hh).1) _ _ _ h
        have h2 : callBound (getline (skipWhitespace p)) ≤ callBound p - 1 :=
          callBound_getline (skipWhitespace p) _ hf' (by
            have := callBound_pos p
            have e : callBound (skipWhitespace p) = callBound p :=
              callBound_congr _ _ rfl rfl rfl
            omega)
        have := callBound_pos p
        exact ⟨by omega, fun _ _ => by omega⟩
      · rw [if_neg hc] at h
        cases h
        exact ⟨le_of_eq (callBound_congr _ _ rfl rfl rfl), fun _ he => absurd he hc⟩

theorem advance_total (V : Mnemonics) (p : Parser) : ∃ r, advance V p = some r := by
  obtain ⟨r, hr⟩ := hasMoreCommands_total p
  obtain ⟨p1, x⟩ := r
  cases x with
  | error e => exact ⟨(p1, .error e), by simp [advance, hr]⟩
  | ok b =>
    cases b with
    | false =>
      exact ⟨(p1, .error (.IllegalCallException "Illegal Call".toList)), by simp [advance, hr]⟩
    | true =>
      rw [advance_eq_dispatch V p p1 hr]
      obtain ⟨s, -, h1, -⟩ := dispatch_shape V p1 []
      exact ⟨s, h1⟩

/-- A successful `advance` ends at the end of the line and does not raise the
bound. -/
theorem advance_ok_bound (V : Mnemonics) (p p2 : Parser) (h : advance V p = some (p2, .ok ())) :
    Exhausted p2 ∧ callBound p2 ≤ callBound p := by
  obtain ⟨r, hr⟩ := hasMoreCommands_total p
  obtain ⟨p1, x⟩ := r
  have hb := (hasMoreCommandsFuel_bound _ p p1 x hr).1
  cases x with
  | error e => simp [advance, hr] at h
  | ok b =>
    cases b with
    | false => simp [advance, hr] at h
    | true =>
      rw [advance_eq_dispatch V p p1 hr] at h
      obtain ⟨s, -, h1, -, -, h3, h4, h5, h6⟩ := dispatch_shape V p1 []
      rw [h1] at h
      cases h
      have hpos : p2.pos = p2.currLine.length := h6 rfl
      refine ⟨?_, ?_⟩
      · unfold Exhausted
        rw [hpos]
        simp [skipWhitespaceLoop]
      · rw [callBound_congr p2 p1 h3 h4 h5]
        exact hb

theorem driveFuel_total (V : Mnemonics) (n : Nat) (p : Parser)
    (h : callBound p + 1 ≤ n ∨ (Exhausted p ∧ callBound p ≤ n)) :
    ∃ out, driveFuel V n p = some out := by
  induction n generalizing p with
  | zero =>
    have := callBound_pos p
    rcases h with h | ⟨-, h⟩ <;> omega
  | succ n ih =>
    obtain ⟨r, hr⟩ := hasMoreCommands_total p
    obtain ⟨p1, x⟩ := r
    have hb := hasMoreCommandsFuel_bound _ p p1 x hr
    rw [driveFuel, hr]
    cases x with
    | error e => exact ⟨_, rfl⟩
    | ok b =>
      cases b with
      | false => exact ⟨_, rfl⟩
      | true =>
        simp only
        obtain ⟨s, hs⟩ := advance_total V p1
        obtain ⟨p2, y⟩ := s
        rw [hs]
        cases y with
        | error e => exact ⟨_, rfl⟩
        | ok u =>
          simp only
          obtain ⟨he, hle⟩ := advance_ok_bound V p1 p2 hs
          have hn : callBound p2 ≤ n := by
            rcases h with h | ⟨hex, h⟩
            · have := hb.1
              omega
            · have := hb.2 rfl hex
              omega
          obtain ⟨out, ho⟩ := ih p2 (Or.inr ⟨he, hn⟩)
          rw [ho]
          exact ⟨_, rfl⟩

/-- The loop of the driver finishes on every parser state. -/
theorem drive_total (V : Mnemonics) (p : Parser) : ∃ out, drive V p = some out := by
  apply driveFuel_total
  left
  unfold callBound
  split
  · omega
  · split <;> omega

/-- Any fuel on which the driver finishes gives its run. -/
theorem drive_of_fuel (V : Mnemonics) (n : Nat) (p : Parser) (out : Run)
    (h : driveFuel V n p = some out) : drive V p = some out := by
  obtain ⟨r', hr'⟩ := drive_total V p
  have h1 := driveFuel_mono V _ (max n (p.input.length + 3)) p out h (le_max_left _ _)
  have h2 := driveFuel_mono V _ (max n (p.input.length + 3)) p r' hr' (le_max_right _ _)
  rw [h1] at h2
  cases h2
  exact hr'

theorem hasMoreCommands_empty (p : Parser) (hin : p.input = []) (he : p.eofbit = false)
    (hx : Exhausted p) : ∃ p', hasMoreCommands p = some (p', .ok false) := by
  rw [hasMoreCommands_unfold]
  by_cases hf : p.failbit = true
  · rw [if_pos hf]
    exact ⟨_, rfl⟩
  · have hf' : p.failbit = false := by simpa using hf
    have hx' : (skipWhitespace p).pos = (skipWhitespace p).currLine.length := hx
    rw [if_neg hf, if_pos hx', getline_good_eq (skipWhitespace p) he hf']
    have hi : (skipWhitespace p).input = [] := hin
    rw [hi]
    unfold afterGetline
    simp only [readLine, skipWhitespace, List.drop_zero, skipWhitespaceLoop, List.length_nil,
      if_true, List.isEmpty_nil]
    rw [hasMoreCommands_unfold, if_pos rfl]
    exact ⟨_, rfl⟩

/-! ## Lines inserted after a last line without a newline -/

theorem handleACommand_stream (q : Parser) (i : Text) (e f : Bool) :
    StreamShape q i e f (handleACommand q)
      (handleACommand { q with input := i, eofbit := e, failbit := f }) := by
  rw [handleACommand_eq { q with input := i, eofbit := e, failbit := f } _ _ _ _ rfl rfl rfl,
    handleACommand_eq q _ _ _ _ rfl rfl rfl]
  simp only
  split
  · exact ⟨rfl, rfl, rfl, rfl, rfl, fun h => by cases h⟩
  · exact ⟨rfl, rfl, rfl, rfl, rfl, fun _ => rfl⟩

theorem handleLCommand_stream (q : Parser) (i : Text) (e f : Bool) :
    StreamShape q i e f (handleLCommand q)
      (handleLCommand { q with input := i, eofbit := e, failbit := f }) := by
  rw [handleLCommand_eq { q with input := i, eofbit := e, failbit := f } _ _ _ _ rfl rfl rfl,
    handleLCommand_eq q _ _ _ _ rfl rfl rfl]
  simp only
  split
  · exact ⟨rfl, rfl, rfl, rfl, rfl, fun h => by cases h⟩
  · split
    · exact ⟨rfl, rfl, rfl, rfl, rfl, fun h => by cases h⟩
    · exact ⟨rfl, rfl, rfl, rfl, rfl, fun _ => rfl⟩

theorem handleCCommand_stream (V : Mnemonics) (q : Parser) (i : Text) (e f : Bool) :
    ∃ r r', handleCCommand V q = some r
      ∧ handleCCommand V { q with input := i, eofbit := e, failbit := f } = some r'
      ∧ StreamShape q i e f r r' := by
  obtain ⟨st, hst, -⟩ := cLoop_total q.currLine
    (q.currLine.length - skipWhitespaceLoop (q.currLine.drop q.pos) q.pos + 3)
    ⟨0, [], skipWhitespaceLoop (q.currLine.drop q.pos) q.pos,
      skipWhitespaceLoop (q.currLine.drop q.pos) q.pos,
      skipWhitespaceLoop (q.currLine.drop q.pos) q.pos, q.dest, q.comp, q.jump⟩
    (by simp) (by simp)
  rw [handleCCommand_eq V q _ st rfl hst,
    handleCCommand_eq V { q with input := i, eofbit := e, failbit := f } _ st rfl hst]
  simp only
  split
  · exact ⟨_, _, rfl, rfl, rfl, rfl, rfl, rfl, rfl, fun h => by cases h⟩
  · split
    · exact ⟨_, _, rfl, rfl, rfl, rfl, rfl, rfl, rfl, fun h => by cases h⟩
    · split
      · exact ⟨_, _, rfl, rfl, rfl, rfl, rfl, rfl, rfl, fun h => by cases h⟩
      · exact ⟨_, _, rfl, rfl, rfl, rfl, rfl, rfl, rfl, fun _ => rfl⟩

theorem finish_stream (q : Parser) (i : Text) (e f : Bool) (r r' : Parser × Except Exn Unit)
    (h : StreamShape q i e f r r') :
    ∃ s s', finish (some r) = some s ∧ finish (some r') = some s' ∧ StreamShape q i e f s s' := by
  obtain ⟨p2, y⟩ := r
  obtain ⟨rfl, h2, h3, h4, h5, h6⟩ := h
  cases y with
  | error e => exact ⟨_, _, rfl, rfl, rfl, h2, h3, h4, h5, fun h => by cases h⟩
  | ok u => exact ⟨_, _, rfl, rfl, rfl, h2, h3, h4, h5, fun _ => h6 rfl⟩

/-- The second half of `advance` neither looks at nor changes the stream: its
unread input and its two bits. -/
theorem dispatch_stream (V : Mnemonics) (q : Parser) (i : Text) (e f : Bool) :
    ∃ s s', dispatch V q = some s
      ∧ dispatch V { q with input := i, eofbit := e, failbit := f } = some s'
      ∧ StreamShape q i e f s s' := by
  unfold dispatch
  simp only
  split
  · exact finish_stream q i e f _ _ (handleLCommand_stream q i e f)
  · split
    · exact finish_stream q i e f _ _ (handleACommand_stream q i e f)
    · obtain ⟨r, r', h1, h2, h3⟩ := handleCCommand_stream V q i e f
      rw [h1, h2]
      exact finish_stream q i e f r r' h3

/-- Skipping whitespace twice is skipping it once. -/
theorem skipWhitespaceLoop_idem (l : Text) (k : Nat) :
    k ≤ skipWhitespaceLoop l k
    ∧ skipWhitespaceLoop (l.drop (skipWhitespaceLoop l k - k)) (skipWhitespaceLoop l k)
        = skipWhitespaceLoop l k := by
  induction l generalizing k with
  | nil => simp [skipWhitespaceLoop]
  | cons c cs ih =>
    by_cases hc : isspace c = true
    · obtain ⟨h1, h2⟩ := ih (k + 1)
      have hv : skipWhitespaceLoop (c :: cs) k = skipWhitespaceLoop cs (k + 1) := by
        rw [skipWhitespaceLoop, if_pos hc]
      rw [hv]
      have hd : skipWhitespaceLoop cs (k + 1) - k = (skipWhitespaceLoop cs (k + 1) - (k + 1)) + 1 := by
        omega
      rw [hd, List.drop_succ_cons]
      exact ⟨by omega, h2⟩
    · have hv : skipWhitespaceLoop (c :: cs) k = k := by
        rw [skipWhitespaceLoop, if_neg hc]
      rw [hv]
      simp only [Nat.sub_self, List.drop_zero, le_refl, true_and]
      exact hv

theorem skipWhitespace_idem (p : Parser) : skipWhitespace (skipWhitespace p) = skipWhitespace p := by
  obtain ⟨h1, h2⟩ := skipWhitespaceLoop_idem (p.currLine.drop p.pos) p.pos
  rw [List.drop_drop] at h2
  have e2 : p.pos + (skipWhitespaceLoop (p.currLine.drop p.pos) p.pos - p.pos)
      = skipWhitespaceLoop (p.currLine.drop p.pos) p.pos := by omega
  rw [e2] at h2
  simp only [skipWhitespace]
  rw [h2]

theorem readLine_cases (i : Text) :
    (∃ l rest, '\n' ∉ l ∧ i = l ++ '\n' :: rest) ∨ '\n' ∉ i := by
  induction i with
  | nil => exact Or.inr (by simp)
  | cons c cs ih =>
    by_cases hc : c = '\n'
    · exact Or.inl ⟨[], cs, by simp, by simp [hc]⟩
    · rcases ih with ⟨l, rest, h1, h2⟩ | h
      · refine Or.inl ⟨c :: l, rest, ?_, by simp [h2]⟩
        intro hm
        rcases List.mem_cons.1 hm with h | h
        · exact hc h.symm
        · exact h1 h
      · refine Or.inr ?_
        intro hm
        rcases List.mem_cons.1 hm with h' | h'
        · exact hc h'.symm
        · exact h h'

theorem afterGetline_newline (f : Parser → Outcome Bool)
    (hf : ∀ p q, NewlineAdded p q → ∀ p' x, f p = some (p', x) →
      ∃ q', hasMoreCommands q = some (q', x) ∧ AfterCall p' q' x)
    (g g' : Parser) (hv : SameView g g') (hi : g'.input = g.input ++ ['\n'])
    (hl : g.currLine = g'.currLine) (p' : Parser) (x : Except Exn Bool)
    (h : afterGetline f g = some (p', x)) :
    ∃ q', afterGetline hasMoreCommands g' = some (q', x) ∧ AfterCall p' q' x := by
  obtain ⟨i, e, fl, cur, pos, ln, ct, sy, de, co, ju⟩ := g
  obtain ⟨i', e', fl', cur', pos', ln', ct', sy', de', co', ju'⟩ := g'
  simp only [SameView] at hv
  obtain ⟨rfl, rfl, rfl, rfl, rfl, rfl, rfl, rfl⟩ := hv
  simp only at hl hi
  subst hl hi
  have hrel : ∀ k, NewlineAdded ⟨i, e, fl, cur, k, ln, ct, sy, de, co, ju⟩
      ⟨i ++ ['\n'], e, fl, cur, k, ln, ct, sy, de, co, ju⟩ := fun k =>
    ⟨⟨rfl, rfl, rfl, rfl, rfl, rfl, rfl, rfl⟩, rfl, rfl, rfl⟩
  unfold afterGetline at h ⊢
  simp only [skipWhitespace, List.drop_zero] at h ⊢
  by_cases hc : skipWhitespaceLoop cur 0 = cur.length
  · rw [if_pos hc] at h ⊢
    exact hf _ _ (hrel _) _ _ h
  · rw [if_neg hc] at h ⊢
    by_cases hs : charAt cur (skipWhitespaceLoop cur 0) = '/'
    · rw [if_pos hs] at h ⊢
      by_cases h2 : charAt cur (skipWhitespaceLoop cur 0 + 1) = '/'
      · simp only [handleComment, h2, if_true] at h ⊢
        exact hf _ _ (hrel _) _ _ h
      · simp only [handleComment, h2, if_false] at h ⊢
        cases h
        exact ⟨_, rfl, ⟨rfl, rfl, rfl, rfl, rfl, rfl⟩, fun h => by cases h⟩
    · rw [if_neg hs] at h ⊢
      cases h
      exact ⟨_, rfl, ⟨rfl, rfl, rfl, rfl, rfl, rfl⟩, fun _ => Or.inl (hrel _)⟩

/-- After a junk line that ended at the end of the input, `hasMoreCommands`
returns false. -/
theorem afterGetline_eof_junk (l : Text) (hj : isJunkLine l = true) (fl : Bool)
    (ln : Nat) (ct : CommandType) (sy de co ju : Text) (k : Nat) :
    afterGetline hasMoreCommands ⟨[], true, fl, l, k, ln, ct, sy, de, co, ju⟩
      = some (⟨[], true, true, l, l.length, ln, ct, sy, de, co, ju⟩, .ok false) := by
  cases fl with
  | true =>
    rw [afterGetline_junk_line l hj, hasMoreCommands_unfold, if_pos rfl]
  | false =>
    rw [afterGetline_last l hj, hasMoreCommands_unfold, if_pos rfl]

/-- After a junk line that ended with the last newline of the input,
`hasMoreCommands` returns false. -/
theorem afterGetline_end_junk (l : Text) (hj : isJunkLine l = true)
    (ln : Nat) (ct : CommandType) (sy de co ju : Text) (k : Nat) :
    ∃ q', afterGetline hasMoreCommands ⟨[], false, false, l, k, ln, ct, sy, de, co, ju⟩
      = some (q', .ok false) ∧ SameAcc ⟨[], true, true, l, l.length, ln, ct, sy, de, co, ju⟩ q' := by
  rw [afterGetline_junk_line l hj]
  obtain ⟨q', hq⟩ := hasMoreCommands_empty
    ⟨[], false, false, l, l.length, ln, ct, sy, de, co, ju⟩ rfl rfl
    (by simp [Exhausted, skipWhitespaceLoop])
  obtain ⟨h1, h2, h3, h4, h5, h6⟩ := hasMoreCommandsFuel_frame _ _ _ hq
  exact ⟨q', hq, h1.symm, h2.symm, h3.symm, h4.symm, h5.symm, h6.symm⟩

theorem getline_newline (f : Parser → Outcome Bool)
    (hf : ∀ p q, NewlineAdded p q → ∀ p' x, f p = some (p', x) →
      ∃ q', hasMoreCommands q = some (q', x) ∧ AfterCall p' q' x)
    (hfm : ∀ p r, f p = some r → hasMoreCommands p = some r)
    (p1 q1 : Parser) (hv : SameView p1 q1) (hi : q1.input = p1.input ++ ['\n'])
    (he : p1.eofbit = false) (hfl : p1.failbit = false) (p' : Parser) (x : Except Exn Bool)
    (h : afterGetline f (getline p1) = some (p', x)) :
    ∃ q', afterGetline hasMoreCommands (getline q1) = some (q', x) ∧ AfterCall p' q' x := by
  obtain ⟨i, e, fl, cur, pos, ln, ct, sy, de, co, ju⟩ := p1
  obtain ⟨i', e', fl', cur', pos', ln', ct', sy', de', co', ju'⟩ := q1
  simp only [SameView] at hv
  obtain ⟨rfl, rfl, rfl, rfl, rfl, rfl, rfl, rfl⟩ := hv
  simp only at hi he hfl
  subst hi he hfl
  rw [getline_good_eq _ rfl rfl] at h
  rw [getline_good_eq _ rfl rfl]
  simp only at h ⊢
  rcases readLine_cases i with ⟨l, rest, hl, hin⟩ | hno
  · have r1 : readLine i = (l, rest, false) := by
      rw [hin]
      simpa using readLine_append l ('\n' :: rest) hl (Or.inl rfl)
    have r2 : readLine (i ++ ['\n']) = (l, rest ++ ['\n'], false) := by
      rw [hin, List.append_assoc, List.cons_append]
      simpa using readLine_append l ('\n' :: (rest ++ ['\n'])) hl (Or.inl rfl)
    have e1 : i.isEmpty = false := by rw [hin]; cases l <;> rfl
    have e2 : (i ++ ['\n']).isEmpty = false := by cases i <;> rfl
    rw [r1, e1] at h
    rw [r2, e2]
    exact afterGetline_newline f hf ⟨rest, false, false, l, pos, ln, ct, sy, de, co, ju⟩
      ⟨rest ++ ['\n'], false, false, l, pos', ln, ct, sy, de, co, ju⟩
      ⟨rfl, rfl, rfl, rfl, rfl, rfl, rfl, rfl⟩ rfl rfl p' x h
  · have r1 : readLine i = (i, [], true) := by
      simpa using readLine_append i [] hno (Or.inr rfl)
    have r2 : readLine (i ++ ['\n']) = (i, [], false) := by
      simpa using readLine_append i ['\n'] hno (Or.inl rfl)
    have e2 : (i ++ ['\n']).isEmpty = false := by cases i <;> rfl
    rw [r1] at h
    rw [r2, e2]
    simp only at h ⊢
    replace h := afterGetline_mono f hasMoreCommands hfm _ _ h
    by_cases hj : isJunkLine i = true
    · rw [afterGetline_eof_junk i hj] at h
      cases h
      obtain ⟨q', hq, hs⟩ := afterGetline_end_junk i hj ln ct sy de co ju pos'
      exact ⟨q', hq, hs, fun h => by cases h⟩
    · have hne : i.isEmpty = false := by
        cases i with
        | nil => exact absurd rfl hj
        | cons c cs => rfl
      rw [hne] at h
      have hk : skipWhitespaceLoop i 0 ≠ i.length := by
        intro hk
        apply hj
        simp [isJunkLine, hno, hk]
      have h2 : ¬ (charAt i (skipWhitespaceLoop i 0) = '/'
          ∧ charAt i (skipWhitespaceLoop i 0 + 1) = '/') := by
        intro hk
        apply hj
        simp [isJunkLine, hno, hk.1, hk.2]
      unfold afterGetline at h ⊢
      simp only [skipWhitespace, List.drop_zero] at h ⊢
      rw [if_neg hk] at h ⊢
      by_cases hs : charAt i (skipWhitespaceLoop i 0) = '/'
      · rw [if_pos hs] at h ⊢
        have h3 : ¬ charAt i (skipWhitespaceLoop i 0 + 1) = '/' := fun h3 => h2 ⟨hs, h3⟩
        simp only [handleComment, h3, if_false] at h ⊢
        cases h
        exact ⟨_, rfl, ⟨rfl, rfl, rfl, rfl, rfl, rfl⟩, fun h => by cases h⟩
      · rw [if_neg hs] at h ⊢
        cases h
        refine ⟨_, rfl, ⟨rfl, rfl, rfl, rfl, rfl, rfl⟩, fun _ => Or.inr ⟨?_, ?_⟩⟩
        · exact ⟨⟨rfl, rfl, rfl, rfl, rfl, rfl⟩, rfl, rfl, rfl, rfl, rfl, rfl, rfl, hk, hs⟩
        · have := (skipWhitespaceLoop_idem i 0).2
          simp only [Nat.sub_zero] at this
          simp only [Exhausted]
          rw [this]
          exact hk

/-- A call of `hasMoreCommands` on an input and on that input with one more
newline at its end: the same result. -/
theorem hasMoreCommandsFuel_newline (n : Nat) :
    ∀ p q, NewlineAdded p q → ∀ p' x, hasMoreCommandsFuel n p = some (p', x) →
      ∃ q', hasMoreCommands q = some (q', x) ∧ AfterCall p' q' x := by
  induction n with
  | zero =>
    intro p q _ p' x h
    simp [hasMoreCommandsFuel] at h
  | succ n ih =>
    intro p q hrel p' x h
    obtain ⟨hv, hl, hpos, hin⟩ := hrel
    have hacc : SameAcc p q := hv.2.2
    rw [hasMoreCommandsFuel_succ] at h
    rw [hasMoreCommands_unfold]
    have hfail : q.failbit = p.failbit := hv.2.1.symm
    have hsk : (skipWhitespace q).pos = (skipWhitespace p).pos := by
      simp only [skipWhitespace]
      rw [← hl, ← hpos]
    have hsl : (skipWhitespace q).currLine = (skipWhitespace p).currLine := hl.symm
    by_cases hf : p.failbit = true
    · rw [if_pos hf] at h
      rw [if_pos (hfail.trans hf)]
      cases h
      exact ⟨_, rfl, hacc, fun h => by cases h⟩
    · rw [if_neg hf] at h
      rw [if_neg (by rw [hfail]; exact hf)]
      have hf' : p.failbit = false := by simpa using hf
      by_cases hc : (skipWhitespace p).pos = (skipWhitespace p).currLine.length
      · rw [if_pos hc] at h
        rw [if_pos (by rw [hsk, hsl]; exact hc)]
        have hv1 : SameView (skipWhitespace p) (skipWhitespace q) := hv
        cases he : p.eofbit with
        | false =>
          exact getline_newline _ ih (hasMoreCommands_of_fuel n) (skipWhitespace p)
            (skipWhitespace q) hv1 hin he hf' p' x h
        | true =>
          have hg : getline (skipWhitespace p) = { skipWhitespace p with failbit := true } := by
            unfold getline
            rw [if_pos (by simp [skipWhitespace, he])]
          have he' : q.eofbit = true := by rw [← hv.1]; exact he
          have hg' : getline (skipWhitespace q) = { skipWhitespace q with failbit := true } := by
            unfold getline
            rw [if_pos (by simp [skipWhitespace, he'])]
          rw [hg] at h
          rw [hg']
          refine afterGetline_newline _ ih { skipWhitespace p with failbit := true }
            { skipWhitespace q with failbit := true } ?_ hin hl p' x h
          obtain ⟨g1, -, g3, g4, g5, g6, g7, g8⟩ := hv
          exact ⟨g1, rfl, g3, g4, g5, g6, g7, g8⟩
      · rw [if_neg hc] at h
        rw [if_neg (by rw [hsk, hsl]; exact hc)]
        cases h
        exact ⟨_, rfl, hacc, fun _ => Or.inl ⟨hv, hl, hsk.symm, hin⟩⟩

theorem hasMoreCommands_newline (p q : Parser) (h : NewlineAdded p q) (p' : Parser)
    (x : Except Exn Bool) (hp : hasMoreCommands p = some (p', x)) :
    ∃ q', hasMoreCommands q = some (q', x) ∧ AfterCall p' q' x :=
  hasMoreCommandsFuel_newline _ p q h p' x hp

theorem eq_setStream (p q : Parser) (ha : SameAcc p q) (hl : p.currLine = q.currLine)
    (hp : p.pos = q.pos) :
    q = { p with input := q.input, eofbit := q.eofbit, failbit := q.failbit } := by
  obtain ⟨i, e, fl, cur, pos, ln, ct, sy, de, co, ju⟩ := p
  obtain ⟨i', e', fl', cur', pos', ln', ct', sy', de', co', ju'⟩ := q
  simp only [SameAcc] at ha
  obtain ⟨rfl, rfl, rfl, rfl, rfl, rfl⟩ := ha
  simp only at hl hp
  subst hl hp
  rfl

/-- The second half of `advance` on two parsers at the same place of the same
line: the same outcome, and neither stream is touched. -/
theorem dispatch_related (V : Mnemonics) (p q : Parser) (ha : SameAcc p q)
    (hl : p.currLine = q.currLine) (hp : p.pos = q.pos) (p' : Parser) (y : Except Exn Unit)
    (h : dispatch V p = some (p', y)) :
    ∃ q', dispatch V q = some (q', y) ∧ SameAcc p' q' ∧ p'.currLine = q'.currLine
      ∧ p'.pos = q'.pos ∧ p'.currLine = p.currLine
      ∧ p'.input = p.input ∧ p'.eofbit = p.eofbit ∧ p'.failbit = p.failbit
      ∧ q'.input = q.input ∧ q'.eofbit = q.eofbit ∧ q'.failbit = q.failbit := by
  obtain ⟨s, s', h1, h2, h3, h4, h5, h6, h7, -⟩ := dispatch_stream V p q.input q.eofbit q.failbit
  rw [← eq_setStream p q ha hl hp] at h2
  rw [h1] at h
  cases h
  rw [h2, h3]
  exact ⟨_, rfl, ⟨rfl, rfl, rfl, rfl, rfl, rfl⟩, rfl, rfl, h7, h4, h5, h6, rfl, rfl, rfl⟩

theorem advance_failed (V : Mnemonics) (p : Parser) (h : p.failbit = true) :
    advance V p = some (p, .error (.IllegalCallException "Illegal Call".toList)) := by
  have hm : hasMoreCommands p = some (p, .ok false) := by
    rw [hasMoreCommands_unfold, if_pos h]
  simp [advance, hm]

/-- In the middle of the last line `hasMoreCommands` returns true on both
parsers. -/
theorem hasMoreCommands_lastLine (p q : Parser) (h : LastLineRead p q) (hx : ¬ Exhausted p) :
    hasMoreCommands p = some (skipWhitespace p, .ok true)
    ∧ hasMoreCommands q = some (skipWhitespace q, .ok true)
    ∧ LastLineRead (skipWhitespace p) (skipWhitespace q) ∧ ¬ Exhausted (skipWhitespace p) := by
  obtain ⟨ha, he, he', hf, hf', hin, hl, hp, hi⟩ := h
  have hsk : (skipWhitespace q).pos = (skipWhitespace p).pos := by
    simp only [skipWhitespace]
    rw [← hl, ← hp]
  have hx' : ¬ (skipWhitespace p).pos = (skipWhitespace p).currLine.length := hx
  have hxq : ¬ (skipWhitespace q).pos = (skipWhitespace q).currLine.length := by
    rw [hsk]
    show ¬ (skipWhitespace p).pos = q.currLine.length
    rw [← hl]
    exact hx
  refine ⟨?_, ?_, ⟨ha, he, he', hf, hf', hin, hl, hsk.symm, hi⟩, ?_⟩
  · rw [hasMoreCommands_unfold, if_neg (by simp [hf]), if_neg hx']
  · rw [hasMoreCommands_unfold, if_neg (by simp [hf']), if_neg hxq]
  · unfold Exhausted
    have := skipWhitespace_idem p
    have e : (skipWhitespace (skipWhitespace p)).pos = (skipWhitespace p).pos := by rw [this]
    exact fun hh => hx' (e.symm.trans hh)

/-- At the end of the last line the two parsers part: the one that met the
end of the input scans the line again and returns true on a failed stream,
the one that met the newline finds nothing more and returns false. -/
theorem hasMoreCommands_lastLine_end (p q : Parser) (h : LastLineRead p q) (hx : Exhausted p) :
    ∃ p1 q1, hasMoreCommands p = some (p1, .ok true) ∧ p1.failbit = true
      ∧ p1.lineNum = p.lineNum
      ∧ hasMoreCommands q = some (q1, .ok false) ∧ q1.lineNum = q.lineNum := by
  obtain ⟨ha, he, he', hf, hf', hin, hl, hp, hk, hs⟩ := h
  have hxq : Exhausted q := by
    unfold Exhausted at hx ⊢
    rw [← hl, ← hp]
    exact hx
  obtain ⟨q1, hq1⟩ := hasMoreCommands_empty q hin he' hxq
  have hq2 := (hasMoreCommandsFuel_frame _ _ _ hq1).1
  have hx' : (skipWhitespace p).pos = (skipWhitespace p).currLine.length := hx
  have hg : getline (skipWhitespace p) = { skipWhitespace p with failbit := true } := by
    unfold getline
    rw [if_pos (by simp [skipWhitespace, he])]
  refine ⟨skipWhitespace { skipWhitespace p with failbit := true, pos := 0 }, q1, ?_, rfl, rfl,
    hq1, hq2⟩
  rw [hasMoreCommands_unfold, if_neg (by simp [hf]), if_pos hx', hg]
  unfold afterGetline
  have e1 : (skipWhitespace { skipWhitespace p with failbit := true, pos := 0 }).pos
      = skipWhitespaceLoop p.currLine 0 := by
    simp [skipWhitespace]
  have e2 : (skipWhitespace { skipWhitespace p with failbit := true, pos := 0 }).currLine
      = p.currLine := rfl
  simp only
  rw [e1, e2, if_neg hk, if_neg hs]

/-- A call of `advance` in the middle of the last line. -/
theorem advance_lastLine (V : Mnemonics) (p q : Parser) (h : LastLineRead p q)
    (hx : ¬ Exhausted p) (p' : Parser) (y : Except Exn Unit)
    (hp : advance V p = some (p', y)) :
    ∃ q', advance V q = some (q', y) ∧ SameAcc p' q'
      ∧ (y = .ok () → LastLineRead p' q') := by
  obtain ⟨h1, h2, h3, -⟩ := hasMoreCommands_lastLine p q h hx
  rw [advance_eq_dispatch V p _ h1] at hp
  rw [advance_eq_dispatch V q _ h2]
  obtain ⟨ha, he, he', hf, hf', hin, hl, hpos, hi⟩ := h3
  obtain ⟨q', g1, g2, g3, g4, g5, g6, g7, g8, g9, g10, g11⟩ :=
    dispatch_related V _ _ ha hl hpos p' y hp
  refine ⟨q', g1, g2, fun _ => ⟨g2, ?_, ?_, ?_, ?_, ?_, g3, g4, ?_⟩⟩
  · rw [g7]; exact he
  · rw [g10]; exact he'
  · rw [g8]; exact hf
  · rw [g11]; exact hf'
  · rw [g9]; exact hin
  · rw [g5]; exact hi

/-- A call of `advance` on an input and on that input with one more newline
at its end. -/
theorem advance_newline (V : Mnemonics) (p q : Parser) (h : NewlineAdded p q) (p' : Parser)
    (y : Except Exn Unit) (hp : advance V p = some (p', y)) :
    ∃ q', advance V q = some (q', y) ∧ SameAcc p' q'
      ∧ (y = .ok () → NewlineAdded p' q' ∨ LastLineRead p' q') := by
  obtain ⟨r, hr⟩ := hasMoreCommands_total p
  obtain ⟨p1, x⟩ := r
  obtain ⟨q1, hq, hacc, hsame⟩ := hasMoreCommands_newline p q h p1 x hr
  cases x with
  | error e =>
    have ha : advance V p = some (p1, .error e) := by simp [advance, hr]
    have hb : advance V q = some (q1, .error e) := by simp [advance, hq]
    rw [ha] at hp
    cases hp
    exact ⟨_, hb, hacc, fun h => by cases h⟩
  | ok bb =>
    cases bb with
    | false =>
      have ha : advance V p = some (p1, .error (.IllegalCallException "Illegal Call".toList)) := by
        simp [advance, hr]
      have hb : advance V q = some (q1, .error (.IllegalCallException "Illegal Call".toList)) := by
        simp [advance, hq]
      rw [ha] at hp
      cases hp
      exact ⟨_, hb, hacc, fun h => by cases h⟩
    | true =>
      rw [advance_eq_dispatch V p p1 hr] at hp
      rw [advance_eq_dispatch V q q1 hq]
      rcases hsame rfl with ⟨hv, hl, hpos, hin⟩ | ⟨⟨ha, he, he', hf, hf', hin, hl, hpos, hi⟩, -⟩
      · obtain ⟨q', g1, g2, g3, g4, g5, g6, g7, g8, g9, g10, g11⟩ :=
          dispatch_related V _ _ hacc hl hpos p' y hp
        refine ⟨q', g1, g2, fun _ => Or.inl ⟨⟨?_, ?_, g2⟩, g3, g4, ?_⟩⟩
        · rw [g7, g10]; exact hv.1
        · rw [g8, g11]; exact hv.2.1
        · rw [g9, g6]; exact hin
      · obtain ⟨q', g1, g2, g3, g4, g5, g6, g7, g8, g9, g10, g11⟩ :=
          dispatch_related V _ _ ha hl hpos p' y hp
        refine ⟨q', g1, g2, fun _ => Or.inr ⟨g2, ?_, ?_, ?_, ?_, ?_, g3, g4, ?_⟩⟩
        · rw [g7]; exact he
        · rw [g10]; exact he'
        · rw [g8]; exact hf
        · rw [g11]; exact hf'
        · rw [g9]; exact hin
        · rw [g5]; exact hi

/-- The driver once the last line has been read: the same instructions and
the same final counter; at the end of that line the parser that met the end
of the input ends with the IllegalCall of `advance`, the other one with
`hasMoreCommands` returning false. -/
theorem driveFuel_lastLine (V : Mnemonics) (n : Nat) :
    ∀ p q, LastLineRead p q → ∀ out, driveFuel V n p = some out →
      ∃ m out', driveFuel V m q = some out' ∧ SameOutput out out' := by
  induction n with
  | zero =>
    intro p q _ out h
    simp [driveFuel] at h
  | succ n ih =>
    intro p q hrel out h
    rw [driveFuel] at h
    by_cases hx : Exhausted p
    · obtain ⟨p1, q1, h1, h2, h3, h4, h5⟩ := hasMoreCommands_lastLine_end p q hrel hx
      rw [h1] at h
      simp only [advance_failed V p1 h2] at h
      cases h
      refine ⟨1, ⟨[], .done, q1.lineNum⟩, by simp [driveFuel, h4], rfl, ?_, Or.inr ⟨rfl, rfl⟩⟩
      show p1.lineNum = q1.lineNum
      rw [h3, h5]
      exact hrel.1.1
    · obtain ⟨h1, h2, h3, h4⟩ := hasMoreCommands_lastLine p q hrel hx
      rw [h1] at h
      simp only at h
      cases ha : advance V (skipWhitespace p) with
      | none => rw [ha] at h; cases h
      | some s =>
        obtain ⟨p2, y⟩ := s
        obtain ⟨q2, hb, hacc, hnext⟩ := advance_lastLine V _ _ h3 h4 p2 y ha
        rw [ha] at h
        cases y with
        | error e =>
          simp only at h
          cases h
          exact ⟨1, ⟨[], .thrown e, q2.lineNum⟩, by simp [driveFuel, h2, hb], rfl, hacc.1,
            Or.inl rfl⟩
        | ok u =>
          simp only at h
          cases hd : driveFuel V n p2 with
          | none => rw [hd] at h; cases h
          | some r =>
            rw [hd] at h
            cases h
            obtain ⟨m, r', hm, g1, g2, g3⟩ := ih p2 q2 (hnext rfl) r hd
            have hi : instruction p2 = instruction q2 := by
              obtain ⟨-, k2, k3, k4, k5, k6⟩ := hacc
              simp [instruction, commandType, symbol, dest, comp, jump, k2, k3, k4, k5, k6]
            refine ⟨m + 1, ⟨instruction q2 :: r'.instructions, r'.ending, r'.lineNum⟩, ?_, ?_,
              g2, g3⟩
            · rw [driveFuel, h2]
              simp only [hb, hm]
            · show instruction p2 :: r.instructions = instruction q2 :: r'.instructions
              rw [hi, g1]

/-- The driver on an input and on that input with one more newline at its
end. -/
theorem driveFuel_newline (V : Mnemonics) (n : Nat) :
    ∀ p q, NewlineAdded p q → ∀ out, driveFuel V n p = some out →
      ∃ m out', driveFuel V m q = some out' ∧ SameOutput out out' := by
  induction n with
  | zero =>
    intro p q _ out h
    simp [driveFuel] at h
  | succ n ih =>
    intro p q hrel out h
    obtain ⟨r, hr⟩ := hasMoreCommands_total p
    obtain ⟨p1, x⟩ := r
    obtain ⟨q1, hq, hacc1, hsame⟩ := hasMoreCommands_newline p q hrel p1 x hr
    rw [driveFuel, hr] at h
    cases x with
    | error e =>
      simp only at h
      cases h
      exact ⟨1, ⟨[], .thrown e, q1.lineNum⟩, by simp [driveFuel, hq], rfl, hacc1.1, Or.inl rfl⟩
    | ok bb =>
      cases bb with
      | false =>
        simp only at h
        cases h
        exact ⟨1, ⟨[], .done, q1.lineNum⟩, by simp [driveFuel, hq], rfl, hacc1.1, Or.inl rfl⟩
      | true =>
        simp only at h
        cases ha : advance V p1 with
        | none => rw [ha] at h; cases h
        | some s =>
          obtain ⟨p2, y⟩ := s
          have hadv : ∃ q2, advance V q1 = some (q2, y) ∧ SameAcc p2 q2
              ∧ (y = .ok () → NewlineAdded p2 q2 ∨ LastLineRead p2 q2) := by
            rcases hsame rfl with h1 | ⟨h1, h2⟩
            · exact advance_newline V p1 q1 h1 p2 y ha
            · obtain ⟨q2, g1, g2, g3⟩ := advance_lastLine V p1 q1 h1 h2 p2 y ha
              exact ⟨q2, g1, g2, fun hy => Or.inr (g3 hy)⟩
          obtain ⟨q2, hb, hacc, hnext⟩ := hadv
          rw [ha] at h
          cases y with
          | error e =>
            simp only at h
            cases h
            exact ⟨1, ⟨[], .thrown e, q2.lineNum⟩, by simp [driveFuel, hq, hb], rfl, hacc.1,
              Or.inl rfl⟩
          | ok u =>
            simp only at h
            cases hd : driveFuel V n p2 with
            | none => rw [hd] at h; cases h
            | some r =>
              rw [hd] at h
              cases h
              have hrec : ∃ m r', driveFuel V m q2 = some r' ∧ SameOutput r r' := by
                rcases hnext rfl with h1 | h1
                · exact ih p2 q2 h1 r hd
                · exact driveFuel_lastLine V n p2 q2 h1 r hd
              obtain ⟨m, r', hm, g1, g2, g3⟩ := hrec
              have hi : instruction p2 = instruction q2 := by
                obtain ⟨-, k2, k3, k4, k5, k6⟩ := hacc
                simp [instruction, commandType, symbol, dest, comp, jump, k2, k3, k4, k5, k6]
              refine ⟨m + 1, ⟨instruction q2 :: r'.instructions, r'.ending, r'.lineNum⟩, ?_, ?_,
                g2, g3⟩
              · rw [driveFuel, hq]
                simp only [hb, hm]
              · show instruction p2 :: r.instructions = instruction q2 :: r'.instructions
                rw [hi, g1]

/-- Giving the last line of the input its newline changes neither the
instructions nor the final counter of a run of the driver. -/
theorem drive_newline (V : Mnemonics) (p : Parser) (a : Text) :
    ∃ out out', drive V { p with input := a } = some out
      ∧ drive V { p with input := a ++ ['\n'] } = some out' ∧ SameOutput out out' := by
  obtain ⟨out, ho⟩ := drive_total V { p with input := a }
  obtain ⟨m, out', hm, hs⟩ := driveFuel_newline V _ { p with input := a }
    { p with input := a ++ ['\n'] } ⟨⟨rfl, rfl, rfl, rfl, rfl, rfl, rfl, rfl⟩, rfl, rfl, rfl⟩ out ho
  exact ⟨out, out', ho, drive_of_fuel V m _ out' hm, hs⟩

theorem inserted_nil (a b : Text) (h : Inserted a b) : a = [] → Padded [] b := by
  induction h with
  | same a =>
    intro ha
    subst ha
    exact Padded.same []
  | junk l a b hj _ ih =>
    intro ha
    exact Padded.junk l [] b hj (ih ha)
  | line l a b hl _ _ =>
    intro ha
    cases l <;> cases ha
  | last l hj =>
    intro _
    exact Padded.last l hj
  | after l b hl _ ih =>
    intro ha
    subst ha
    exact Padded.junk [] [] b (by decide) (ih rfl)

/-- Lines inserted anywhere are lines inserted at line boundaries, once the
last line has its newline whenever lines are put after it. -/
theorem inserted_cases (a b : Text) (h : Inserted a b) :
    Padded a b ∨ Padded (a ++ ['\n']) b := by
  induction h with
  | same a => exact Or.inl (Padded.same a)
  | junk l a b hj _ ih =>
    rcases ih with h | h
    · exact Or.inl (Padded.junk l a b hj h)
    · exact Or.inr (Padded.junk l _ b hj h)
  | line l a b hl _ ih =>
    rcases ih with h | h
    · exact Or.inl (Padded.line l a b hl h)
    · refine Or.inr ?_
      have := Padded.line l _ b hl h
      simpa using this
  | last l hj => exact Or.inl (Padded.last l hj)
  | after l b hl hb _ =>
    exact Or.inr (Padded.line l [] b hl (inserted_nil [] b hb rfl))

theorem padded_inserted (a b : Text) (h : Padded a b) : Inserted a b := by
  induction h with
  | same a => exact Inserted.same a
  | junk l a b hj _ ih => exact Inserted.junk l a b hj ih
  | line l a b hl _ ih => exact Inserted.line l a b hl ih
  | last l hj => exact Inserted.last l hj

/-- The driver on `@1` without a newline and on the same line followed by a
newline and a comment line: one instruction and the counter at 2 in both
runs; the first ends with the IllegalCall of `advance`, the second with
`hasMoreCommands` returning false. -/
theorem drive_after_last_line :
    drive hack (fresh "@1".toList)
      = some ⟨[⟨.A_COMMAND, "1".toList, [], [], []⟩],
          .thrown (.IllegalCallException "Illegal Call".toList), 2⟩
    ∧ drive hack (fresh "@1\n// c\n".toList)
      = some ⟨[⟨.A_COMMAND, "1".toList, [], [], []⟩], .done, 2⟩ := by
  constructor <;> rfl

/-- C6: inserting any number of whitespace-only lines or `//` comment lines
(with optional whitespace before the `//`) anywhere in the input, also after
a last line that has no newline, changes neither the instructions that the
loop `while (hasMoreCommands()) advance();` produces nor the final value of
the counter. The loop also ends the same way, with one exception: a run that
ended with the IllegalCall of `advance` may end with `hasMoreCommands`
returning false once lines stand after its last line; when the lines are put
at the start of the input or after newline-terminated lines (`Padded`), the
two runs are equal. And on an input made only of such lines `hasMoreCommands`
returns false and the loop produces no instruction. -/
theorem C6_junk_lines (V : Mnemonics) (p : Parser) (a b : Text) (h : Inserted a b) :
    (∃ out out', drive V { p with input := a } = some out
        ∧ drive V { p with input := b } = some out'
        ∧ out'.instructions = out.instructions ∧ out'.lineNum = out.lineNum
        ∧ (out'.ending = out.ending
          ∨ (out.ending = .thrown (.IllegalCallException "Illegal Call".toList)
              ∧ out'.ending = .done))
        ∧ (Padded a b → out' = out))
    ∧ (a = [] → p.eofbit = false → Exhausted p →
        (∃ p', hasMoreCommands { p with input := b } = some (p', .ok false))
        ∧ drive V { p with input := b } = some ⟨[], .done, p.lineNum⟩) := by
  have strong : ∀ a', Padded a' b → ∀ o, drive V { p with input := a' } = some o →
      drive V { p with input := b } = some o := by
    intro a' hp o ho
    have hrel : Related { p with input := a' } { p with input := b } :=
      ⟨⟨rfl, rfl, rfl, rfl, rfl, rfl, rfl, rfl⟩, hp, Or.inl ⟨rfl, rfl⟩⟩
    obtain ⟨m, hm⟩ := driveFuel_sim V _ _ _ hrel o ho
    exact drive_of_fuel V m _ o hm
  obtain ⟨out, ho⟩ := drive_total V { p with input := a }
  obtain ⟨out', ho'⟩ := drive_total V { p with input := b }
  have hpad : Padded a b → out' = out := by
    intro hp
    have := strong a hp out ho
    rw [ho'] at this
    cases this
    rfl
  refine ⟨⟨out, out', ho, ho', ?_⟩, ?_⟩
  · rcases inserted_cases a b h with hp | hp
    · have e := hpad hp
      subst e
      exact ⟨rfl, rfl, Or.inl rfl, fun _ => rfl⟩
    · obtain ⟨o1, o2, h1, h2, g1, g2, g3⟩ := drive_newline V p a
      have h3 := strong _ hp o2 h2
      rw [ho] at h1
      rw [ho'] at h3
      cases h1
      cases h3
      refine ⟨g1.symm, g2.symm, ?_, hpad⟩
      rcases g3 with g3 | g3
      · exact Or.inl g3.symm
      · exact Or.inr g3
  · intro ha he hx
    have hp : Padded a b := by
      have := inserted_nil a b h ha
      rw [ha]
      exact this
    have hrel : Related { p with input := a } { p with input := b } :=
      ⟨⟨rfl, rfl, rfl, rfl, rfl, rfl, rfl, rfl⟩, hp, Or.inl ⟨rfl, rfl⟩⟩
    obtain ⟨p1, h1⟩ := hasMoreCommands_empty { p with input := a } ha he hx
    obtain ⟨q1, h2, -⟩ := hasMoreCommands_sim _ _ hrel p1 _ h1
    have hl : p1.lineNum = p.lineNum := (hasMoreCommandsFuel_frame _ _ _ h1).1
    have hd : drive V { p with input := a } = some ⟨[], .done, p.lineNum⟩ := by
      unfold drive
      rw [driveFuel, h1]
      simp only [hl]
    exact ⟨⟨q1, h2⟩, strong a hp _ hd⟩

theorem C6_junk_lines_witness :
    (Inserted "@1".toList "@1\n// c\n".toList
      ∧ ∃ out out', drive hack (fresh "@1".toList) = some out
        ∧ drive hack (fresh "@1\n// c\n".toList) = some out'
        ∧ out'.instructions = out.instructions ∧ out'.lineNum = out.lineNum
        ∧ (out'.ending = out.ending
          ∨ (out.ending = .thrown (.IllegalCallException "Illegal Call".toList)
              ∧ out'.ending = .done))
        ∧ (Padded "@1".toList "@1\n// c\n".toList → out' = out))
    ∧ (Inserted "@1\n(L)".toList "// start\n@1\n  \n(L)\n \t// end".toList
      ∧ ∃ out out', drive hack (fresh "@1\n(L)".toList) = some out
        ∧ drive hack (fresh "// start\n@1\n  \n(L)\n \t// end".toList) = some out'
        ∧ out'.instructions = out.instructions ∧ out'.lineNum = out.lineNum
        ∧ (out'.ending = out.ending
          ∨ (out.ending = .thrown (.IllegalCallException "Illegal Call".toList)
              ∧ out'.ending = .done))
        ∧ (Padded "@1\n(L)".toList "// start\n@1\n  \n(L)\n \t// end".toList → out' = out)) :=
  ⟨⟨Inserted.after "@1".toList "// c\n".toList (by decide)
      (Inserted.junk "// c".toList [] [] (by decide) (Inserted.same [])),
    (C6_junk_lines hack (fresh []) "@1".toList "@1\n// c\n".toList
      (Inserted.after "@1".toList "// c\n".toList (by decide)
        (Inserted.junk "// c".toList [] [] (by decide) (Inserted.same [])))).1⟩,
   ⟨Inserted.junk "// start".toList _ _ (by decide)
      (Inserted.line "@1".toList _ _ (by decide)
        (Inserted.junk "  ".toList _ _ (by decide)
          (Inserted.after "(L)".toList " \t// end".toList (by decide)
            (Inserted.last " \t// end".toList (by decide))))),
    (C6_junk_lines hack (fresh []) "@1\n(L)".toList "// start\n@1\n  \n(L)\n \t// end".toList
      (Inserted.junk "// start".toList _ _ (by decide)
        (Inserted.line "@1".toList _ _ (by decide)
          (Inserted.junk "  ".toList _ _ (by decide)
            (Inserted.after "(L)".toList " \t// end".toList (by decide)
              (Inserted.last " \t// end".toList (by decide))))))).1⟩⟩

/-! ## Line numbers of errors -/

/-- C11: whatever value `v` the counter starts from, a SyntaxError on
`@5 junk` carries `v` as its line number both when that line is the first line
of the input and when it is the third, after a blank and a comment line: the
lines that `hasMoreCommands` skips are not counted. The text carried is the
text of the line. -/
theorem C11_skipped_lines_not_counted (v : Nat) :
    advance hack { fresh "@5 junk\n".toList with lineNum := v }
      = some ({ fresh [] with currLine := "@5 junk".toList, pos := 3, lineNum := v },
          .error (.SyntaxErrorException v 3 "@5 junk".toList "Unexpected 'j'".toList))
    ∧ advance hack { fresh "\n// c\n@5 junk\n".toList with lineNum := v }
      = some ({ fresh [] with currLine := "@5 junk".toList, pos := 3, lineNum := v },
          .error (.SyntaxErrorException v 3 "@5 junk".toList "Unexpected 'j'".toList)) := by
  constructor <;> rfl

/-! ## Accepted symbols -/

/-- C15: `(1abc)` is accepted with kind Label and symbol `1abc`, and `@` and
`()` are accepted with an empty symbol. -/
theorem C15_bad_symbols_accepted :
    advance hack (fresh "(1abc)\n".toList)
      = some ({ fresh [] with currLine := "(1abc)".toList, pos := 6, lineNum := 2,
                              cmdType := .L_COMMAND, symbol := "1abc".toList }, .ok ())
    ∧ advance hack (fresh "@\n".toList)
      = some ({ fresh [] with currLine := "@".toList, pos := 1, lineNum := 2,
                              cmdType := .A_COMMAND, symbol := [] }, .ok ())
    ∧ advance hack (fresh "()\n".toList)
      = some ({ fresh [] with currLine := "()".toList, pos := 2, lineNum := 2,
                              cmdType := .L_COMMAND, symbol := [] }, .ok ()) := by
  refine ⟨?_, ?_, ?_⟩ <;> rfl

/-! ## The column of a rejected computation -/

/-- C18: on `D=X`, where the destination is valid and the computation `X` is
not, the SyntaxError carries column 1, the index of the `=`, not column 2. -/
theorem C18_comp_column_at_equals :
    advance hack (fresh "D=X\n".toList)
      = some ({ fresh [] with currLine := "D=X".toList, pos := 5, dest := "D".toList,
                              comp := "X".toList, jump := "null".toList },
          .error (.SyntaxErrorException 1 1 "D=X".toList "Bad comp. 'X' given.".toList)) := by
  rfl

/-! ## Calling `hasMoreCommands` twice -/

/-- C19: on the input `@5` without a newline at its end, after the one
`advance`, a first call of `hasMoreCommands` returns true, with the cursor back
at the start of the line `@5` and the stream failed, and a second call right
after it returns false. -/
theorem C19_second_call_differs :
    advance hack (fresh "@5".toList)
      = some ({ fresh [] with eofbit := true, currLine := "@5".toList, pos := 2, lineNum := 2,
                              symbol := "5".toList }, .ok ())
    ∧ hasMoreCommands
        { fresh [] with eofbit := true, currLine := "@5".toList, pos := 2, lineNum := 2,
                        symbol := "5".toList }
      = some ({ fresh [] with eofbit := true, failbit := true, currLine := "@5".toList, pos := 0,
                              lineNum := 2, symbol := "5".toList }, .ok true)
    ∧ hasMoreCommands
        { fresh [] with eofbit := true, failbit := true, currLine := "@5".toList, pos := 0,
                        lineNum := 2, symbol := "5".toList }
      = some ({ fresh [] with eofbit := true, failbit := true, currLine := "@5".toList, pos := 0,
                              lineNum := 2, symbol := "5".toList }, .ok false) := by
  refine ⟨?_, ?_, ?_⟩ <;> rfl

/-! ## `formatAsBin` -/

theorem binDigits_length (n a : Nat) : (binDigits n a).length = n := by
  induction n generalizing a with
  | zero => rfl
  | succ n ih => simp [binDigits, ih]

theorem binDigits_chars (n a : Nat) : ∀ c ∈ binDigits n a, c = '0' ∨ c = '1' := by
  induction n generalizing a with
  | zero => simp [binDigits]
  | succ n ih =>
    intro c hc
    simp only [binDigits, List.mem_append, List.mem_singleton] at hc
    rcases hc with hc | hc
    · exact ih _ c hc
    · subst hc
      split
      · exact Or.inr rfl
      · exact Or.inl rfl

theorem readBin_binDigits (n a : Nat) : readBin (binDigits n a) = a % 2 ^ n := by
  induction n generalizing a with
  | zero => simp [binDigits, readBin, Nat.mod_one]
  | succ n ih =>
    have h := ih (a / 2)
    unfold readBin at h ⊢
    rw [binDigits, List.foldl_append, h]
    simp only [List.foldl_cons, List.foldl_nil]
    rw [pow_succ, Nat.mul_comm (2 ^ n) 2, Nat.mod_mul]
    have h2 : a % 2 = 0 ∨ a % 2 = 1 := Nat.mod_two_eq_zero_or_one a
    rcases h2 with h2 | h2
    · rw [h2]
      simp
    · rw [h2]
      simp
      omega

/-- C14: for every address `a` with `0 ≤ a < 2^16`, `formatAsBin a` has
exactly 16 characters, each `0` or `1`, and read as a base-2 numeral, the most
significant digit first, it gives `a`. -/
theorem C14_formatAsBin_roundtrip (a : Nat) (h : a < 2 ^ 16) :
    (formatAsBin a).length = 16 ∧ (∀ c ∈ formatAsBin a, c = '0' ∨ c = '1')
    ∧ readBin (formatAsBin a) = a :=
  ⟨binDigits_length 16 a, binDigits_chars 16 a,
    (readBin_binDigits 16 a).trans (Nat.mod_eq_of_lt h)⟩

theorem C14_formatAsBin_roundtrip_witness :
    16384 < 2 ^ 16 ∧ (formatAsBin 16384).length = 16
    ∧ (∀ c ∈ formatAsBin 16384, c = '0' ∨ c = '1') ∧ readBin (formatAsBin 16384) = 16384 :=
  ⟨by decide, C14_formatAsBin_roundtrip 16384 (by decide)⟩

/-! ## Errors of label declarations -/

/-- The scan of `handleLCommand` up to the end of the symbol, on a line `(`,
whitespace `ws1`, symbol characters `s`, and a rest that does not continue
either of them. -/
theorem label_scan (p : Parser) (ws1 s rest tail : Text)
    (hws1 : ∀ c ∈ ws1, isspace c = true) (hs : ∀ c ∈ s, isSymbolChar c = true)
    (hr1 : isSymbolChar (rest.headD NUL) = false)
    (hr2 : s = [] → isspace (rest.headD NUL) = false) :
    skipWhitespaceLoop ((lineRead p ('(' :: (ws1 ++ s ++ rest)) tail 0).currLine.drop (0 + 1))
        (0 + 1) = 1 + ws1.length
    ∧ extractSymbolLoop ((lineRead p ('(' :: (ws1 ++ s ++ rest)) tail 0).currLine.drop
        (1 + ws1.length)) [] (1 + ws1.length) = (s, 1 + ws1.length + s.length)
    ∧ charAt ('(' :: (ws1 ++ s ++ rest)) (1 + ws1.length + s.length) = rest.headD NUL
    ∧ ('(' :: (ws1 ++ s ++ rest)).drop (1 + ws1.length + s.length + 1) = rest.drop 1 := by
  have hsa : isspace ((s ++ rest).headD NUL) = false := by
    cases s with
    | nil => simpa using hr2 rfl
    | cons a u => simpa using isSymbolChar_not_isspace a (hs a (by simp))
  generalize hL : '(' :: (ws1 ++ s ++ rest) = L
  have d1 : L.drop (0 + 1) = ws1 ++ (s ++ rest) :=
    drop_eq_of_append L ['('] _ _ (by simp [← hL]) (by simp)
  have d2 : L.drop (1 + ws1.length) = s ++ rest :=
    drop_eq_of_append L ('(' :: ws1) _ _ (by simp [← hL]) (by simp; omega)
  have d3 : L.drop (1 + ws1.length + s.length) = rest :=
    drop_eq_of_append L ('(' :: (ws1 ++ s)) _ _ (by simp [← hL]) (by simp; omega)
  refine ⟨?_, ?_, ?_, ?_⟩
  · simp only [lineRead, d1]
    simpa using skipWhitespaceLoop_append ws1 _ 1 hws1 hsa
  · simp only [lineRead, d2]
    simpa using extractSymbolLoop_append s rest [] (1 + ws1.length) hs hr1
  · rw [charAt_eq_head_drop, d3]
  · rw [← List.drop_drop, d3]

/-- C12: on a line that starts with `(`, whitespace `ws1` (possibly none) and
a run `s` of symbol characters (possibly empty), both taken as long as they
go: if the character right after `s` is not `)`, `advance` raises a
SyntaxError with message `')' Expected` whose column is the index right after
`s`; and if `)` is there and, after whitespace `ws2` (possibly none), a
character `x` that is not whitespace follows it, `advance` raises a
SyntaxError at the index of `x`. -/
theorem C12_label_errors (V : Mnemonics) (p : Parser) (ws1 s tail : Text)
    (hws1 : ∀ c ∈ ws1, isspace c = true) (hs : ∀ c ∈ s, isSymbolChar c = true) :
    (∀ rest, isSymbolChar (rest.headD NUL) = false →
      (s = [] → isspace (rest.headD NUL) = false) → rest.headD NUL ≠ ')' →
      AtLine p ('(' :: (ws1 ++ s ++ rest)) tail →
      ∃ p', advance V p = some (p', .error (.SyntaxErrorException p.lineNum
        (1 + ws1.length + s.length) ('(' :: (ws1 ++ s ++ rest)) "')' Expected".toList)))
    ∧ (∀ ws2 x rest2, (∀ c ∈ ws2, isspace c = true) → isspace x = false →
      AtLine p ('(' :: (ws1 ++ s ++ ')' :: (ws2 ++ x :: rest2))) tail →
      ∃ p', advance V p = some (p', .error (.SyntaxErrorException p.lineNum
        (1 + ws1.length + s.length + 1 + ws2.length)
        ('(' :: (ws1 ++ s ++ ')' :: (ws2 ++ x :: rest2)))
        ("Unexpected '".toList ++ [x] ++ "'\n".toList)))) := by
  have hstart : ∀ rest, AtLine p ('(' :: (ws1 ++ s ++ rest)) tail →
      advance V p = dispatch V (lineRead p ('(' :: (ws1 ++ s ++ rest)) tail 0) := by
    intro rest h
    have hsk : skipWhitespaceLoop ('(' :: (ws1 ++ s ++ rest)) 0 = 0 := by
      simp [skipWhitespaceLoop, isspace]
    have hm := advance_atLine V p _ tail h (by rw [hsk]; simp) (by rw [hsk]; simp [charAt])
    rw [hsk] at hm
    exact hm
  constructor
  · intro rest hr1 hr2 hne h
    obtain ⟨e1, e2, e3, -⟩ := label_scan p ws1 s rest tail hws1 hs hr1 hr2
    have hl := handleLCommand_eq (lineRead p ('(' :: (ws1 ++ s ++ rest)) tail 0)
      (1 + ws1.length) (1 + ws1.length + s.length) _ s e1 e2 rfl
    rw [if_pos (by simp only [lineRead]; rw [e3]; exact hne)] at hl
    exact ⟨_, (hstart rest h).trans (dispatch_L V _ _ (by simp [lineRead, charAt]) hl)⟩
  · intro ws2 x rest2 hws2 hx h
    obtain ⟨e1, e2, e3, e4⟩ := label_scan p ws1 s (')' :: (ws2 ++ x :: rest2)) tail hws1 hs
      (by simp [isSymbolChar, isalnum, isdigit]) (fun _ => by simp [isspace])
    have e5 : skipWhitespaceLoop ((lineRead p ('(' :: (ws1 ++ s ++ ')' :: (ws2 ++ x :: rest2)))
        tail 0).currLine.drop (1 + ws1.length + s.length + 1)) (1 + ws1.length + s.length + 1)
        = 1 + ws1.length + s.length + 1 + ws2.length := by
      simp only [lineRead, e4, List.drop_succ_cons, List.drop_zero]
      exact skipWhitespaceLoop_append ws2 _ _ hws2 (by simpa using hx)
    have hl := handleLCommand_eq (lineRead p ('(' :: (ws1 ++ s ++ ')' :: (ws2 ++ x :: rest2)))
      tail 0) (1 + ws1.length) (1 + ws1.length + s.length) _ s e1 e2 e5
    have hcx : charAt ('(' :: (ws1 ++ s ++ ')' :: (ws2 ++ x :: rest2)))
        (1 + ws1.length + s.length + 1 + ws2.length) = x :=
      charAt_eq_of_append _ ('(' :: (ws1 ++ s ++ ')' :: ws2)) rest2 x _ (by simp)
        (by simp; omega)
    rw [if_neg (by simp only [lineRead]; rw [e3]; simp),
      if_pos (by simp only [lineRead, List.length_cons, List.length_append]; omega)] at hl
    simp only [lineRead, hcx] at hl
    exact ⟨_, (hstart _ h).trans (dispatch_L V _ _ (by simp [lineRead, charAt]) hl)⟩

theorem C12_label_errors_witness :
    (∀ c ∈ " ".toList, isspace c = true) ∧ (∀ c ∈ "LOOP".toList, isSymbolChar c = true)
    ∧ AtLine (fresh "( LOOP )\n".toList) ('(' :: (" ".toList ++ "LOOP".toList ++ " )".toList))
        "\n".toList
    ∧ (∃ p', advance hack (fresh "( LOOP )\n".toList) = some (p', .error
        (.SyntaxErrorException 1 6 "( LOOP )".toList "')' Expected".toList)))
    ∧ AtLine (fresh "( LOOP) x\n".toList)
        ('(' :: (" ".toList ++ "LOOP".toList ++ ')' :: (" ".toList ++ 'x' :: []))) "\n".toList
    ∧ (∃ p', advance hack (fresh "( LOOP) x\n".toList) = some (p', .error
        (.SyntaxErrorException 1 8 "( LOOP) x".toList "Unexpected 'x'\n".toList))) :=
  ⟨by decide, by decide, by decide,
    (C12_label_errors hack (fresh "( LOOP )\n".toList) " ".toList "LOOP".toList "\n".toList
      (by decide) (by decide)).1 " )".toList (by decide) (by decide) (by decide) (by decide),
    by decide,
    (C12_label_errors hack (fresh "( LOOP) x\n".toList) " ".toList "LOOP".toList "\n".toList
      (by decide) (by decide)).2 " ".toList 'x' [] (by decide) (by decide) (by decide)⟩

/-! ## The scan as a run over characters -/

theorem cRun_done (l : Text) (st : CScan) (h : ¬ st.state < 3) : cRun l st = st := by
  cases l with
  | nil => rfl
  | cons c cs => rw [cRun, if_neg h]

theorem cRun_append (a b : Text) (st : CScan) : cRun (a ++ b) st = cRun b (cRun a st) := by
  induction a generalizing st with
  | nil => rfl
  | cons c cs ih =>
    by_cases h : st.state < 3
    · rw [List.cons_append, cRun, if_pos h, cRun, if_pos h]
      exact ih _
    · rw [cRun_done _ st h, cRun_done _ st h, cRun_done _ st h]

theorem drop_succ_of_drop_cons (line : Text) (k : Nat) (c : Char) (cs : Text)
    (h : line.drop k = c :: cs) : line.drop (k + 1) = cs := by
  rw [← List.drop_drop, h]
  rfl

theorem drop_succ_of_drop_nil (line : Text) (k : Nat) (h : line.drop k = []) :
    line.drop (k + 1) = [] := by
  rw [← List.drop_drop, h]
  rfl

/-- A finished run of the loop is the run of its body over the characters
from the cursor on, followed by NUL for every pass at the end of the line. -/
theorem cLoop_eq_cRun (line : Text) (n : Nat) :
    ∀ (st st' : CScan) (m : Nat), n ≤ (line.drop st.pos).length + m →
      cLoop line n st = some st' →
      st' = cRun (line.drop st.pos ++ List.replicate m NUL) st := by
  induction n with
  | zero =>
    intro st st' m _ h
    by_cases hs : st.state < 3
    · simp [cLoop, hs] at h
    · rw [cLoop_done line 0 st hs] at h
      cases h
      exact (cRun_done _ _ hs).symm
  | succ n ih =>
    intro st st' m hn h
    by_cases hs : st.state < 3
    · rw [cLoop_succ line n st hs, cStep_eq_cBody] at h
      have hpos : (cBody (charAt line st.pos) st).pos = st.pos + 1 := by
        have := (cStep_spec line st hs).1
        rwa [cStep_eq_cBody] at this
      rw [charAt_eq_head_drop] at h hpos
      cases hd : line.drop st.pos with
      | nil =>
        rw [hd] at h hpos hn
        simp only [List.headD_nil, List.length_nil, Nat.zero_add] at h hpos hn
        obtain ⟨m', rfl⟩ : ∃ m', m = m' + 1 := ⟨m - 1, by omega⟩
        have := ih _ st' m' (by
          rw [hpos, drop_succ_of_drop_nil line st.pos hd]
          simp only [List.length_nil, Nat.zero_add]
          omega) h
        rw [hpos, drop_succ_of_drop_nil line st.pos hd] at this
        rw [this, List.nil_append, List.nil_append, List.replicate_succ, cRun, if_pos hs]
      | cons c cs =>
        rw [hd] at h hpos hn
        simp only [List.headD_cons, List.length_cons] at h hpos hn
        have := ih _ st' m (by
          rw [hpos, drop_succ_of_drop_cons line st.pos c cs hd]
          omega) h
        rw [hpos, drop_succ_of_drop_cons line st.pos c cs hd] at this
        rw [this, List.cons_append, cRun, if_pos hs]
    · rw [cLoop_done line _ st hs] at h
      cases h
      exact (cRun_done _ _ hs).symm

/-- The loop of `handleCCommand` finishes within its fuel, in state 3, and
gives `scanLine`. -/
theorem scan_eq (line : Text) (k : Nat) (d c j : Text) :
    cLoop line (line.length - k + 3) ⟨0, [], k, k, k, d, c, j⟩ = some (scanLine line k d c j)
    ∧ (scanLine line k d c j).state = 3 := by
  obtain ⟨st', h1, h2, -⟩ := cLoop_total line (line.length - k + 3) ⟨0, [], k, k, k, d, c, j⟩
    (by simp) (by simp)
  have := cLoop_eq_cRun line _ ⟨0, [], k, k, k, d, c, j⟩ st' 3 (by simp) h1
  have he : st' = scanLine line k d c j := this
  rw [← he]
  exact ⟨h1, h2⟩

theorem handleCCommand_scan (V : Mnemonics) (q : Parser) :
    handleCCommand V q
      = some (validate V q (skipWhitespaceLoop (q.currLine.drop q.pos) q.pos)
          (scanLine q.currLine (skipWhitespaceLoop (q.currLine.drop q.pos) q.pos)
            q.dest q.comp q.jump)) := by
  rw [handleCCommand_eq V q _ _ rfl (scan_eq q.currLine _ q.dest q.comp q.jump).1]
  unfold validate
  split
  · rfl
  · split
    · rfl
    · split <;> rfl

/-- What `advance` does on a compute line: whitespace `ws`, then a character
`c0` that is neither whitespace nor `(`, `@` or `/`, then any text. -/
theorem advance_computeLine (V : Mnemonics) (p : Parser) (ws : Text) (c0 : Char)
    (rest tail : Text) (hws : ∀ c ∈ ws, isspace c = true) (hc0 : isspace c0 = false)
    (h1 : c0 ≠ '(') (h2 : c0 ≠ '@') (h3 : c0 ≠ '/') (h : AtLine p (ws ++ c0 :: rest) tail) :
    advance V p
      = finish (some (validate V (lineRead p (ws ++ c0 :: rest) tail ws.length) ws.length
          (scanLine (ws ++ c0 :: rest) ws.length p.dest p.comp p.jump))) := by
  have hc : charAt (ws ++ c0 :: rest) ws.length = c0 := charAt_append_cons ws c0 rest
  have hsk : skipWhitespaceLoop (ws ++ c0 :: rest) 0 = ws.length := by
    simpa using skipWhitespaceLoop_append ws (c0 :: rest) 0 hws (by simpa using hc0)
  have hm := advance_atLine V p _ tail h (by rw [hsk]; simp) (by rw [hsk, hc]; exact h3)
  rw [hsk] at hm
  have hk : skipWhitespaceLoop ((ws ++ c0 :: rest).drop ws.length) ws.length = ws.length := by
    rw [List.drop_left]
    exact skipWhitespaceLoop_stop _ _ (by simpa using hc0)
  have hq := handleCCommand_scan V (lineRead p (ws ++ c0 :: rest) tail ws.length)
  simp only [lineRead] at hq
  rw [hk] at hq
  exact hm.trans (dispatch_C V _ _ (by simpa only [lineRead, hc] using h1)
    (by simpa only [lineRead, hc] using h2) hq)

/-! ## The order of validation -/

/-- C13: on a compute line the fields that the scan found are validated in
the order destination, computation, jump, and one error at most is raised: a
rejected destination gives `Bad destination.` whatever the other two are; with
the destination accepted a rejected computation gives `Bad comp.` whatever the
jump is; `Bad jump.` is raised only when the other two are accepted; and
`advance` succeeds, with kind Compute, if and only if all three are accepted. -/
theorem C13_validation_order (V : Mnemonics) (p : Parser) (ws : Text) (c0 : Char)
    (rest tail : Text) (hws : ∀ c ∈ ws, isspace c = true) (hc0 : isspace c0 = false)
    (h1 : c0 ≠ '(') (h2 : c0 ≠ '@') (h3 : c0 ≠ '/') (h : AtLine p (ws ++ c0 :: rest) tail) :
    (V.dest_mnemonics (scanLine (ws ++ c0 :: rest) ws.length p.dest p.comp p.jump).dest = false →
      ∃ p', advance V p = some (p', .error (.SyntaxErrorException p.lineNum ws.length
        (ws ++ c0 :: rest) ("Bad destination. '".toList
          ++ (scanLine (ws ++ c0 :: rest) ws.length p.dest p.comp p.jump).dest
          ++ "' given.".toList))))
    ∧ (V.dest_mnemonics (scanLine (ws ++ c0 :: rest) ws.length p.dest p.comp p.jump).dest = true →
      V.comp_mnemonics (scanLine (ws ++ c0 :: rest) ws.length p.dest p.comp p.jump).comp = false →
      ∃ p', advance V p = some (p', .error (.SyntaxErrorException p.lineNum
        (scanLine (ws ++ c0 :: rest) ws.length p.dest p.comp p.jump).comp_pos
        (ws ++ c0 :: rest) ("Bad comp. '".toList
          ++ (scanLine (ws ++ c0 :: rest) ws.length p.dest p.comp p.jump).comp
          ++ "' given.".toList))))
    ∧ (V.dest_mnemonics (scanLine (ws ++ c0 :: rest) ws.length p.dest p.comp p.jump).dest = true →
      V.comp_mnemonics (scanLine (ws ++ c0 :: rest) ws.length p.dest p.comp p.jump).comp = true →
      V.jump_mnemonics (scanLine (ws ++ c0 :: rest) ws.length p.dest p.comp p.jump).jump = false →
      ∃ p', advance V p = some (p', .error (.SyntaxErrorException p.lineNum
        (scanLine (ws ++ c0 :: rest) ws.length p.dest p.comp p.jump).jump_pos
        (ws ++ c0 :: rest) ("Bad jump. '".toList
          ++ (scanLine (ws ++ c0 :: rest) ws.length p.dest p.comp p.jump).jump
          ++ "' given.".toList))))
    ∧ ((∃ p', advance V p = some (p', .ok ()) ∧ commandType p' = .C_COMMAND)
      ↔ (V.dest_mnemonics (scanLine (ws ++ c0 :: rest) ws.length p.dest p.comp p.jump).dest = true
        ∧ V.comp_mnemonics (scanLine (ws ++ c0 :: rest) ws.length p.dest p.comp p.jump).comp = true
        ∧ V.jump_mnemonics (scanLine (ws ++ c0 :: rest) ws.length p.dest p.comp p.jump).jump
            = true)) := by
  have ha := advance_computeLine V p ws c0 rest tail hws hc0 h1 h2 h3 h
  generalize scanLine (ws ++ c0 :: rest) ws.length p.dest p.comp p.jump = st at ha ⊢
  unfold validate at ha
  refine ⟨?_, ?_, ?_, ?_⟩
  · intro hd
    rw [if_pos (by simp [hd])] at ha
    exact ⟨_, ha⟩
  · intro hd hc
    rw [if_neg (by simp [hd]), if_pos (by simp [hc])] at ha
    exact ⟨_, ha⟩
  · intro hd hc hj
    rw [if_neg (by simp [hd]), if_neg (by simp [hc]), if_pos (by simp [hj])] at ha
    exact ⟨_, ha⟩
  · constructor
    · rintro ⟨p', hp, -⟩
      rw [ha] at hp
      by_cases hd : V.dest_mnemonics st.dest = true
      · by_cases hc : V.comp_mnemonics st.comp = true
        · by_cases hj : V.jump_mnemonics st.jump = true
          · exact ⟨hd, hc, hj⟩
          · rw [if_neg (by simp [hd]), if_neg (by simp [hc]), if_pos (by simpa using hj)] at hp
            simp [finish] at hp
        · rw [if_neg (by simp [hd]), if_pos (by simpa using hc)] at hp
          simp [finish] at hp
      · rw [if_pos (by simpa using hd)] at hp
        simp [finish] at hp
    · rintro ⟨hd, hc, hj⟩
      rw [if_neg (by simp [hd]), if_neg (by simp [hc]), if_neg (by simp [hj])] at ha
      exact ⟨_, ha, rfl⟩

theorem C13_validation_order_witness :
    (∀ c ∈ " ".toList, isspace c = true) ∧ isspace 'D' = false
    ∧ AtLine (fresh " D=X;JXX\n".toList) (" ".toList ++ 'D' :: "=X;JXX".toList) "\n".toList
    ∧ hack.dest_mnemonics (scanLine (" ".toList ++ 'D' :: "=X;JXX".toList) 1 [] [] []).dest = true
    ∧ hack.comp_mnemonics (scanLine (" ".toList ++ 'D' :: "=X;JXX".toList) 1 [] [] []).comp = false
    ∧ ∃ p', advance hack (fresh " D=X;JXX\n".toList) = some (p', .error
        (.SyntaxErrorException 1 2 " D=X;JXX".toList "Bad comp. 'X' given.".toList)) :=
  ⟨by decide, by decide, by decide, by decide, by decide,
    (C13_validation_order hack (fresh " D=X;JXX\n".toList) " ".toList 'D' "=X;JXX".toList
      "\n".toList (by decide) (by decide) (by decide) (by decide) (by decide)
      (by decide)).2.1 (by decide) (by decide)⟩

/-! ## What the fields depend on -/

theorem agree_refl (st : CScan) : Agree st st :=
  ⟨rfl, fun _ => rfl, fun _ => rfl, fun _ => rfl, fun _ => rfl⟩

theorem agree_trans {a b c : CScan} (h1 : Agree a b) (h2 : Agree b c) : Agree a c := by
  obtain ⟨a1, a2, a3, a4, a5⟩ := h1
  obtain ⟨b1, b2, b3, b4, b5⟩ := h2
  refine ⟨a1.trans b1, fun h => (a2 h).trans (b2 (a1 ▸ h)), fun h => (a3 h).trans (b3 (a1 ▸ h)),
    fun h => (a4 h).trans (b4 (a1 ▸ h)), fun h => (a5 h).trans (b5 (a1 ▸ h))⟩

theorem agree_symm {a b : CScan} (h : Agree a b) : Agree b a := by
  obtain ⟨a1, a2, a3, a4, a5⟩ := h
  exact ⟨a1.symm, fun h => (a2 (a1 ▸ h)).symm, fun h => (a3 (a1 ▸ h)).symm,
    fun h => (a4 (a1 ▸ h)).symm, fun h => (a5 (a1 ▸ h)).symm⟩

/-- The loop body keeps two scans in agreement. -/
theorem cBody_agree (c : Char) (st st' : CScan) (h : Agree st st') :
    Agree (cBody c st) (cBody c st') := by
  obtain ⟨state, s, pos, cp, jp, d, co, j⟩ := st
  obtain ⟨state', s', pos', cp', jp', d', co', j'⟩ := st'
  simp only [Agree] at h
  obtain ⟨rfl, h2, h3, h4, h5⟩ := h
  unfold cBody Agree
  by_cases hsp : isspace c = true
  · rw [if_pos hsp, if_pos hsp]
    exact ⟨rfl, h2, h3, h4, h5⟩
  · have hsp' : isspace c = false := by simpa using hsp
    simp only [hsp', Bool.false_eq_true, if_false]
    by_cases e0 : state = 0
    · subst e0
      have hs : s = s' := h2 (by omega)
      subst hs
      simp only [if_true]
      split_ifs <;> simp
    · by_cases e1 : state = 1
      · subst e1
        have hs : s = s' := h2 (by omega)
        have hd : d = d' := h3 (by omega)
        subst hs hd
        simp only [if_true, if_false, OfNat.one_ne_ofNat, one_ne_zero]
        split_ifs <;> simp
      · by_cases e2 : state = 2
        · subst e2
          have hs : s = s' := h2 (by omega)
          have hd : d = d' := h3 (by omega)
          have hc : co = co' := h4 (by omega)
          subst hs hd hc
          simp only [if_true, if_false, OfNat.ofNat_ne_zero, OfNat.ofNat_ne_one]
          split_ifs <;> simp
        · simp only [e0, e1, e2, if_false, true_and]
          refine ⟨fun h => ?_, h3, h4, h5⟩
          omega

/-- A whitespace character only moves the cursor. -/
theorem cBody_space (c : Char) (st : CScan) (hc : isspace c = true) : Agree (cBody c st) st := by
  unfold cBody
  rw [if_pos hc]
  exact ⟨rfl, fun _ => rfl, fun _ => rfl, fun _ => rfl, fun _ => rfl⟩

theorem cRun_agree (l : Text) (st st' : CScan) (h : Agree st st') :
    Agree (cRun l st) (cRun l st') := by
  induction l generalizing st st' with
  | nil => exact h
  | cons c cs ih =>
    unfold cRun
    by_cases hs : st.state < 3
    · rw [if_pos hs, if_pos (h.1 ▸ hs)]
      exact ih _ _ (cBody_agree c st st' h)
    · rw [if_neg hs, if_neg (h.1 ▸ hs)]
      exact h

/-- Whitespace does not count: the run over a text and the run over the text
without its whitespace agree. -/
theorem cRun_agree_filter (l : Text) (st st' : CScan) (h : Agree st st') :
    Agree (cRun l st) (cRun (l.filter (fun c => !isspace c)) st') := by
  induction l generalizing st st' with
  | nil => exact h
  | cons c cs ih =>
    by_cases hs : st.state < 3
    · by_cases hc : isspace c = true
      · rw [cRun, if_pos hs, List.filter_cons_of_neg (by simp [hc])]
        exact ih _ _ (agree_trans (cBody_space c st hc) h)
      · rw [cRun, if_pos hs, List.filter_cons_of_pos (by simpa using hc), cRun,
          if_pos (h.1 ▸ hs)]
        exact ih _ _ (cBody_agree c st st' h)
    · rw [cRun_done _ st hs, cRun_done _ st' (h.1 ▸ hs)]
      exact h

/-- Once both scans are in state 3 they have found the same three fields. -/
theorem agree_fields {a b : CScan} (h : Agree a b) (h3 : a.state = 3) :
    a.dest = b.dest ∧ a.comp = b.comp ∧ a.jump = b.jump :=
  ⟨h.2.2.1 (by omega), h.2.2.2.1 (by omega), h.2.2.2.2 (by omega)⟩

/-- The verdict of the validation depends on the three fields only. -/
theorem validate_sameVerdict (V : Mnemonics) (q q' : Parser) (k k' : Nat) (st st' : CScan)
    (hd : st.dest = st'.dest) (hc : st.comp = st'.comp) (hj : st.jump = st'.jump) :
    ∃ r r', finish (some (validate V q k st)) = some r
      ∧ finish (some (validate V q' k' st')) = some r' ∧ SameVerdict r r' := by
  unfold validate
  rw [← hd, ← hc, ← hj]
  by_cases v1 : (!V.dest_mnemonics st.dest) = true
  · rw [if_pos v1, if_pos v1]
    exact ⟨_, _, rfl, rfl, rfl, rfl, rfl, by simp [finish], by simp [finish, errorMessage]⟩
  · rw [if_neg v1, if_neg v1]
    by_cases v2 : (!V.comp_mnemonics st.comp) = true
    · rw [if_pos v2, if_pos v2]
      exact ⟨_, _, rfl, rfl, rfl, rfl, rfl, by simp [finish], by simp [finish, errorMessage]⟩
    · rw [if_neg v2, if_neg v2]
      by_cases v3 : (!V.jump_mnemonics st.jump) = true
      · rw [if_pos v3, if_pos v3]
        exact ⟨_, _, rfl, rfl, rfl, rfl, rfl, by simp [finish], by simp [finish, errorMessage]⟩
      · rw [if_neg v3, if_neg v3]
        exact ⟨_, _, rfl, rfl, rfl, rfl, rfl, by simp [finish], by simp [finish, errorMessage]⟩

/-! ## Termination of the scan -/

/-- C20: on every line and from every start cursor the loop of
`handleCCommand` reaches state 3 within `size() - _pos + 3` passes; a pass
never lowers the state and always moves the cursor on by one; the three fields
found do not depend on what `_dest`, `_comp` and `_jump` held before, so all
three have been assigned when the loop exits; and `handleCCommand` yields an
outcome on every parser state. -/
theorem C20_scan_terminates (line : Text) (k : Nat) (d c j d' c' j' : Text) :
    (cLoop line (line.length - k + 3) ⟨0, [], k, k, k, d, c, j⟩ = some (scanLine line k d c j)
      ∧ (scanLine line k d c j).state = 3)
    ∧ (∀ st : CScan, st.state < 3 →
        st.state ≤ (cStep line st).state ∧ (cStep line st).state ≤ 3
        ∧ (cStep line st).pos = st.pos + 1)
    ∧ ((scanLine line k d' c' j').dest = (scanLine line k d c j).dest
        ∧ (scanLine line k d' c' j').comp = (scanLine line k d c j).comp
        ∧ (scanLine line k d' c' j').jump = (scanLine line k d c j).jump)
    ∧ (∀ (V : Mnemonics) (p : Parser), ∃ r, handleCCommand V p = some r) := by
  refine ⟨scan_eq line k d c j, ?_, ?_, fun V p => ⟨_, handleCCommand_scan V p⟩⟩
  · intro st hs
    obtain ⟨h1, h2, h3, -⟩ := cStep_spec line st hs
    exact ⟨h2, h3, h1⟩
  · have hag : Agree (scanLine line k d' c' j') (scanLine line k d c j) :=
      cRun_agree _ _ _ ⟨rfl, fun _ => rfl, fun h => by simp at h, fun h => by simp at h,
        fun h => by simp at h⟩
    exact agree_fields hag (scan_eq line k d' c' j').2

/-! ## Whitespace in a compute instruction -/

theorem filter_pad (l : Text) :
    (l ++ [NUL, NUL, NUL]).filter (fun c => !isspace c)
      = l.filter (fun c => !isspace c) ++ [NUL, NUL, NUL] := by
  rw [List.filter_append]
  rfl

/-- C16: whitespace is insignificant in a compute instruction. For a line
dispatched to compute handling (after its leading whitespace it starts with a
character other than `(`, `@` and `/`), `advance` on the line and `advance` on
the line with all whitespace characters deleted give the same destination,
computation and jump, succeed or fail together, and on failure raise the same
message, which names the rejected field. -/
theorem C16_whitespace_insignificant (V : Mnemonics) (p p' : Parser) (ws : Text) (c0 : Char)
    (rest tail tail' : Text) (hws : ∀ c ∈ ws, isspace c = true) (hc0 : isspace c0 = false)
    (h1 : c0 ≠ '(') (h2 : c0 ≠ '@') (h3 : c0 ≠ '/') (h : AtLine p (ws ++ c0 :: rest) tail)
    (h' : AtLine p' ((ws ++ c0 :: rest).filter (fun c => !isspace c)) tail') :
    ∃ r r', advance V p = some r ∧ advance V p' = some r' ∧ SameVerdict r r' := by
  have hf : (ws ++ c0 :: rest).filter (fun c => !isspace c)
      = [] ++ c0 :: rest.filter (fun c => !isspace c) := by
    rw [List.filter_append, List.filter_cons_of_pos (by simpa using hc0)]
    have : ws.filter (fun c => !isspace c) = [] := by
      rw [List.filter_eq_nil_iff]
      intro a ha
      simp [hws a ha]
    rw [this]
  rw [hf] at h'
  have ha := advance_computeLine V p ws c0 rest tail hws hc0 h1 h2 h3 h
  have ha' := advance_computeLine V p' [] c0 _ tail' (by simp) hc0 h1 h2 h3 h'
  have hag : Agree (scanLine (ws ++ c0 :: rest) ws.length p.dest p.comp p.jump)
      (scanLine ([] ++ c0 :: rest.filter (fun c => !isspace c)) ([] : Text).length
        p'.dest p'.comp p'.jump) := by
    unfold scanLine
    have e1 : (ws ++ c0 :: rest).drop ws.length = c0 :: rest := List.drop_left _ _
    have e2 : (c0 :: rest ++ [NUL, NUL, NUL]).filter (fun c => !isspace c)
        = c0 :: rest.filter (fun c => !isspace c) ++ [NUL, NUL, NUL] := by
      rw [filter_pad, List.filter_cons_of_pos (by simpa using hc0)]
    rw [e1]
    simp only [List.nil_append, List.length_nil, List.drop_zero]
    rw [← e2]
    exact cRun_agree_filter _ _ _ ⟨rfl, fun _ => rfl, fun h => by simp at h,
      fun h => by simp at h, fun h => by simp at h⟩
  obtain ⟨hd, hc, hj⟩ := agree_fields hag (scan_eq _ _ _ _ _).2
  obtain ⟨r, r', e1, e2, hv⟩ := validate_sameVerdict V
    (lineRead p (ws ++ c0 :: rest) tail ws.length)
    (lineRead p' ([] ++ c0 :: rest.filter (fun c => !isspace c)) tail' ([] : Text).length)
    ws.length ([] : Text).length _ _ hd hc hj
  exact ⟨r, r', ha.trans e1, ha'.trans e2, hv⟩

theorem C16_whitespace_insignificant_witness :
    (∀ c ∈ " ".toList, isspace c = true) ∧ isspace 'D' = false
    ∧ AtLine (fresh " D = M + 1 ; JGT \n".toList) (" ".toList ++ 'D' :: " = M + 1 ; JGT ".toList)
        "\n".toList
    ∧ AtLine (fresh "D=M+1;JGT\n".toList)
        ((" ".toList ++ 'D' :: " = M + 1 ; JGT ".toList).filter (fun c => !isspace c)) "\n".toList
    ∧ ∃ r r', advance hack (fresh " D = M + 1 ; JGT \n".toList) = some r
        ∧ advance hack (fresh "D=M+1;JGT\n".toList) = some r' ∧ SameVerdict r r' :=
  ⟨by decide, by decide, by decide, by decide,
    C16_whitespace_insignificant hack (fresh " D = M + 1 ; JGT \n".toList)
      (fresh "D=M+1;JGT\n".toList) " ".toList 'D' " = M + 1 ; JGT ".toList "\n".toList
      "\n".toList (by decide) (by decide) (by decide) (by decide) (by decide) (by decide)
      (by decide)⟩

/-! ## A trailing comment after a compute instruction -/

theorem cRun_cons (c : Char) (cs : Text) (st : CScan) (h : st.state < 3) :
    cRun (c :: cs) st = cRun cs (cBody c st) := by
  rw [cRun, if_pos h]

theorem agree_init (k k' : Nat) (d c j d' c' j' : Text) :
    Agree ⟨0, [], k, k, k, d, c, j⟩ ⟨0, [], k', k', k', d', c', j'⟩ :=
  ⟨rfl, fun _ => rfl, fun h => by simp at h, fun h => by simp at h, fun h => by simp at h⟩

theorem cRun_spaces (ws : Text) (st : CScan) (hws : ∀ c ∈ ws, isspace c = true) :
    Agree (cRun ws st) st := by
  have h := cRun_agree_filter ws st st (agree_refl st)
  have e : ws.filter (fun c => !isspace c) = [] := by
    rw [List.filter_eq_nil_iff]
    intro a ha
    simp [hws a ha]
  rw [e] at h
  exact h

/-- In every state `/` does what the end of the line does, up to the
accumulator once state 3 is reached. -/
theorem cBody_slash_agree (st : CScan) : Agree (cBody '/' st) (cBody NUL st) := by
  obtain ⟨state, s, pos, cp, jp, d, co, j⟩ := st
  by_cases e0 : state = 0
  · subst e0
    rw [cBody_slash0, cBody_NUL0]
    exact agree_refl _
  · by_cases e1 : state = 1
    · subst e1
      rw [cBody_slash1, cBody_NUL1]
      exact agree_refl _
    · by_cases e2 : state = 2
      · subst e2
        rw [cBody_slash2, cBody_NUL2]
        exact ⟨rfl, fun h => by simp at h, fun _ => rfl, fun _ => rfl, fun _ => rfl⟩
      · unfold cBody
        simp only [isspace_NUL, Bool.false_eq_true, if_false, e0, e1, e2]
        rw [if_neg (by decide)]
        exact ⟨rfl, fun h => by simp at h; omega, fun _ => rfl, fun _ => rfl, fun _ => rfl⟩

/-- At the end of the line each pass raises the state, and from state 0 it
goes to state 2. -/
theorem cBody_NUL_state (st : CScan) (h : st.state < 3) :
    st.state < (cBody NUL st).state ∧ (cBody NUL st).state ≤ 3
    ∧ (st.state = 0 → (cBody NUL st).state = 2) := by
  have hs := cStep_spec [] st h
  have e : cStep [] st = cBody NUL st := by
    rw [cStep_eq_cBody]
    rfl
  rw [e] at hs
  refine ⟨hs.2.2.2.1 (by simp), hs.2.2.1, ?_⟩
  intro h0
  obtain ⟨state, s, pos, cp, jp, d, co, j⟩ := st
  simp only at h0
  subst h0
  rw [cBody_NUL0]

/-- After any whitespace, `//` and whatever follows it leave the scan where
the end of the line leaves it. -/
theorem cRun_comment_agree (a b : CScan) (h : Agree a b) (ws more : Text)
    (hws : ∀ c ∈ ws, isspace c = true) :
    Agree (cRun [NUL, NUL, NUL] a) (cRun (ws ++ '/' :: '/' :: more) b) := by
  rw [cRun_append]
  have hb : Agree a (cRun ws b) := agree_trans h (agree_symm (cRun_spaces ws b hws))
  generalize cRun ws b = b1 at hb
  by_cases hs : a.state < 3
  · have hs' : b1.state < 3 := hb.1 ▸ hs
    have h1 : Agree (cBody NUL a) (cBody '/' b1) :=
      agree_trans (cBody_agree NUL a b1 hb) (agree_symm (cBody_slash_agree b1))
    obtain ⟨n1, n2, n3⟩ := cBody_NUL_state a hs
    rw [cRun_cons NUL _ a hs, cRun_cons '/' _ b1 hs']
    by_cases hs2 : (cBody NUL a).state < 3
    · have hs2' : (cBody '/' b1).state < 3 := h1.1 ▸ hs2
      have h2 : Agree (cBody NUL (cBody NUL a)) (cBody '/' (cBody '/' b1)) :=
        agree_trans (cBody_agree NUL _ _ h1) (agree_symm (cBody_slash_agree _))
      obtain ⟨m1, m2, -⟩ := cBody_NUL_state _ hs2
      have h3 : ¬ (cBody NUL (cBody NUL a)).state < 3 := by
        by_cases a0 : a.state = 0
        · have := n3 a0
          omega
        · omega
      rw [cRun_cons NUL _ _ hs2, cRun_cons '/' _ _ hs2', cRun_done _ _ h3,
        cRun_done _ _ (h2.1 ▸ h3)]
      exact h2
    · rw [cRun_done _ _ hs2, cRun_done _ _ (h1.1 ▸ hs2)]
      exact h1
  · rw [cRun_done _ _ hs, cRun_done _ _ (hb.1 ▸ hs)]
    exact hb

/-- C17: for a compute line `L` (after its leading whitespace it starts with
a character other than `(`, `@` and `/`) and every text `t`, `advance` on `L`
followed by whitespace (possibly none), `//` and `t` gives the same
destination, computation and jump as `advance` on `L` alone, succeeds or fails
with it, and on failure raises the same message, which names the rejected
field; nothing of `t` gets into a field. -/
theorem C17_trailing_comment (V : Mnemonics) (p p' : Parser) (ws0 : Text) (c0 : Char)
    (rest ws t tail tail' : Text) (hws0 : ∀ c ∈ ws0, isspace c = true)
    (hc0 : isspace c0 = false) (h1 : c0 ≠ '(') (h2 : c0 ≠ '@') (h3 : c0 ≠ '/')
    (hws : ∀ c ∈ ws, isspace c = true) (h : AtLine p (ws0 ++ c0 :: rest) tail)
    (h' : AtLine p' (ws0 ++ c0 :: (rest ++ (ws ++ '/' :: '/' :: t))) tail') :
    ∃ r r', advance V p = some r ∧ advance V p' = some r' ∧ SameVerdict r r' := by
  have ha := advance_computeLine V p ws0 c0 rest tail hws0 hc0 h1 h2 h3 h
  have ha' := advance_computeLine V p' ws0 c0 _ tail' hws0 hc0 h1 h2 h3 h'
  have hag : Agree (scanLine (ws0 ++ c0 :: rest) ws0.length p.dest p.comp p.jump)
      (scanLine (ws0 ++ c0 :: (rest ++ (ws ++ '/' :: '/' :: t))) ws0.length
        p'.dest p'.comp p'.jump) := by
    unfold scanLine
    rw [List.drop_left, List.drop_left]
    have e : c0 :: (rest ++ (ws ++ '/' :: '/' :: t)) ++ [NUL, NUL, NUL]
        = (c0 :: rest) ++ (ws ++ '/' :: '/' :: (t ++ [NUL, NUL, NUL])) := by simp
    rw [e, cRun_append, cRun_append]
    exact cRun_comment_agree _ _ (cRun_agree _ _ _ (agree_init _ _ _ _ _ _ _ _)) ws _ hws
  obtain ⟨hd, hc, hj⟩ := agree_fields hag (scan_eq _ _ _ _ _).2
  obtain ⟨r, r', e1, e2, hv⟩ := validate_sameVerdict V
    (lineRead p (ws0 ++ c0 :: rest) tail ws0.length)
    (lineRead p' (ws0 ++ c0 :: (rest ++ (ws ++ '/' :: '/' :: t))) tail' ws0.length)
    ws0.length ws0.length _ _ hd hc hj
  exact ⟨r, r', ha.trans e1, ha'.trans e2, hv⟩

theorem C17_trailing_comment_witness :
    (∀ c ∈ ([] : Text), isspace c = true) ∧ isspace 'D' = false
    ∧ (∀ c ∈ "  ".toList, isspace c = true)
    ∧ AtLine (fresh "D=M+1\n".toList) ([] ++ 'D' :: "=M+1".toList) "\n".toList
    ∧ AtLine (fresh "D=M+1  // D=A;JMP\n".toList)
        ([] ++ 'D' :: ("=M+1".toList ++ ("  ".toList ++ '/' :: '/' :: " D=A;JMP".toList)))
        "\n".toList
    ∧ ∃ r r', advance hack (fresh "D=M+1\n".toList) = some r
        ∧ advance hack (fresh "D=M+1  // D=A;JMP\n".toList) = some r' ∧ SameVerdict r r' :=
  ⟨by decide, by decide, by decide, by decide, by decide,
    C17_trailing_comment hack (fresh "D=M+1\n".toList) (fresh "D=M+1  // D=A;JMP\n".toList)
      [] 'D' "=M+1".toList "  ".toList " D=A;JMP".toList "\n".toList "\n".toList
      (by decide) (by decide) (by decide) (by decide) (by decide) (by decide) (by decide)
      (by decide)⟩
